import Mathlib

/-!
Verification development for the Skia GPU resource cache
(`GrResourceCache`, file `src/gpu/GrResourceCache.cpp` of the repository).

The cache tracks GPU resources in two partitions: an unordered
nonpurgeable array (resources with outstanding references or pending
I/O) and a purgeable priority queue ordered by timestamp.  Resources
are indexed by a scratch key (a multimap) and a unique key (an
injective hash).  The development below is a shallow embedding of the
cache controller: each C++ member function of `GrResourceCache` that
appears in the source becomes a Lean function on an explicit cache
state.  Collaborator classes that are declared elsewhere
(`GrGpuResource`, `SkTDPQueue`, `SkTMultiMap`, `SkTDynamicHash`, and
the inline members of `GrResourceCache` in its header) are modelled
from the specification; each such definition carries a doc comment
saying so.
-/

/-- Modelled from the spec: the resource trait seen by the cache
(`GrGpuResource` is outside the cache source).  A resource carries a
GPU memory size, a budgeted flag, a wrapped flag, an optional scratch
key and optional unique key (validity = `Option.isSome`), a 32-bit
timestamp, the intrusive back-index into its partition, an external
reference count, and a pending-I/O flag. -/
structure GrGpuResource where
  rid : Nat
  size : Nat
  budgeted : Bool
  wrapped : Bool
  scratchKey : Option Nat
  uniqueKey : Option Nat
  timestamp : Nat
  cacheIndex : Int
  refCnt : Nat
  pendingIO : Bool
deriving Repr, DecidableEq

/-- Modelled from the spec: `GrGpuResource::isPurgeable` — a resource
is purgeable when it has no outstanding references and no pending
I/O. -/
def isPurgeable (r : GrGpuResource) : Bool :=
  decide (r.refCnt = 0) && !r.pendingIO

/-- Modelled from the spec: `GrGpuResource::CacheAccess::isScratch` —
scratch-keyed with no unique key. -/
def isScratch (r : GrGpuResource) : Bool :=
  r.scratchKey.isSome && !r.uniqueKey.isSome

/-- The cache state: the two partitions, the two key indices, the
byte/count totals, the budget limits, the timestamp counter, and the
over-budget callback slot (constructor-initialized to null, i.e.
not installed).  `fCalledNullCB` records whether the cache ever
invoked the callback while it was still null. -/
structure GrResourceCache where
  fNonpurgeableResources : List GrGpuResource
  fPurgeableQueue : List GrGpuResource
  fScratchMap : List (Nat × Nat)
  fUniqueHash : List (Nat × Nat)
  fBytes : Nat
  fBudgetedCount : Nat
  fBudgetedBytes : Nat
  fMaxCount : Nat
  fMaxBytes : Nat
  fTimestamp : Nat
  fOverBudgetCB : Bool
  fCalledNullCB : Bool
deriving Repr, DecidableEq

/-- `kDefaultMaxCount = 2 * (1 << 10)`. -/
def kDefaultMaxCount : Nat := 2 * (1 <<< 10)

/-- `kDefaultMaxSize = 96 * (1 << 20)`. -/
def kDefaultMaxSize : Nat := 96 * (1 <<< 20)

/-- The `GrResourceCache` constructor: empty partitions and maps, zero
totals, default limits, timestamp counter 0, and a NULL over-budget
callback. -/
def grResourceCacheNew : GrResourceCache where
  fNonpurgeableResources := []
  fPurgeableQueue := []
  fScratchMap := []
  fUniqueHash := []
  fBytes := 0
  fBudgetedCount := 0
  fBudgetedBytes := 0
  fMaxCount := kDefaultMaxCount
  fMaxBytes := kDefaultMaxSize
  fTimestamp := 0
  fOverBudgetCB := false
  fCalledNullCB := false

/-- `GrResourceCache::getResourceCount`: resources tracked across both
partitions. -/
def getResourceCount (c : GrResourceCache) : Nat :=
  c.fPurgeableQueue.length + c.fNonpurgeableResources.length

/-- Modelled from the spec: `GrResourceCache::overBudget` (an inline
header member) — the cache is over budget when the budgeted byte total
exceeds `fMaxBytes` or the budgeted count exceeds `fMaxCount`. -/
def overBudget (c : GrResourceCache) : Bool :=
  decide (c.fMaxBytes < c.fBudgetedBytes) || decide (c.fMaxCount < c.fBudgetedCount)

/-- The tracked resources: nonpurgeable array followed by the
purgeable queue. -/
def tracked (c : GrResourceCache) : List GrGpuResource :=
  c.fNonpurgeableResources ++ c.fPurgeableQueue

/-- The ids of all tracked resources. -/
def trackedRids (c : GrResourceCache) : List Nat :=
  (tracked c).map (fun r => r.rid)

/-- Look a tracked resource up by id (the model's stand-in for a C++
resource pointer): first match in the nonpurgeable array, then in the
purgeable queue. -/
def lookupRes (c : GrResourceCache) (i : Nat) : Option GrGpuResource :=
  match c.fNonpurgeableResources.find? (fun r => r.rid == i) with
  | some r => some r
  | none => c.fPurgeableQueue.find? (fun r => r.rid == i)

/-- Update the tracked resource with id `i` in place (both partitions),
the model's stand-in for mutating through a C++ pointer. -/
def setRes (c : GrResourceCache) (i : Nat) (f : GrGpuResource → GrGpuResource) :
    GrResourceCache :=
  { c with
    fNonpurgeableResources :=
      c.fNonpurgeableResources.map (fun r => if r.rid = i then f r else r)
    fPurgeableQueue :=
      c.fPurgeableQueue.map (fun r => if r.rid = i then f r else r) }

/-- Rewrite the back-index of every resource of a queue to its
position, starting at `i`.  This models the index bookkeeping that
`SkTDPQueue` performs through its `setIndex` callback. -/
def setIdxFrom : Nat → List GrGpuResource → List GrGpuResource
  | _, [] => []
  | i, r :: t => { r with cacheIndex := (i : Int) } :: setIdxFrom (i + 1) t

/-- Insert a resource into a timestamp-sorted queue, before the first
strictly younger entry. -/
def orderedInsert (r : GrGpuResource) : List GrGpuResource → List GrGpuResource
  | [] => [r]
  | h :: t => if r.timestamp < h.timestamp then r :: h :: t else h :: orderedInsert r t

/-- Modelled from the spec: `SkTDPQueue::insert` on the purgeable heap
— a min-heap keyed by `CompareTimestamp`, represented as a
timestamp-sorted list whose entries store their positions. -/
def pqInsert (r : GrGpuResource) (l : List GrGpuResource) : List GrGpuResource :=
  setIdxFrom 0 (orderedInsert r l)

/-- Modelled from the spec: `SkTDPQueue::remove` of the entry with id
`i` (arbitrary-position removal via the stored index). -/
def pqRemoveId (i : Nat) (l : List GrGpuResource) : List GrGpuResource :=
  setIdxFrom 0 (l.eraseP (fun r => r.rid == i))

/-- `GrResourceCache::addToNonpurgeableArray`: append and record the
slot index on the resource. -/
def addToNonpurgeableArray (c : GrResourceCache) (r : GrGpuResource) : GrResourceCache :=
  { c with
    fNonpurgeableResources :=
      c.fNonpurgeableResources ++
        [{ r with cacheIndex := (c.fNonpurgeableResources.length : Int) }] }

/-- `GrResourceCache::removeFromNonpurgeableArray`: overwrite the slot
of the departing resource with the tail resource, update the tail's
stored index, and pop the array. -/
def removeFromNonpurgeableArray (c : GrResourceCache) (r : GrGpuResource) : GrResourceCache :=
  match c.fNonpurgeableResources.getLast? with
  | none => c
  | some tail =>
    { c with
      fNonpurgeableResources :=
        ((c.fNonpurgeableResources.set r.cacheIndex.toNat
            { tail with cacheIndex := r.cacheIndex })).dropLast }

/-- Insertion sort of the nonpurgeable array by timestamp: the model
of `SkTQSort(..., CompareTimestamp)` used by wrap recovery (with all
timestamps distinct, as the code asserts, any comparison sort yields
this unique result). -/
def sortTs (l : List GrGpuResource) : List GrGpuResource :=
  l.foldr orderedInsert []

/-- Output of the merge walk of wrap recovery. -/
structure MergeOut where
  ps : List GrGpuResource
  nps : List GrGpuResource
  finalTs : Nat
deriving Repr

/-- The merge walk of `GrResourceCache::getNextTimestamp`'s wrap
recovery: walk the (timestamp-sorted) drained purgeable array and the
(timestamp-sorted) nonpurgeable array, repeatedly taking the entry
with the smaller old timestamp, assigning it `fTimestamp++` (32-bit),
and recording each nonpurgeable resource's post-sort slot in its
back-index. -/
def mergeAssign : List GrGpuResource → List GrGpuResource → Nat → Nat → MergeOut
  | [], [], ts, _ => ⟨[], [], ts⟩
  | [], np :: nps, ts, i =>
    let m := mergeAssign [] nps ((ts + 1) % 4294967296) (i + 1)
    ⟨[], { np with timestamp := ts, cacheIndex := (i : Int) } :: m.nps, m.finalTs⟩
  | p :: ps, [], ts, i =>
    let m := mergeAssign ps [] ((ts + 1) % 4294967296) i
    ⟨{ p with timestamp := ts } :: m.ps, m.nps, m.finalTs⟩
  | p :: ps, np :: nps, ts, i =>
    if p.timestamp < np.timestamp then
      let m := mergeAssign ps (np :: nps) ((ts + 1) % 4294967296) i
      ⟨{ p with timestamp := ts } :: m.ps, m.nps, m.finalTs⟩
    else
      let m := mergeAssign (p :: ps) nps ((ts + 1) % 4294967296) (i + 1)
      ⟨m.ps, { np with timestamp := ts, cacheIndex := (i : Int) } :: m.nps, m.finalTs⟩
termination_by ps nps _ _ => ps.length + nps.length

/-- The wrap-recovery body of `GrResourceCache::getNextTimestamp`:
drain the purgeable heap (in timestamp order) into an array, sort the
nonpurgeable array by timestamp, merge-walk both assigning fresh
timestamps `0, 1, 2, ...` and fresh nonpurgeable indices, then rebuild
the purgeable queue by reinserting the drained entries. -/
def wrapRecovery (c : GrResourceCache) : GrResourceCache :=
  let sortedPurgeableResources := c.fPurgeableQueue
  let sortedNP := sortTs c.fNonpurgeableResources
  let m := mergeAssign sortedPurgeableResources sortedNP c.fTimestamp 0
  { c with
    fNonpurgeableResources := m.nps
    fPurgeableQueue := m.ps.foldl (fun q r => pqInsert r q) []
    fTimestamp := m.finalTs }

/-- `GrResourceCache::getNextTimestamp`: on the wrap (counter 0 with
tracked resources present) perform wrap recovery; then return the
counter and post-increment it (32-bit). -/
def getNextTimestamp (c : GrResourceCache) : Nat × GrResourceCache :=
  let c :=
    if c.fTimestamp = 0 ∧ getResourceCount c ≠ 0 then wrapRecovery c else c
  (c.fTimestamp, { c with fTimestamp := (c.fTimestamp + 1) % 4294967296 })

/-- `GrResourceCache::removeResource`: remove from whichever partition
holds the resource, subtract its size from the totals (and the
budgeted totals if budgeted), and un-index it from the scratch map and
the unique hash. -/
def removeResource (c : GrResourceCache) (r : GrGpuResource) : GrResourceCache :=
  let c :=
    if isPurgeable r then
      { c with fPurgeableQueue := pqRemoveId r.rid c.fPurgeableQueue }
    else removeFromNonpurgeableArray c r
  let c := { c with fBytes := c.fBytes - r.size }
  let c :=
    if r.budgeted then
      { c with
        fBudgetedCount := c.fBudgetedCount - 1
        fBudgetedBytes := c.fBudgetedBytes - r.size }
    else c
  let c :=
    match r.scratchKey with
    | some k => { c with fScratchMap := c.fScratchMap.erase (k, r.rid) }
    | none => c
  match r.uniqueKey with
  | some k => { c with fUniqueHash := c.fUniqueHash.filter (fun p => p.1 != k) }
  | none => c

/-- Result of a purge run: the final cache state, the trace of
released resources in release order, and how many times the
over-budget callback was invoked. -/
structure PurgeResult where
  cache : GrResourceCache
  released : List GrGpuResource
  cbCalls : Nat
deriving Repr

/-- The `while` loop of `GrResourceCache::internalPurgeAsNeeded`:
while the purgeable queue is non-empty, release its oldest entry; stop
with `stillOverbudget = false` as soon as the cache is no longer over
budget.  The fuel argument is the queue length at entry. -/
def internalPurgeLoop : Nat → GrResourceCache → GrResourceCache × List GrGpuResource × Bool
  | 0, c => (c, [], true)
  | fuel + 1, c =>
    match c.fPurgeableQueue.head? with
    | none => (c, [], true)
    | some r =>
      let c' := removeResource c r
      if overBudget c' then
        let t := internalPurgeLoop fuel c'
        (t.1, r :: t.2.1, t.2.2)
      else (c', [r], false)

/-- `GrResourceCache::internalPurgeAsNeeded`: run the release loop;
if still over budget once the queue has drained, invoke the installed
over-budget callback once (recording whether the callback pointer was
still null). -/
def internalPurgeAsNeeded (c : GrResourceCache) : PurgeResult :=
  let t := internalPurgeLoop c.fPurgeableQueue.length c
  if t.2.2 then
    { cache :=
        { t.1 with fCalledNullCB := t.1.fCalledNullCB || !t.1.fOverBudgetCB }
      released := t.2.1
      cbCalls := 1 }
  else { cache := t.1, released := t.2.1, cbCalls := 0 }

/-- Modelled from the spec: `GrResourceCache::purgeAsNeeded` (an
inline header member) — call `internalPurgeAsNeeded` only when over
budget. -/
def purgeAsNeeded (c : GrResourceCache) : PurgeResult :=
  if overBudget c then internalPurgeAsNeeded c
  else { cache := c, released := [], cbCalls := 0 }

/-- `GrResourceCache::setLimits`: install the budgets, then purge as
needed. -/
def setLimits (c : GrResourceCache) (count bytes : Nat) : GrResourceCache :=
  (purgeAsNeeded { c with fMaxCount := count, fMaxBytes := bytes }).cache

/-- Modelled from the spec: `GrResourceCache::setOverBudgetCallback`
installs the over-budget callback. -/
def setOverBudgetCallback (c : GrResourceCache) : GrResourceCache :=
  { c with fOverBudgetCB := true }

/-- `GrResourceCache::didChangeBudgetStatus`: the resource's budgeted
flag has toggled; adjust the budgeted totals and, if newly budgeted,
purge as needed. -/
def didChangeBudgetStatus (c : GrResourceCache) (r : GrGpuResource) : GrResourceCache :=
  if r.budgeted then
    (purgeAsNeeded
      { c with
        fBudgetedCount := c.fBudgetedCount + 1
        fBudgetedBytes := c.fBudgetedBytes + r.size }).cache
  else
    { c with
      fBudgetedCount := c.fBudgetedCount - 1
      fBudgetedBytes := c.fBudgetedBytes - r.size }

/-- `GrResourceCache::insertResource`: timestamp the resource (wrap
recovery may run first), append it to the nonpurgeable array, add its
size to the totals (and budgeted totals if budgeted), index it by
scratch key if present, then purge as needed. -/
def insertResource (c : GrResourceCache) (r : GrGpuResource) : GrResourceCache :=
  let p := getNextTimestamp c
  let r := { r with timestamp := p.1 }
  let c := addToNonpurgeableArray p.2 r
  let c := { c with fBytes := c.fBytes + r.size }
  let c :=
    if r.budgeted then
      { c with
        fBudgetedCount := c.fBudgetedCount + 1
        fBudgetedBytes := c.fBudgetedBytes + r.size }
    else c
  let c :=
    match r.scratchKey with
    | some k => { c with fScratchMap := (k, r.rid) :: c.fScratchMap }
    | none => c
  (purgeAsNeeded c).cache

/-- `GrResourceCache::notifyPurgeable`: move the resource from the
nonpurgeable array to the purgeable queue; a non-budgeted scratch,
non-wrapped resource that still fits the budget is made budgeted and
kept, a budgeted resource is kept unless the cache is over budget or
the resource has no key at all; in every other case the resource is
released immediately. -/
def notifyPurgeable (c : GrResourceCache) (r : GrGpuResource) : GrResourceCache :=
  let c := removeFromNonpurgeableArray c r
  let c := { c with fPurgeableQueue := pqInsert r c.fPurgeableQueue }
  if !r.budgeted then
    if !r.wrapped && r.scratchKey.isSome then
      if c.fBudgetedCount < c.fMaxCount ∧ c.fBudgetedBytes + r.size ≤ c.fMaxBytes then
        didChangeBudgetStatus (setRes c r.rid (fun x => { x with budgeted := true }))
          { r with budgeted := true }
      else removeResource c r
    else removeResource c r
  else
    let noKey := !r.scratchKey.isSome && !r.uniqueKey.isSome
    if !overBudget c && !noKey then c
    else removeResource c r

/-- `GrResourceCache::refAndMakeResourceMRU`: a purgeable resource is
moved from the queue to the nonpurgeable array; in all cases add a
reference and assign a fresh timestamp. -/
def refAndMakeResourceMRU (c : GrResourceCache) (r : GrGpuResource) : GrResourceCache :=
  let c :=
    if isPurgeable r then
      addToNonpurgeableArray
        { c with fPurgeableQueue := pqRemoveId r.rid c.fPurgeableQueue } r
    else c
  let c := setRes c r.rid (fun x => { x with refCnt := x.refCnt + 1 })
  let p := getNextTimestamp c
  setRes p.2 r.rid (fun x => { x with timestamp := p.1 })

/-- Modelled from the spec: `GrGpuResource::unref` — drop one external
reference; when the last reference is gone and no I/O is pending the
resource notifies the cache that it became purgeable. -/
def unref (c : GrResourceCache) (i : Nat) : GrResourceCache :=
  match lookupRes c i with
  | none => c
  | some r =>
    if r.refCnt = 0 then c
    else
      let r' := { r with refCnt := r.refCnt - 1 }
      let c' := setRes c i (fun x => { x with refCnt := x.refCnt - 1 })
      if isPurgeable r' then notifyPurgeable c' r' else c'

/-- `GrResourceCache::AvailableForScratchUse`: reject resources with
outstanding references or that are not scratch; when
`fRejectPendingIO` is set, additionally reject resources with pending
I/O. -/
def AvailableForScratchUse (rejectPending : Bool) (r : GrGpuResource) : Bool :=
  if decide (0 < r.refCnt) || !isScratch r then false
  else !rejectPending || !r.pendingIO

/-- Modelled from the spec: `SkTMultiMap::find` — return the first
resource stored under `key` (most recent insertion first) for which
the predicate holds. -/
def findInScratchMap (c : GrResourceCache) (key : Nat)
    (pred : GrGpuResource → Bool) : Option GrGpuResource :=
  (c.fScratchMap.filterMap
    (fun p => if p.1 = key then lookupRes c p.2 else none)).find? pred

/-- `GrResourceCache::findAndRefScratchResource`: with either flag
set, search first with the pending-I/O-rejecting predicate and promote
a hit; then fail if `kRequireNoPendingIO` was set; otherwise fall back
to the predicate that only rejects outstanding references. -/
def findAndRefScratchResource (c : GrResourceCache) (key : Nat)
    (preferNoPending requireNoPending : Bool) :
    GrResourceCache × Option GrGpuResource :=
  if preferNoPending || requireNoPending then
    match findInScratchMap c key (AvailableForScratchUse true) with
    | some r => (refAndMakeResourceMRU c r, some r)
    | none =>
      if requireNoPending then (c, none)
      else
        match findInScratchMap c key (AvailableForScratchUse false) with
        | some r => (refAndMakeResourceMRU c r, some r)
        | none => (c, none)
  else
    match findInScratchMap c key (AvailableForScratchUse false) with
    | some r => (refAndMakeResourceMRU c r, some r)
    | none => (c, none)

/-- `GrResourceCache::removeUniqueKey`: drop the resource's entry from
the unique hash and clear the key on the resource. -/
def removeUniqueKey (c : GrResourceCache) (r : GrGpuResource) : GrResourceCache :=
  let c :=
    match r.uniqueKey with
    | some k => { c with fUniqueHash := c.fUniqueHash.filter (fun p => p.1 != k) }
    | none => c
  setRes c r.rid (fun x => { x with uniqueKey := none })

/-- Modelled from the spec: `SkTDynamicHash::find` on the unique hash,
resolving the stored resource. -/
def uniqueFindRes (c : GrResourceCache) (k : Nat) : Option GrGpuResource :=
  match c.fUniqueHash.find? (fun p => p.1 == k) with
  | some p => lookupRes c p.2
  | none => none

/-- The install step of `GrResourceCache::changeUniqueKey` for a valid
new key: when another resource holds the key, release it if it has no
scratch key and is purgeable, and otherwise just strip its unique key;
then install the key on the incoming resource and add the hash
entry. -/
def changeUniqueKeyInstall (c : GrResourceCache) (r : GrGpuResource) (nk : Nat) :
    GrResourceCache :=
  let c :=
    match uniqueFindRes c nk with
    | some old =>
      if !old.scratchKey.isSome && isPurgeable old then removeResource c old
      else
        let c := { c with fUniqueHash := c.fUniqueHash.filter (fun p => p.1 != nk) }
        setRes c old.rid (fun x => { x with uniqueKey := none })
    | none => c
  let c := setRes c r.rid (fun x => { x with uniqueKey := some nk })
  { c with fUniqueHash := (nk, r.rid) :: c.fUniqueHash }

/-- `GrResourceCache::changeUniqueKey`: drop the resource's old
unique-hash entry, then (for a valid new key) run the install step, or
(for an invalid one) just clear the resource's key. -/
def changeUniqueKey (c : GrResourceCache) (r : GrGpuResource) (newKey : Option Nat) :
    GrResourceCache :=
  let c :=
    match r.uniqueKey with
    | some k => { c with fUniqueHash := c.fUniqueHash.filter (fun p => p.1 != k) }
    | none => c
  match newKey with
  | some nk => changeUniqueKeyInstall c r nk
  | none => setRes c r.rid (fun x => { x with uniqueKey := none })

/-- The purgeable-queue drain of `releaseAll`, `abandonAll` and
`purgeAllUnlocked`: release the top of the queue until it is empty. -/
def drainQ : Nat → GrResourceCache → GrResourceCache
  | 0, c => c
  | fuel + 1, c =>
    match c.fPurgeableQueue.head? with
    | none => c
    | some r => drainQ fuel (removeResource c r)

/-- The nonpurgeable drain of `releaseAll` and `abandonAll`: release
the back of the array until it is empty. -/
def drainNP : Nat → GrResourceCache → GrResourceCache
  | 0, c => c
  | fuel + 1, c =>
    match c.fNonpurgeableResources.getLast? with
    | none => c
    | some back => drainNP fuel (removeResource c back)

/-- `GrResourceCache::releaseAll`: walk the nonpurgeable array from
the back, then the purgeable queue from the top, releasing every
resource. -/
def releaseAll (c : GrResourceCache) : GrResourceCache :=
  let c := drainNP c.fNonpurgeableResources.length c
  drainQ c.fPurgeableQueue.length c

/-- `GrResourceCache::abandonAll`: the same walk, abandoning each
resource (an abandon removes the resource from the cache exactly like
a release, skipping only the GPU teardown, which is outside the
model). -/
def abandonAll (c : GrResourceCache) : GrResourceCache :=
  let c := drainNP c.fNonpurgeableResources.length c
  drainQ c.fPurgeableQueue.length c

/-- `GrResourceCache::purgeAllUnlocked`: release every purgeable
resource unconditionally. -/
def purgeAllUnlocked (c : GrResourceCache) : GrResourceCache :=
  drainQ c.fPurgeableQueue.length c

/-- `GrResourceCache::didChangeGpuMemorySize`: adjust the byte totals
by the size delta, then purge as needed. -/
def didChangeGpuMemorySize (c : GrResourceCache) (r : GrGpuResource) (oldSize : Nat) :
    GrResourceCache :=
  let c := { c with fBytes := c.fBytes + r.size - oldSize }
  let c :=
    if r.budgeted then { c with fBudgetedBytes := c.fBudgetedBytes + r.size - oldSize }
    else c
  (purgeAsNeeded c).cache

/-- Modelled from the spec: `GrGpuResourcePriv::makeBudgeted` /
`makeUnbudgeted` toggling — only acts when the flag actually changes,
setting the flag and informing the cache via
`didChangeBudgetStatus`. -/
def setBudgeted (c : GrResourceCache) (i : Nat) (b : Bool) : GrResourceCache :=
  match lookupRes c i with
  | none => c
  | some r =>
    if r.budgeted = b then c
    else
      didChangeBudgetStatus (setRes c i (fun x => { x with budgeted := b }))
        { r with budgeted := b }

/-- `GrResourceCache::processInvalidUniqueKeys`: for each invalidation
message, look the resource up by unique key; if found, take a
reference, strip its unique key, and drop the reference (which may
notify purgeability). -/
def processInvalidUniqueKeys (c : GrResourceCache) (keys : List Nat) : GrResourceCache :=
  keys.foldl
    (fun c k =>
      match uniqueFindRes c k with
      | none => c
      | some r =>
        let c := refAndMakeResourceMRU c r
        let c :=
          match lookupRes c r.rid with
          | some r1 => removeUniqueKey c r1
          | none => c
        unref c r.rid)
    c

/-- The mutating operations of the cache's public contract, used to
state properties quantified over every operation. -/
inductive CacheOp where
  | insertR (r : GrGpuResource)
  | removeR (rid : Nat)
  | findScratch (key : Nat) (preferNoPending requireNoPending : Bool)
  | changeUnique (rid : Nat) (newKey : Option Nat)
  | removeUnique (rid : Nat)
  | unrefOp (rid : Nat)
  | purgeOp
  | purgeAllOp
  | didChangeMem (rid : Nat) (oldSize : Nat)
  | setBudgetedOp (rid : Nat) (b : Bool)
  | setLimitsOp (count bytes : Nat)
  | processInvalid (keys : List Nat)
  | releaseAllOp
  | abandonAllOp

/-- Run one cache operation (resource arguments resolved by id). -/
def runOp (op : CacheOp) (c : GrResourceCache) : GrResourceCache :=
  match op with
  | .insertR r => insertResource c r
  | .removeR i =>
    match lookupRes c i with
    | some r => removeResource c r
    | none => c
  | .findScratch key p q => (findAndRefScratchResource c key p q).1
  | .changeUnique i nk =>
    match lookupRes c i with
    | some r => changeUniqueKey c r nk
    | none => c
  | .removeUnique i =>
    match lookupRes c i with
    | some r => removeUniqueKey c r
    | none => c
  | .unrefOp i => unref c i
  | .purgeOp => (purgeAsNeeded c).cache
  | .purgeAllOp => purgeAllUnlocked c
  | .didChangeMem i oldSize =>
    match lookupRes c i with
    | some r => didChangeGpuMemorySize c r oldSize
    | none => c
  | .setBudgetedOp i b => setBudgeted c i b
  | .setLimitsOp count bytes => setLimits c count bytes
  | .processInvalid keys => processInvalidUniqueKeys c keys
  | .releaseAllOp => releaseAll c
  | .abandonAllOp => abandonAll c

/-- Return value of a cache operation: operations other than the
scratch lookup return no value. -/
inductive CacheRet where
  | unitRet
  | resRet (r : GrGpuResource)
  | absent
deriving Repr, DecidableEq

/-- Run one cache operation and observe its return value; only
`findScratch` can produce `absent`. -/
def runOpR (op : CacheOp) (c : GrResourceCache) : GrResourceCache × CacheRet :=
  match op with
  | .findScratch key p q =>
    match findAndRefScratchResource c key p q with
    | (c', some r) => (c', .resRet r)
    | (c', none) => (c', .absent)
  | _ => (runOp op c, .unitRet)

/-- The back-index of each entry of a partition equals its position
(positions counted from `i`). -/
def idxFrom : Nat → List GrGpuResource → Bool
  | _, [] => true
  | i, r :: t => (r.cacheIndex == (i : Int)) && idxFrom (i + 1) t

/-- The structural cache invariant checked by
`GrResourceCache::validate`: back-indices match positions in both
partitions, every queue entry is purgeable, every array entry is
non-purgeable, and (so that resource ids faithfully model C++ object
identity) tracked ids are pairwise distinct. -/
def WF (c : GrResourceCache) : Prop :=
  idxFrom 0 c.fNonpurgeableResources = true ∧
  idxFrom 0 c.fPurgeableQueue = true ∧
  (∀ r ∈ c.fPurgeableQueue, isPurgeable r = true) ∧
  (∀ r ∈ c.fNonpurgeableResources, isPurgeable r = false) ∧
  (trackedRids c).Nodup

instance : DecidablePred WF := fun c => by
  unfold WF; infer_instance

/-- The scratch-map entries a list of resources should induce. -/
def scratchEntries (l : List GrGpuResource) : List (Nat × Nat) :=
  l.filterMap (fun r => r.scratchKey.map (fun k => (k, r.rid)))

/-- The unique-hash entries a list of resources should induce. -/
def uniqueEntries (l : List GrGpuResource) : List (Nat × Nat) :=
  l.filterMap (fun r => r.uniqueKey.map (fun k => (k, r.rid)))

/-- The accounting invariant checked by `GrResourceCache::validate`:
the byte/count totals equal the sums over the tracked resources, and
the two key indices hold exactly the entries induced by the tracked
resources (the unique hash with pairwise-distinct keys). -/
def Accounting (c : GrResourceCache) : Prop :=
  c.fBytes = ((tracked c).map (fun r => r.size)).sum ∧
  c.fBudgetedCount = (tracked c).countP (fun r => r.budgeted) ∧
  c.fBudgetedBytes = (((tracked c).filter (fun r => r.budgeted)).map (fun r => r.size)).sum ∧
  List.Perm c.fScratchMap (scratchEntries (tracked c)) ∧
  List.Perm c.fUniqueHash (uniqueEntries (tracked c)) ∧
  ((uniqueEntries (tracked c)).map Prod.fst).Nodup

instance : DecidablePred Accounting := fun c => by
  unfold Accounting; infer_instance

/-- A purgeable queue is ordered by nondecreasing timestamp (the heap
order of `SkTDPQueue` under `CompareTimestamp`). -/
def sortedTs (l : List GrGpuResource) : Prop :=
  List.Pairwise (fun a b => a.timestamp ≤ b.timestamp) l

instance : DecidablePred sortedTs := fun l => by
  unfold sortedTs; infer_instance

/-- Release the oldest purgeable resource `n` times: the intermediate
states of the purge loop. -/
def dropHeads : GrResourceCache → Nat → GrResourceCache
  | c, 0 => c
  | c, n + 1 =>
    match c.fPurgeableQueue.head? with
    | none => c
    | some r => dropHeads (removeResource c r) n

/-- Shorthand for building concrete resources in examples. -/
def sampleRes (i sz : Nat) (sk uk : Option Nat) (b : Bool) (ref : Nat) (pio : Bool) :
    GrGpuResource :=
  { rid := i, size := sz, budgeted := b, wrapped := false, scratchKey := sk,
    uniqueKey := uk, timestamp := 0, cacheIndex := -1, refCnt := ref, pendingIO := pio }

/-- A cache holding one idle scratch resource under scratch key 5. -/
def sampleScratchCache : GrResourceCache :=
  unref (insertResource (setLimits grResourceCacheNew 4 1024)
    (sampleRes 1 100 (some 5) none true 1 false)) 1

/-- The identity-relevant data of a resource: every field except the
mutable timestamp and back-index. -/
def resData (r : GrGpuResource) :
    Nat × Nat × Bool × Bool × Option Nat × Option Nat × Nat × Bool :=
  (r.rid, r.size, r.budgeted, r.wrapped, r.scratchKey, r.uniqueKey, r.refCnt, r.pendingIO)

/-- A resource that has just become purgeable but is still in the
nonpurgeable array: the state in which `notifyPurgeable` runs. -/
def c1res : GrGpuResource :=
  { rid := 1, size := 10, budgeted := true, wrapped := false, scratchKey := some 5,
    uniqueKey := none, timestamp := 0, cacheIndex := 0, refCnt := 0, pendingIO := false }

/-- A cache holding `c1res` in its nonpurgeable array. -/
def c1wCache : GrResourceCache :=
  { grResourceCacheNew with
    fNonpurgeableResources := [c1res]
    fScratchMap := [(5, 1)]
    fBytes := 10
    fBudgetedCount := 1
    fBudgetedBytes := 10 }

/-- The displaced resource of the `changeUniqueKey` example: purgeable,
no scratch key, holding unique key 100. -/
def c4old : GrGpuResource :=
  { rid := 1, size := 10, budgeted := true, wrapped := false, scratchKey := none,
    uniqueKey := some 100, timestamp := 0, cacheIndex := 0, refCnt := 0, pendingIO := false }

/-- The incoming resource of the `changeUniqueKey` example. -/
def c4r : GrGpuResource :=
  { rid := 2, size := 5, budgeted := true, wrapped := false, scratchKey := none,
    uniqueKey := none, timestamp := 1, cacheIndex := 0, refCnt := 1, pendingIO := false }

/-- A cache holding both resources of the `changeUniqueKey` example. -/
def c4Cache : GrResourceCache :=
  { grResourceCacheNew with
    fNonpurgeableResources := [c4r]
    fPurgeableQueue := [c4old]
    fUniqueHash := [(100, 1)]
    fBytes := 15
    fBudgetedCount := 2
    fBudgetedBytes := 15 }

/-- The scratch-map entry a resource datum induces. -/
def scratchEntryD (d : Nat × Nat × Bool × Bool × Option Nat × Option Nat × Nat × Bool) :
    Option (Nat × Nat) :=
  d.2.2.2.2.1.map (fun k => (k, d.1))

/-- The unique-hash entry a resource datum induces. -/
def uniqueEntryD (d : Nat × Nat × Bool × Bool × Option Nat × Option Nat × Nat × Bool) :
    Option (Nat × Nat) :=
  d.2.2.2.2.2.1.map (fun k => (k, d.1))

/-- A two-resource cache (one per partition, one key in each index)
for exercising the release walk. -/
def c8Cache : GrResourceCache :=
  { grResourceCacheNew with
    fNonpurgeableResources := [{ sampleRes 1 10 (some 7) none true 1 false with cacheIndex := 0 }]
    fPurgeableQueue := [{ sampleRes 2 5 none (some 9) true 0 false with cacheIndex := 0 }]
    fScratchMap := [(7, 1)]
    fUniqueHash := [(9, 2)]
    fBytes := 15
    fBudgetedCount := 2
    fBudgetedBytes := 15 }

/-- Operation preconditions of the cache contract: `insertResource`
requires a non-purgeable resource object not already tracked (the code
asserts as much on entry); every other operation is unconditional. -/
def opPre (op : CacheOp) (c : GrResourceCache) : Bool :=
  match op with
  | .insertR r => !(isPurgeable r) && !(decide (r.rid ∈ trackedRids c))
  | _ => true

/-- The identity-and-timestamp projection of a resource. -/
def tsData (r : GrGpuResource) : Nat × Nat := (r.rid, r.timestamp)

/-- The rank of a timestamp within a pool of timestamps: how many pool
entries are strictly older. -/
def rankTs (t : Nat) (L : List Nat) : Nat := L.countP (fun s => decide (s < t))

/-- A two-resource cache at timestamp counter 0 (one nonpurgeable
resource stamped 5, one purgeable stamped 3) for exercising wrap
recovery. -/
def c3Cache : GrResourceCache :=
  { grResourceCacheNew with
    fNonpurgeableResources :=
      [{ sampleRes 1 10 none none true 1 false with cacheIndex := 0, timestamp := 5 }]
    fPurgeableQueue :=
      [{ sampleRes 2 5 none none true 0 false with cacheIndex := 0, timestamp := 3 }] }

theorem availableForScratchUse_isScratch (b : Bool) (r : GrGpuResource)
    (h : AvailableForScratchUse b r = true) : isScratch r = true := by
  unfold AvailableForScratchUse at h
  split at h
  · exact absurd h (by simp)
  · rename_i hc
    rcases hs : isScratch r with _ | _
    · exact absurd (by simp [hs]) hc
    · rfl

theorem isScratch_uniqueKey_none (r : GrGpuResource) (h : isScratch r = true) :
    r.uniqueKey = none ∧ r.scratchKey.isSome = true := by
  unfold isScratch at h
  rcases h' : r.uniqueKey with _ | k
  · simpa [h'] using h
  · simp [h'] at h

theorem findInScratchMap_pred (c : GrResourceCache) (key : Nat)
    (pred : GrGpuResource → Bool) (r : GrGpuResource)
    (h : findInScratchMap c key pred = some r) : pred r = true :=
  List.find?_some h

/-- C10: `findAndRefScratchResource` never returns a resource holding
a valid UniqueKey: every returned resource satisfies the lookup
predicate, and both predicates require the resource to be scratch
(scratch-keyed with no unique key). -/
theorem findAndRef_never_returns_unique_keyed
    (c : GrResourceCache) (key : Nat) (p q : Bool) (c' : GrResourceCache) (r : GrGpuResource)
    (h : findAndRefScratchResource c key p q = (c', some r)) :
    r.uniqueKey = none ∧ r.scratchKey.isSome = true ∧
      ∀ b x, AvailableForScratchUse b x = true → isScratch x = true := by
  suffices hr : isScratch r = true by
    obtain ⟨h1, h2⟩ := isScratch_uniqueKey_none r hr
    exact ⟨h1, h2, availableForScratchUse_isScratch⟩
  unfold findAndRefScratchResource at h
  split at h
  · split at h
    · rename_i r0 hf
      obtain ⟨-, h2⟩ := Prod.mk.injEq .. ▸ h
      cases h2
      exact availableForScratchUse_isScratch _ _ (findInScratchMap_pred _ _ _ _ hf)
    · split at h
      · exact absurd (congrArg Prod.snd h) (by simp)
      · split at h
        · rename_i r0 hf
          obtain ⟨-, h2⟩ := Prod.mk.injEq .. ▸ h
          cases h2
          exact availableForScratchUse_isScratch _ _ (findInScratchMap_pred _ _ _ _ hf)
        · exact absurd (congrArg Prod.snd h) (by simp)
  · split at h
    · rename_i r0 hf
      obtain ⟨-, h2⟩ := Prod.mk.injEq .. ▸ h
      cases h2
      exact availableForScratchUse_isScratch _ _ (findInScratchMap_pred _ _ _ _ hf)
    · exact absurd (congrArg Prod.snd h) (by simp)

/-- The resource `findAndRefScratchResource` returns on
`sampleScratchCache`. -/
def sampleScratchFound : GrGpuResource :=
  { rid := 1, size := 100, budgeted := true, wrapped := false, scratchKey := some 5,
    uniqueKey := none, timestamp := 0, cacheIndex := 0, refCnt := 0, pendingIO := false }

theorem findAndRef_never_returns_unique_keyed_witness :
    (findAndRefScratchResource sampleScratchCache 5 false false).2 = some sampleScratchFound ∧
      sampleScratchFound.uniqueKey = none :=
  ⟨by decide,
   (findAndRef_never_returns_unique_keyed sampleScratchCache 5 false false
      (findAndRefScratchResource sampleScratchCache 5 false false).1 sampleScratchFound
      (by decide)).1⟩

/-- C9: the constructor leaves the over-budget callback pointer null,
and a purge that drains an already-empty heap while over budget
invokes it anyway: inserting one budgeted resource into a fresh cache
whose limits are zero reaches the callback-invocation branch with the
callback still null. -/
theorem null_over_budget_callback_invoked :
    grResourceCacheNew.fOverBudgetCB = false ∧
      (insertResource (setLimits grResourceCacheNew 0 0)
          (sampleRes 1 1 none none true 1 false)).fCalledNullCB = true := by
  constructor
  · rfl
  · decide

theorem setIdxFrom_length (i : Nat) (l : List GrGpuResource) :
    (setIdxFrom i l).length = l.length := by
  induction l generalizing i with
  | nil => rfl
  | cons r t ih => simp [setIdxFrom, ih]

theorem mem_setIdxFrom {x : GrGpuResource} {i : Nat} {l : List GrGpuResource}
    (h : x ∈ setIdxFrom i l) : ∃ r ∈ l, x = { r with cacheIndex := x.cacheIndex } := by
  induction l generalizing i with
  | nil => cases h
  | cons r t ih =>
    rw [setIdxFrom] at h
    rcases List.mem_cons.mp h with h | h
    · exact ⟨r, List.mem_cons_self r t, by rw [h]⟩
    · obtain ⟨r', hr', he⟩ := ih h
      exact ⟨r', List.mem_cons_of_mem r hr', he⟩

theorem isPurgeable_of_mem_setIdxFrom {x : GrGpuResource} {i : Nat}
    {l : List GrGpuResource} (h : x ∈ setIdxFrom i l)
    (hl : ∀ r ∈ l, isPurgeable r = true) : isPurgeable x = true := by
  obtain ⟨r, hr, he⟩ := mem_setIdxFrom h
  rw [he]
  exact hl r hr

theorem removeResource_fPurgeableQueue (c : GrResourceCache) (r : GrGpuResource)
    (h : isPurgeable r = true) :
    (removeResource c r).fPurgeableQueue = pqRemoveId r.rid c.fPurgeableQueue := by
  unfold removeResource
  rcases hs : r.scratchKey with _ | k <;> rcases hu : r.uniqueKey with _ | k' <;>
    rcases hb : r.budgeted with _ | _ <;> simp [h, hs, hu, hb]

theorem removeResource_fNonpurgeable_of_purgeable (c : GrResourceCache) (r : GrGpuResource)
    (h : isPurgeable r = true) :
    (removeResource c r).fNonpurgeableResources = c.fNonpurgeableResources := by
  unfold removeResource
  rcases hs : r.scratchKey with _ | k <;> rcases hu : r.uniqueKey with _ | k' <;>
    rcases hb : r.budgeted with _ | _ <;> simp [h, hs, hu, hb]

theorem removeResource_head_queue (c : GrResourceCache) (r : GrGpuResource)
    (t : List GrGpuResource) (hq : c.fPurgeableQueue = r :: t)
    (h : isPurgeable r = true) :
    (removeResource c r).fPurgeableQueue = setIdxFrom 0 t := by
  rw [removeResource_fPurgeableQueue c r h, hq]
  unfold pqRemoveId
  rw [List.eraseP_cons_of_pos]
  simp

theorem internalPurgeLoop_still (fuel : Nat) (c : GrResourceCache)
    (hq : ∀ r ∈ c.fPurgeableQueue, isPurgeable r = true)
    (hfuel : c.fPurgeableQueue.length = fuel) (hover : overBudget c = true) :
    ((internalPurgeLoop fuel c).2.2 = true ↔
      (internalPurgeLoop fuel c).1.fPurgeableQueue = [] ∧
        overBudget (internalPurgeLoop fuel c).1 = true) := by
  induction fuel generalizing c with
  | zero =>
    have hnil : c.fPurgeableQueue = [] := List.length_eq_zero.mp hfuel
    simp [internalPurgeLoop, hnil, hover]
  | succ fuel ih =>
    rcases hcq : c.fPurgeableQueue with _ | ⟨r, t⟩
    · rw [hcq] at hfuel; cases hfuel
    · have hr : isPurgeable r = true := hq r (by rw [hcq]; exact List.mem_cons_self r t)
      have hqq : (removeResource c r).fPurgeableQueue = setIdxFrom 0 t :=
        removeResource_head_queue c r t hcq hr
      have hhead : c.fPurgeableQueue.head? = some r := by rw [hcq]; rfl
      rcases hov : overBudget (removeResource c r) with _ | _
      · rw [internalPurgeLoop]
        simp only [hhead]
        simp [hov]
      · have hq' : ∀ x ∈ (removeResource c r).fPurgeableQueue, isPurgeable x = true := by
          rw [hqq]
          intro x hx
          exact isPurgeable_of_mem_setIdxFrom hx
            (fun y hy => hq y (by rw [hcq]; exact List.mem_cons_of_mem r hy))
        have hfuel' : (removeResource c r).fPurgeableQueue.length = fuel := by
          rw [hqq, setIdxFrom_length]
          have h3 : (r :: t).length = fuel + 1 := hcq ▸ hfuel
          simpa using h3
        have := ih (removeResource c r) hq' hfuel' hov
        rw [internalPurgeLoop]
        simp only [hhead]
        simp only [hov, if_true]
        exact this

/-- C6: during one `purgeAsNeeded` call, the over-budget callback is
invoked at most once, and it is invoked exactly when the purgeable
queue has been fully drained during that call and the cache is still
over budget afterwards. -/
theorem over_budget_callback_at_most_once (c : GrResourceCache)
    (hq : ∀ r ∈ c.fPurgeableQueue, isPurgeable r = true) :
    (purgeAsNeeded c).cbCalls ≤ 1 ∧
      ((purgeAsNeeded c).cbCalls = 1 ↔
        ((purgeAsNeeded c).cache.fPurgeableQueue = [] ∧
          overBudget (purgeAsNeeded c).cache = true)) := by
  unfold purgeAsNeeded
  rcases hov : overBudget c with _ | _
  · simp [hov]
  · simp only [if_true]
    have hstill := internalPurgeLoop_still c.fPurgeableQueue.length c hq rfl hov
    unfold internalPurgeAsNeeded
    rcases hstv : (internalPurgeLoop c.fPurgeableQueue.length c).2.2 with _ | _
    · rw [hstv] at hstill
      simp only [hstv, Bool.false_eq_true, if_false]
      refine ⟨by omega, ?_⟩
      constructor
      · intro h; cases h
      · intro h
        exact absurd (hstill.mpr h) (by simp)
    · rw [hstv] at hstill
      simp only [hstv, if_true]
      refine ⟨le_refl 1, ?_⟩
      have hqq := (hstill.mp rfl).1
      have hob := (hstill.mp rfl).2
      constructor
      · intro _
        exact ⟨hqq, hob⟩
      · intro _
        simp

theorem over_budget_callback_at_most_once_witness :
    (∀ r ∈ sampleScratchCache.fPurgeableQueue, isPurgeable r = true) ∧
      (purgeAsNeeded sampleScratchCache).cbCalls ≤ 1 :=
  ⟨by decide, (over_budget_callback_at_most_once sampleScratchCache (by decide)).1⟩

theorem setIdxFrom_map_timestamp (i : Nat) (l : List GrGpuResource) :
    (setIdxFrom i l).map (fun r => r.timestamp) = l.map (fun r => r.timestamp) := by
  induction l generalizing i with
  | nil => rfl
  | cons r t ih => simp [setIdxFrom, ih]

theorem internalPurgeLoop_trace (fuel : Nat) (c : GrResourceCache)
    (hq : ∀ r ∈ c.fPurgeableQueue, isPurgeable r = true)
    (hfuel : c.fPurgeableQueue.length = fuel) :
    (internalPurgeLoop fuel c).2.1.map (fun r => r.timestamp) =
      (c.fPurgeableQueue.map (fun r => r.timestamp)).take
        (internalPurgeLoop fuel c).2.1.length ∧
    ∀ j, 0 < j → j < (internalPurgeLoop fuel c).2.1.length →
      overBudget (dropHeads c j) = true := by
  induction fuel generalizing c with
  | zero =>
    have hnil : c.fPurgeableQueue = [] := List.length_eq_zero.mp hfuel
    simp [internalPurgeLoop, hnil]
  | succ fuel ih =>
    rcases hcq : c.fPurgeableQueue with _ | ⟨r, t⟩
    · rw [hcq] at hfuel; cases hfuel
    · have hr : isPurgeable r = true := hq r (by rw [hcq]; exact List.mem_cons_self r t)
      have hqq : (removeResource c r).fPurgeableQueue = setIdxFrom 0 t :=
        removeResource_head_queue c r t hcq hr
      have hhead : c.fPurgeableQueue.head? = some r := by rw [hcq]; rfl
      have hdrop : ∀ n, dropHeads c (n + 1) = dropHeads (removeResource c r) n := by
        intro n
        rw [dropHeads]
        simp only [hhead]
      rcases hov : overBudget (removeResource c r) with _ | _
      · rw [internalPurgeLoop]
        simp only [hhead, hov, Bool.false_eq_true, if_false]
        constructor
        · simp [hcq]
        · intro j hj1 hj2
          simp only [List.length_singleton] at hj2
          omega
      · have hq' : ∀ x ∈ (removeResource c r).fPurgeableQueue, isPurgeable x = true := by
          rw [hqq]
          intro x hx
          exact isPurgeable_of_mem_setIdxFrom hx
            (fun y hy => hq y (by rw [hcq]; exact List.mem_cons_of_mem r hy))
        have hfuel' : (removeResource c r).fPurgeableQueue.length = fuel := by
          rw [hqq, setIdxFrom_length]
          have h3 : (r :: t).length = fuel + 1 := hcq ▸ hfuel
          simpa using h3
        obtain ⟨ih1, ih2⟩ := ih (removeResource c r) hq' hfuel'
        rw [internalPurgeLoop]
        simp only [hhead, hov, if_true]
        constructor
        · simp only [List.map_cons, List.length_cons, hcq, List.take_succ_cons]
          rw [ih1, hqq, setIdxFrom_map_timestamp]
        · intro j hj1 hj2
          rcases j with _ | j'
          · omega
          · rw [hdrop j']
            rcases Nat.eq_zero_or_pos j' with hz | hpz
            · subst hz
              simpa [dropHeads] using hov
            · exact ih2 j' hpz (by simpa using hj2)

theorem internalPurgeAsNeeded_released (c : GrResourceCache) :
    (internalPurgeAsNeeded c).released =
      (internalPurgeLoop c.fPurgeableQueue.length c).2.1 := by
  unfold internalPurgeAsNeeded
  rcases htv : (internalPurgeLoop c.fPurgeableQueue.length c).2.2 with _ | _ <;>
    simp [htv]

/-- C5: during a single `purgeAsNeeded` run the released resources
come off the purgeable queue oldest-first — their timestamps are the
initial segment of the (nondecreasing) queue timestamps, hence
nondecreasing — and each release after the first happens only because
the cache was still over budget after the previous one. -/
theorem purge_eviction_order (c : GrResourceCache)
    (hq : ∀ r ∈ c.fPurgeableQueue, isPurgeable r = true)
    (hs : sortedTs c.fPurgeableQueue) :
    List.Pairwise (fun a b => a.timestamp ≤ b.timestamp) (purgeAsNeeded c).released ∧
    (purgeAsNeeded c).released.map (fun r => r.timestamp) =
      (c.fPurgeableQueue.map (fun r => r.timestamp)).take
        (purgeAsNeeded c).released.length ∧
    (∀ j, 0 < j → j < (purgeAsNeeded c).released.length →
      overBudget (dropHeads c j) = true) := by
  unfold purgeAsNeeded
  rcases hov : overBudget c with _ | _
  · simp
  · simp only [if_true]
    obtain ⟨h1, h2⟩ := internalPurgeLoop_trace c.fPurgeableQueue.length c hq rfl
    rw [internalPurgeAsNeeded_released]
    refine ⟨?_, h1, h2⟩
    have hsmap : List.Pairwise (fun a b => a ≤ b)
        ((internalPurgeLoop c.fPurgeableQueue.length c).2.1.map
          (fun r => r.timestamp)) := by
      rw [h1]
      refine List.Pairwise.sublist (List.take_sublist _ _) ?_
      exact (List.pairwise_map).mpr hs
    exact (List.pairwise_map).mp hsmap

theorem purge_eviction_order_witness :
    (∀ r ∈ sampleScratchCache.fPurgeableQueue, isPurgeable r = true) ∧
      sortedTs sampleScratchCache.fPurgeableQueue ∧
      (purgeAsNeeded sampleScratchCache).released.map (fun r => r.timestamp) =
        (sampleScratchCache.fPurgeableQueue.map (fun r => r.timestamp)).take
          (purgeAsNeeded sampleScratchCache).released.length :=
  ⟨by decide, by decide,
   (purge_eviction_order sampleScratchCache (by decide) (by decide)).2.1⟩

theorem resData_setIdx (r : GrGpuResource) (j : Int) :
    resData { r with cacheIndex := j } = resData r := rfl

theorem resData_setTs (r : GrGpuResource) (ts : Nat) :
    resData { r with timestamp := ts } = resData r := rfl

theorem resData_fields (a b : GrGpuResource) (h : resData a = resData b) :
    a.rid = b.rid ∧ a.size = b.size ∧ a.budgeted = b.budgeted ∧ a.wrapped = b.wrapped ∧
      a.scratchKey = b.scratchKey ∧ a.uniqueKey = b.uniqueKey ∧ a.refCnt = b.refCnt ∧
      a.pendingIO = b.pendingIO := by
  unfold resData at h
  simpa [Prod.mk.injEq] using h

theorem resData_rid (a b : GrGpuResource) (h : resData a = resData b) : a.rid = b.rid :=
  (resData_fields a b h).1

theorem resData_isPurgeable (a b : GrGpuResource) (h : resData a = resData b) :
    isPurgeable a = isPurgeable b := by
  obtain ⟨-, -, -, -, -, -, h7, h8⟩ := resData_fields a b h
  unfold isPurgeable
  rw [h7, h8]

theorem map_resData_setIdxFrom (i : Nat) (l : List GrGpuResource) :
    (setIdxFrom i l).map resData = l.map resData := by
  induction l generalizing i with
  | nil => rfl
  | cons r t ih => simp [setIdxFrom, ih, resData_setIdx]

theorem list_decomp_at {α : Type} (L : List α) (j : Nat) (hj : j < L.length) :
    L = L.take j ++ L.get ⟨j, hj⟩ :: L.drop (j + 1) := by
  conv_lhs => rw [← List.take_append_drop j L]
  rw [List.drop_eq_getElem_cons hj]
  rfl

theorem swapRemove_perm {α : Type} :
    ∀ (L : List α) (j : Nat), j < L.length → ∀ hne : L ≠ [],
      List.Perm ((L.set j (L.getLast hne)).dropLast) (L.eraseIdx j)
  | [], _, hj, _ => by simp at hj
  | [a], 0, _, _ => by simp
  | [a], j + 1, hj, _ => by simp at hj
  | a :: b :: T, 0, _, _ => by
    rw [List.getLast_cons (by simp)]
    show List.Perm (((b :: T).getLast (by simp) :: b :: T).dropLast) (b :: T)
    have h1 : ((b :: T).getLast (by simp) :: b :: T).dropLast =
        (b :: T).getLast (by simp) :: (b :: T).dropLast := rfl
    rw [h1]
    refine List.Perm.trans ((List.perm_append_singleton _ _).symm) ?_
    rw [List.dropLast_append_getLast (by simp)]
  | a :: b :: T, j + 1, hj, _ => by
    rw [List.getLast_cons (by simp)]
    have ih := swapRemove_perm (b :: T) j (by simpa using hj) (by simp)
    have h1 : (a :: b :: T).set (j + 1) ((b :: T).getLast (by simp)) =
        a :: ((b :: T).set j ((b :: T).getLast (by simp))) := rfl
    have h2 : (a :: b :: T).eraseIdx (j + 1) = a :: (b :: T).eraseIdx j := rfl
    rw [h1, h2]
    have h3 : (a :: ((b :: T).set j ((b :: T).getLast (by simp)))).dropLast =
        a :: ((b :: T).set j ((b :: T).getLast (by simp))).dropLast := by
      have hlen : (b :: T).set j ((b :: T).getLast (by simp)) ≠ [] := by
        intro hc
        have := congrArg List.length hc
        simp at this
      rcases hw : (b :: T).set j ((b :: T).getLast (by simp)) with _ | ⟨w, W⟩
      · exact absurd hw hlen
      · rfl
    rw [h3]
    exact ih.cons a

theorem idxFrom_get? (i : Nat) (l : List GrGpuResource) (j : Nat) (r : GrGpuResource)
    (h : idxFrom i l = true) (hg : l.get? j = some r) :
    r.cacheIndex = ((i + j : Nat) : Int) := by
  induction l generalizing i j with
  | nil => cases hg
  | cons a t ih =>
    rw [idxFrom, Bool.and_eq_true, beq_iff_eq] at h
    rcases j with _ | j'
    · cases hg
      simpa using h.1
    · have := ih (i + 1) j' h.2 (by simpa using hg)
      rw [this]
      congr 1
      omega

theorem idxFrom_mem_pos (l : List GrGpuResource) (r : GrGpuResource)
    (h : idxFrom 0 l = true) (hm : r ∈ l) :
    r.cacheIndex.toNat < l.length ∧ l.get? r.cacheIndex.toNat = some r := by
  obtain ⟨⟨j, hj⟩, he⟩ := List.mem_iff_get.mp hm
  have hg : l.get? j = some r := by rw [List.get?_eq_get hj, he]
  have hidx := idxFrom_get? 0 l j r h hg
  simp only [Nat.zero_add] at hidx
  have htn : r.cacheIndex.toNat = j := by rw [hidx]; simp
  rw [htn]
  exact ⟨hj, hg⟩

theorem getLast_map_eq {α β : Type} (f : α → β) :
    ∀ (l : List α) (hne : l ≠ []),
      (l.map f).getLast (by simpa using hne) = f (l.getLast hne)
  | [], hne => absurd rfl hne
  | [a], _ => rfl
  | a :: b :: t, _ => by
    have h1 : ((a :: b :: t).map f).getLast (by simp) =
        ((b :: t).map f).getLast (by simp) := List.getLast_cons (by simp)
    rw [h1, getLast_map_eq f (b :: t) (by simp)]
    exact congrArg f (List.getLast_cons (by simp)).symm

theorem removeFromNP_map_perm (c : GrResourceCache) (r : GrGpuResource)
    (hidx : idxFrom 0 c.fNonpurgeableResources = true)
    (hmem : r ∈ c.fNonpurgeableResources) :
    List.Perm
      (resData r :: (removeFromNonpurgeableArray c r).fNonpurgeableResources.map resData)
      (c.fNonpurgeableResources.map resData) := by
  have hne : c.fNonpurgeableResources ≠ [] := List.ne_nil_of_mem hmem
  obtain ⟨hlt, hget⟩ := idxFrom_mem_pos c.fNonpurgeableResources r hidx hmem
  have hNP : (removeFromNonpurgeableArray c r).fNonpurgeableResources =
      ((c.fNonpurgeableResources.set r.cacheIndex.toNat
        { c.fNonpurgeableResources.getLast hne with cacheIndex := r.cacheIndex })).dropLast := by
    unfold removeFromNonpurgeableArray
    rw [List.getLast?_eq_getLast _ hne]
  rw [hNP]
  have hmap : (((c.fNonpurgeableResources.set r.cacheIndex.toNat
      { c.fNonpurgeableResources.getLast hne with cacheIndex := r.cacheIndex })).dropLast).map
        resData =
      (((c.fNonpurgeableResources.map resData).set r.cacheIndex.toNat
        ((c.fNonpurgeableResources.map resData).getLast (by simpa using hne)))).dropLast := by
    rw [List.map_dropLast]
    congr 1
    rw [List.map_set]
    congr 1
    rw [getLast_map_eq resData c.fNonpurgeableResources hne]
    rfl
  rw [hmap]
  have hperm := swapRemove_perm (c.fNonpurgeableResources.map resData)
    r.cacheIndex.toNat (by simpa using hlt) (by simpa using hne)
  refine List.Perm.trans (List.Perm.cons _ hperm) ?_
  rw [List.eraseIdx_eq_take_drop_succ]
  have hgetm : (c.fNonpurgeableResources.map resData).get ⟨r.cacheIndex.toNat, by simpa using hlt⟩ =
      resData r := by
    have := List.get?_map resData c.fNonpurgeableResources r.cacheIndex.toNat
    rw [hget] at this
    have h2 : (c.fNonpurgeableResources.map resData).get? r.cacheIndex.toNat = some (resData r) := by
      simpa using this
    rw [List.get?_eq_get (by simpa using hlt)] at h2
    exact Option.some.injEq .. ▸ h2
  conv_rhs => rw [list_decomp_at (c.fNonpurgeableResources.map resData)
    r.cacheIndex.toNat (by simpa using hlt)]
  rw [hgetm]
  exact List.perm_middle.symm

theorem removeFromNP_eq_parts (c : GrResourceCache) (r : GrGpuResource) :
    (removeFromNonpurgeableArray c r).fPurgeableQueue = c.fPurgeableQueue ∧
    (removeFromNonpurgeableArray c r).fBudgetedCount = c.fBudgetedCount ∧
    (removeFromNonpurgeableArray c r).fBudgetedBytes = c.fBudgetedBytes ∧
    (removeFromNonpurgeableArray c r).fMaxCount = c.fMaxCount ∧
    (removeFromNonpurgeableArray c r).fMaxBytes = c.fMaxBytes := by
  unfold removeFromNonpurgeableArray
  rcases c.fNonpurgeableResources.getLast? with _ | t <;> exact ⟨rfl, rfl, rfl, rfl, rfl⟩

theorem orderedInsert_perm (r : GrGpuResource) (l : List GrGpuResource) :
    List.Perm (orderedInsert r l) (r :: l) := by
  induction l with
  | nil => exact List.Perm.refl _
  | cons h t ih =>
    rw [orderedInsert]
    split
    · exact List.Perm.refl _
    · exact List.Perm.trans (ih.cons h) (List.Perm.swap r h t)

theorem pqInsert_map_perm (r : GrGpuResource) (l : List GrGpuResource) :
    List.Perm ((pqInsert r l).map resData) (resData r :: l.map resData) := by
  unfold pqInsert
  rw [map_resData_setIdxFrom]
  exact (orderedInsert_perm r l).map resData

theorem ridsOf_from_resData (l : List GrGpuResource) :
    (l.map resData).map (fun d => d.1) = l.map (fun r => r.rid) := by
  rw [List.map_map]
  rfl

theorem map_upd_rid (l : List GrGpuResource) (i : Nat) (f : GrGpuResource → GrGpuResource)
    (hf : ∀ x, (f x).rid = x.rid) :
    (l.map (fun x => if x.rid = i then f x else x)).map (fun r => r.rid) =
      l.map (fun r => r.rid) := by
  rw [List.map_map]
  refine List.map_congr_left ?_
  intro a _
  by_cases h : a.rid = i <;> simp [h, hf]

theorem not_mem_eraseP_of_count_le_one (l : List Nat) (i : Nat)
    (h : l.count i ≤ 1) : i ∉ l.eraseP (fun x => x == i) := by
  induction l with
  | nil => simp
  | cons a t ih =>
    rw [List.eraseP_cons]
    by_cases ha : a = i
    · subst ha
      simp only [beq_self_eq_true, cond_true]
      have ht : t.count a = 0 := by
        have := List.count_cons_self a t
        omega
      exact List.count_eq_zero.mp ht
    · have hb : (a == i) = false := by simp [ha]
      simp only [hb, cond_false]
      intro hm
      rcases List.mem_cons.mp hm with he | hm'
      · exact ha he.symm
      · have hc : t.count i ≤ 1 := by
          have := List.count_cons_of_ne (show i ≠ a from fun hE => ha hE.symm) t
          omega
        exact ih hc hm'

theorem rids_pqRemoveId (i : Nat) (l : List GrGpuResource) :
    (pqRemoveId i l).map (fun r => r.rid) =
      (l.map (fun r => r.rid)).eraseP (fun x => x == i) := by
  unfold pqRemoveId
  have h1 : (setIdxFrom 0 (l.eraseP (fun r => r.rid == i))).map (fun r => r.rid) =
      (l.eraseP (fun r => r.rid == i)).map (fun r => r.rid) := by
    have := map_resData_setIdxFrom 0 (l.eraseP (fun r => r.rid == i))
    have h2 := congrArg (List.map (fun d :
      Nat × Nat × Bool × Bool × Option Nat × Option Nat × Nat × Bool => d.1)) this
    rw [ridsOf_from_resData, ridsOf_from_resData] at h2
    exact h2
  rw [h1, List.eraseP_map]
  rfl

theorem purgeAsNeeded_noop (c : GrResourceCache) (h : overBudget c = false) :
    (purgeAsNeeded c).cache = c := by
  unfold purgeAsNeeded
  rw [h]
  rfl

theorem overBudget_congr (a b : GrResourceCache)
    (h1 : a.fBudgetedBytes = b.fBudgetedBytes) (h2 : a.fBudgetedCount = b.fBudgetedCount)
    (h3 : a.fMaxBytes = b.fMaxBytes) (h4 : a.fMaxCount = b.fMaxCount) :
    overBudget a = overBudget b := by
  unfold overBudget
  rw [h1, h2, h3, h4]

theorem setRes_fields (c : GrResourceCache) (i : Nat) (f : GrGpuResource → GrGpuResource) :
    (setRes c i f).fBudgetedCount = c.fBudgetedCount ∧
    (setRes c i f).fBudgetedBytes = c.fBudgetedBytes ∧
    (setRes c i f).fMaxCount = c.fMaxCount ∧
    (setRes c i f).fMaxBytes = c.fMaxBytes :=
  ⟨rfl, rfl, rfl, rfl⟩

theorem didChangeBudgetStatus_budgeted (c : GrResourceCache) (r : GrGpuResource)
    (hr : r.budgeted = true)
    (hno : overBudget { c with
      fBudgetedCount := c.fBudgetedCount + 1
      fBudgetedBytes := c.fBudgetedBytes + r.size } = false) :
    didChangeBudgetStatus c r =
      { c with
        fBudgetedCount := c.fBudgetedCount + 1
        fBudgetedBytes := c.fBudgetedBytes + r.size } := by
  unfold didChangeBudgetStatus
  simp only [hr, if_true]
  exact purgeAsNeeded_noop _ hno

theorem mem_map_upd_rid {l : List GrGpuResource} {i : Nat}
    {f : GrGpuResource → GrGpuResource} {x : GrGpuResource}
    (hx : x ∈ l.map (fun y => if y.rid = i then f y else y))
    (hf : ∀ x, (f x).rid = x.rid) :
    ∃ y ∈ l, x.rid = y.rid := by
  obtain ⟨y, hy, he⟩ := List.mem_map.mp hx
  refine ⟨y, hy, ?_⟩
  subst he
  by_cases h : y.rid = i <;> simp [h, hf]

set_option maxHeartbeats 1000000 in
/-- C1: `notifyPurgeable` moves the resource from the nonpurgeable
array to the purgeable queue; a non-budgeted resource is made budgeted
and kept exactly when it is not wrapped, has a valid scratch key, and
fits the budget, and is otherwise released immediately; a budgeted
resource is released exactly when the cache is over budget or it has
no valid key at all, and is kept otherwise. -/
theorem notifyPurgeable_spec (c : GrResourceCache) (r : GrGpuResource)
    (hIdxNP : idxFrom 0 c.fNonpurgeableResources = true)
    (hNodup : (trackedRids c).Nodup) (hmem : r ∈ c.fNonpurgeableResources)
    (hp : isPurgeable r = true) :
    (∀ x ∈ (notifyPurgeable c r).fNonpurgeableResources, x.rid ≠ r.rid) ∧
    (r.budgeted = false →
      ((r.wrapped = false ∧ r.scratchKey.isSome = true ∧
          c.fBudgetedCount < c.fMaxCount ∧ c.fBudgetedBytes + r.size ≤ c.fMaxBytes) →
        ∃ r' ∈ (notifyPurgeable c r).fPurgeableQueue,
          r'.rid = r.rid ∧ r'.budgeted = true) ∧
      (¬(r.wrapped = false ∧ r.scratchKey.isSome = true ∧
          c.fBudgetedCount < c.fMaxCount ∧ c.fBudgetedBytes + r.size ≤ c.fMaxBytes) →
        ∀ x ∈ (notifyPurgeable c r).fPurgeableQueue, x.rid ≠ r.rid)) ∧
    (r.budgeted = true →
      ((overBudget c = true ∨ (r.scratchKey = none ∧ r.uniqueKey = none)) →
        ∀ x ∈ (notifyPurgeable c r).fPurgeableQueue, x.rid ≠ r.rid) ∧
      ((overBudget c = false ∧ (r.scratchKey.isSome = true ∨ r.uniqueKey.isSome = true)) →
        ∃ r' ∈ (notifyPurgeable c r).fPurgeableQueue,
          r'.rid = r.rid ∧ r'.budgeted = true)) := by
  have hpermNP := removeFromNP_map_perm c r hIdxNP hmem
  have hQ1 : (removeFromNonpurgeableArray c r).fPurgeableQueue = c.fPurgeableQueue :=
    (removeFromNP_eq_parts c r).1
  have hbc1 := (removeFromNP_eq_parts c r).2.1
  have hbb1 := (removeFromNP_eq_parts c r).2.2.1
  have hmc1 := (removeFromNP_eq_parts c r).2.2.2.1
  have hmb1 := (removeFromNP_eq_parts c r).2.2.2.2
  have hridsNP : List.Perm
      (r.rid :: (removeFromNonpurgeableArray c r).fNonpurgeableResources.map
        (fun x => x.rid))
      (c.fNonpurgeableResources.map (fun x => x.rid)) := by
    have h0 := hpermNP.map
      (fun d : Nat × Nat × Bool × Bool × Option Nat × Option Nat × Nat × Bool => d.1)
    simpa only [List.map_cons, ridsOf_from_resData] using h0
  have hNodup' : ((c.fNonpurgeableResources.map (fun x => x.rid)) ++
      (c.fPurgeableQueue.map (fun x => x.rid))).Nodup := by
    have ht : trackedRids c = (c.fNonpurgeableResources.map (fun x => x.rid)) ++
        (c.fPurgeableQueue.map (fun x => x.rid)) := by
      unfold trackedRids tracked
      rw [List.map_append]
    rwa [ht] at hNodup
  obtain ⟨hNodupNP, hNodupQ, hDisj⟩ := List.nodup_append.mp hNodup'
  have hrmem : r.rid ∈ c.fNonpurgeableResources.map (fun x => x.rid) :=
    List.mem_map_of_mem _ hmem
  have hcount1 : (c.fNonpurgeableResources.map (fun x => x.rid)).count r.rid = 1 :=
    List.count_eq_one_of_mem hNodupNP hrmem
  have hnotNP1 : r.rid ∉ (removeFromNonpurgeableArray c r).fNonpurgeableResources.map
      (fun x => x.rid) := by
    have hc := hridsNP.count_eq r.rid
    rw [List.count_cons_self, hcount1] at hc
    intro hm
    have := List.count_pos_iff_mem.mpr hm
    omega
  have hnotQ : r.rid ∉ c.fPurgeableQueue.map (fun x => x.rid) := hDisj hrmem
  have hNPfinal : ∀ x ∈ (removeFromNonpurgeableArray c r).fNonpurgeableResources,
      x.rid ≠ r.rid := by
    intro x hx he
    exact hnotNP1 (he ▸ List.mem_map_of_mem _ hx)
  have hq2rids : List.Perm ((pqInsert r c.fPurgeableQueue).map (fun x => x.rid))
      (r.rid :: c.fPurgeableQueue.map (fun x => x.rid)) := by
    have h0 := (pqInsert_map_perm r c.fPurgeableQueue).map
      (fun d : Nat × Nat × Bool × Bool × Option Nat × Option Nat × Nat × Bool => d.1)
    simpa only [List.map_cons, ridsOf_from_resData] using h0
  have hq2count : ((pqInsert r c.fPurgeableQueue).map (fun x => x.rid)).count r.rid = 1 := by
    rw [hq2rids.count_eq, List.count_cons_self, List.count_eq_zero.mpr hnotQ]
  have hkeepMem : ∃ r' ∈ pqInsert r c.fPurgeableQueue, resData r' = resData r := by
    have hm0 : resData r ∈ (pqInsert r c.fPurgeableQueue).map resData :=
      (pqInsert_map_perm r _).mem_iff.mpr (List.mem_cons_self _ _)
    obtain ⟨r', hr', he⟩ := List.mem_map.mp hm0
    exact ⟨r', hr', he⟩
  have hremQ : ∀ x ∈ pqRemoveId r.rid (pqInsert r c.fPurgeableQueue), x.rid ≠ r.rid := by
    intro x hx he
    have hmm : x.rid ∈ (pqRemoveId r.rid (pqInsert r c.fPurgeableQueue)).map
        (fun y => y.rid) := List.mem_map_of_mem _ hx
    rw [rids_pqRemoveId] at hmm
    exact not_mem_eraseP_of_count_le_one _ _ (le_of_eq hq2count) (he ▸ hmm)
  rcases hb : r.budgeted with _ | _
  · -- non-budgeted resource
    by_cases hguard : r.wrapped = false ∧ r.scratchKey.isSome = true
    · obtain ⟨hw, hsk⟩ := hguard
      by_cases hfit : c.fBudgetedCount < c.fMaxCount ∧
          c.fBudgetedBytes + r.size ≤ c.fMaxBytes
      · -- kept, made budgeted
        have hfit2 : (removeFromNonpurgeableArray c r).fBudgetedCount <
            (removeFromNonpurgeableArray c r).fMaxCount ∧
            (removeFromNonpurgeableArray c r).fBudgetedBytes + r.size ≤
              (removeFromNonpurgeableArray c r).fMaxBytes := by
          rw [hbc1, hbb1, hmc1, hmb1]
          exact hfit
        have hred0 : notifyPurgeable c r =
            didChangeBudgetStatus
              (setRes { removeFromNonpurgeableArray c r with
                  fPurgeableQueue :=
                    pqInsert r (removeFromNonpurgeableArray c r).fPurgeableQueue }
                r.rid (fun x => { x with budgeted := true }))
              { r with budgeted := true } := by
          unfold notifyPurgeable
          simp only [hb, hw, hsk, Bool.not_false, Bool.and_self, if_true]
          rw [if_pos hfit2]
        rw [hred0, didChangeBudgetStatus_budgeted _ _ rfl (by
          unfold overBudget
          simp only [setRes]
          rw [hbb1, hmb1, hbc1, hmc1]
          simp only [Bool.or_eq_false_iff, decide_eq_false_iff_not]
          obtain ⟨hf1, hf2⟩ := hfit
          exact ⟨by omega, by omega⟩)]
        refine ⟨?_, ?_, ?_⟩
        · intro x hx
          simp only [setRes] at hx
          obtain ⟨y, hy, he⟩ := mem_map_upd_rid hx (fun x => rfl)
          rw [he]
          exact hNPfinal y hy
        · intro _
          refine ⟨fun _ => ?_, fun hn => absurd ⟨hw, hsk, hfit.1, hfit.2⟩ hn⟩
          obtain ⟨r', hr', hrd⟩ := hkeepMem
          have hrid : r'.rid = r.rid := resData_rid _ _ hrd
          refine ⟨{ r' with budgeted := true }, ?_, by simpa using hrid, rfl⟩
          simp only [setRes]
          rw [hQ1]
          have := List.mem_map_of_mem
            (fun y => if y.rid = r.rid then { y with budgeted := true } else y) hr'
          simpa [hrid] using this
        · intro hbt
          simp [hb] at hbt
      · -- does not fit: released
        have hnfit2 : ¬((removeFromNonpurgeableArray c r).fBudgetedCount <
            (removeFromNonpurgeableArray c r).fMaxCount ∧
            (removeFromNonpurgeableArray c r).fBudgetedBytes + r.size ≤
              (removeFromNonpurgeableArray c r).fMaxBytes) := by
          rw [hbc1, hbb1, hmc1, hmb1]
          exact hfit
        have hred0 : notifyPurgeable c r =
            removeResource { removeFromNonpurgeableArray c r with
              fPurgeableQueue :=
                pqInsert r (removeFromNonpurgeableArray c r).fPurgeableQueue } r := by
          unfold notifyPurgeable
          simp only [hb, hw, hsk, Bool.not_false, Bool.and_self, if_true]
          rw [if_neg hnfit2]
        rw [hred0]
        have hqf : (removeResource { removeFromNonpurgeableArray c r with
            fPurgeableQueue :=
              pqInsert r (removeFromNonpurgeableArray c r).fPurgeableQueue } r).fPurgeableQueue =
            pqRemoveId r.rid (pqInsert r c.fPurgeableQueue) := by
          rw [removeResource_fPurgeableQueue _ _ hp]
          rw [show ({ removeFromNonpurgeableArray c r with
            fPurgeableQueue :=
              pqInsert r (removeFromNonpurgeableArray c r).fPurgeableQueue } :
                GrResourceCache).fPurgeableQueue =
            pqInsert r (removeFromNonpurgeableArray c r).fPurgeableQueue from rfl, hQ1]
        have hnf : (removeResource { removeFromNonpurgeableArray c r with
            fPurgeableQueue :=
              pqInsert r (removeFromNonpurgeableArray c r).fPurgeableQueue } r).fNonpurgeableResources =
            (removeFromNonpurgeableArray c r).fNonpurgeableResources :=
          removeResource_fNonpurgeable_of_purgeable _ _ hp
        refine ⟨?_, ?_, ?_⟩
        · intro x hx
          rw [hnf] at hx
          exact hNPfinal x hx
        · intro _
          refine ⟨fun hfc => absurd ⟨hfc.2.2.1, hfc.2.2.2⟩ hfit, fun _ => ?_⟩
          intro x hx
          rw [hqf] at hx
          exact hremQ x hx
        · intro hbt
          simp [hb] at hbt
    · -- wrapped or no scratch key: released
      have hgb : (!r.wrapped && r.scratchKey.isSome) = false := by
        rcases hw2 : r.wrapped <;> rcases hs2 : r.scratchKey.isSome <;> simp_all
      have hred0 : notifyPurgeable c r =
          removeResource { removeFromNonpurgeableArray c r with
            fPurgeableQueue :=
              pqInsert r (removeFromNonpurgeableArray c r).fPurgeableQueue } r := by
        unfold notifyPurgeable
        simp only [hb, hgb, Bool.not_false, if_true, Bool.false_eq_true, if_false]
      rw [hred0]
      have hqf : (removeResource { removeFromNonpurgeableArray c r with
          fPurgeableQueue :=
            pqInsert r (removeFromNonpurgeableArray c r).fPurgeableQueue } r).fPurgeableQueue =
          pqRemoveId r.rid (pqInsert r c.fPurgeableQueue) := by
        rw [removeResource_fPurgeableQueue _ _ hp]
        rw [show ({ removeFromNonpurgeableArray c r with
          fPurgeableQueue :=
            pqInsert r (removeFromNonpurgeableArray c r).fPurgeableQueue } :
              GrResourceCache).fPurgeableQueue =
          pqInsert r (removeFromNonpurgeableArray c r).fPurgeableQueue from rfl, hQ1]
      have hnf : (removeResource { removeFromNonpurgeableArray c r with
          fPurgeableQueue :=
            pqInsert r (removeFromNonpurgeableArray c r).fPurgeableQueue } r).fNonpurgeableResources =
          (removeFromNonpurgeableArray c r).fNonpurgeableResources :=
        removeResource_fNonpurgeable_of_purgeable _ _ hp
      refine ⟨?_, ?_, ?_⟩
      · intro x hx
        rw [hnf] at hx
        exact hNPfinal x hx
      · intro _
        refine ⟨fun hfc => absurd ⟨hfc.1, hfc.2.1⟩ hguard, fun _ => ?_⟩
        intro x hx
        rw [hqf] at hx
        exact hremQ x hx
      · intro hbt
        simp [hb] at hbt
  · -- budgeted resource
    have hob2 : overBudget { removeFromNonpurgeableArray c r with
        fPurgeableQueue :=
          pqInsert r (removeFromNonpurgeableArray c r).fPurgeableQueue } = overBudget c :=
      overBudget_congr _ _ hbb1 hbc1 hmb1 hmc1
    by_cases hrel : overBudget c = true ∨ (r.scratchKey = none ∧ r.uniqueKey = none)
    · -- released
      have hcond : (!overBudget { removeFromNonpurgeableArray c r with
          fPurgeableQueue :=
            pqInsert r (removeFromNonpurgeableArray c r).fPurgeableQueue } &&
          !(!r.scratchKey.isSome && !r.uniqueKey.isSome)) = false := by
        rw [hob2]
        rcases hrel with ho | ⟨hs0, hu0⟩
        · rw [ho]; rfl
        · rw [hs0, hu0]
          simp
      have hred0 : notifyPurgeable c r =
          removeResource { removeFromNonpurgeableArray c r with
            fPurgeableQueue :=
              pqInsert r (removeFromNonpurgeableArray c r).fPurgeableQueue } r := by
        unfold notifyPurgeable
        simp only [hb, Bool.not_true, Bool.false_eq_true, if_false]
        rw [hcond]
        simp
      rw [hred0]
      have hqf : (removeResource { removeFromNonpurgeableArray c r with
          fPurgeableQueue :=
            pqInsert r (removeFromNonpurgeableArray c r).fPurgeableQueue } r).fPurgeableQueue =
          pqRemoveId r.rid (pqInsert r c.fPurgeableQueue) := by
        rw [removeResource_fPurgeableQueue _ _ hp]
        rw [show ({ removeFromNonpurgeableArray c r with
          fPurgeableQueue :=
            pqInsert r (removeFromNonpurgeableArray c r).fPurgeableQueue } :
              GrResourceCache).fPurgeableQueue =
          pqInsert r (removeFromNonpurgeableArray c r).fPurgeableQueue from rfl, hQ1]
      have hnf : (removeResource { removeFromNonpurgeableArray c r with
          fPurgeableQueue :=
            pqInsert r (removeFromNonpurgeableArray c r).fPurgeableQueue } r).fNonpurgeableResources =
          (removeFromNonpurgeableArray c r).fNonpurgeableResources :=
        removeResource_fNonpurgeable_of_purgeable _ _ hp
      refine ⟨?_, ?_, ?_⟩
      · intro x hx
        rw [hnf] at hx
        exact hNPfinal x hx
      · intro hbf
        simp [hb] at hbf
      · intro _
        refine ⟨?_, ?_⟩
        · intro _ x hx
          rw [hqf] at hx
          exact hremQ x hx
        · intro hkeep
          exfalso
          rcases hrel with ho | ⟨hs0, hu0⟩
          · rw [hkeep.1] at ho; cases ho
          · rcases hkeep.2 with hk | hk
            · rw [hs0] at hk; cases hk
            · rw [hu0] at hk; cases hk
    · -- kept
      push_neg at hrel
      obtain ⟨ho, hkey⟩ := hrel
      have hob : overBudget c = false := by
        rcases hoo : overBudget c with _ | _
        · rfl
        · exact absurd hoo ho
      have hnk : (!r.scratchKey.isSome && !r.uniqueKey.isSome) = false := by
        rcases hs2 : r.scratchKey with _ | sk
        · rcases hu2 : r.uniqueKey with _ | uk
          · exact absurd hu2 (hkey hs2)
          · simp [hs2, hu2]
        · simp [hs2]
      have hred0 : notifyPurgeable c r =
          { removeFromNonpurgeableArray c r with
            fPurgeableQueue :=
              pqInsert r (removeFromNonpurgeableArray c r).fPurgeableQueue } := by
        unfold notifyPurgeable
        simp only [hb, Bool.not_true, Bool.false_eq_true, if_false]
        rw [hob2, hob, hnk]
        simp
      rw [hred0]
      refine ⟨?_, ?_, ?_⟩
      · intro x hx
        exact hNPfinal x hx
      · intro hbf
        simp [hb] at hbf
      · intro _
        refine ⟨?_, ?_⟩
        · intro hrel2
          exfalso
          rcases hrel2 with ho2 | ⟨hs0, hu0⟩
          · rw [ho2] at hob; cases hob
          · have := hnk
            rw [hs0, hu0] at this
            simp at this
        · intro _
          obtain ⟨r', hr', hrd⟩ := hkeepMem
          obtain ⟨hrid, -, hbud, -⟩ := resData_fields _ _ hrd
          refine ⟨r', ?_, hrid, by rw [hbud, hb]⟩
          show r' ∈ pqInsert r (removeFromNonpurgeableArray c r).fPurgeableQueue
          rw [hQ1]
          exact hr'


theorem notifyPurgeable_spec_witness :
    idxFrom 0 c1wCache.fNonpurgeableResources = true ∧
      (∀ x ∈ (notifyPurgeable c1wCache c1res).fNonpurgeableResources, x.rid ≠ c1res.rid) :=
  ⟨by decide,
   (notifyPurgeable_spec c1wCache c1res (by decide) (by decide) (by decide) (by decide)).1⟩

theorem find?_filter_of_imp {α : Type} (l : List α) (p q : α → Bool)
    (h : ∀ x, p x = true → q x = true) :
    (l.filter q).find? p = l.find? p := by
  induction l with
  | nil => rfl
  | cons a t ih =>
    rcases hq : q a with _ | _
    · have hp : p a = false := by
        rcases hp0 : p a with _ | _
        · rfl
        · rw [h a hp0] at hq; cases hq
      rw [List.filter_cons_of_neg (by simp [hq]), List.find?_cons_of_neg _ (by simp [hp])]
      exact ih
    · rw [List.filter_cons_of_pos (by simp [hq])]
      rcases hp : p a with _ | _
      · rw [List.find?_cons_of_neg _ (by simp [hp]), List.find?_cons_of_neg _ (by simp [hp])]
        exact ih
      · rw [List.find?_cons_of_pos _ hp, List.find?_cons_of_pos _ hp]

theorem lookupRes_mem (c : GrResourceCache) (i : Nat) (x : GrGpuResource)
    (h : lookupRes c i = some x) : x ∈ tracked c ∧ x.rid = i := by
  unfold lookupRes at h
  unfold tracked
  rcases hf : c.fNonpurgeableResources.find? (fun r => r.rid == i) with _ | y
  · rw [hf] at h
    constructor
    · exact List.mem_append_right _ (List.mem_of_find?_eq_some h)
    · have := List.find?_some h
      simpa using this
  · rw [hf] at h
    cases h
    constructor
    · exact List.mem_append_left _ (List.mem_of_find?_eq_some hf)
    · have := List.find?_some hf
      simpa using this

theorem tracked_setRes (c : GrResourceCache) (i : Nat) (f : GrGpuResource → GrGpuResource) :
    tracked (setRes c i f) = (tracked c).map (fun x => if x.rid = i then f x else x) := by
  unfold tracked setRes
  rw [List.map_append]

theorem mem_eraseP_of_pred_false {α : Type} {x : α} {p : α → Bool} :
    ∀ {l : List α}, x ∈ l → p x = false → x ∈ l.eraseP p
  | [], hx, _ => absurd hx (by simp)
  | a :: t, hx, hp => by
    rw [List.eraseP_cons]
    rcases hpa : p a with _ | _
    · simp only [cond_false]
      rcases List.mem_cons.mp hx with he | hm
      · exact he ▸ List.mem_cons_self a _
      · exact List.mem_cons_of_mem a (mem_eraseP_of_pred_false hm hp)
    · simp only [cond_true]
      rcases List.mem_cons.mp hx with he | hm
      · rw [he] at hp; rw [hp] at hpa; cases hpa
      · exact hm

theorem filter_ne_filter_eq_nil (h : List (Nat × Nat)) (nk : Nat) :
    (h.filter (fun p => p.1 != nk)).filter (fun p => p.1 == nk) = [] := by
  rw [List.filter_filter]
  refine List.filter_eq_nil.mpr ?_
  intro p _
  rcases hpk : p.1 == nk with _ | _ <;> simp_all

theorem removeFromNP_eq_parts2 (c : GrResourceCache) (r : GrGpuResource) :
    (removeFromNonpurgeableArray c r).fScratchMap = c.fScratchMap ∧
    (removeFromNonpurgeableArray c r).fUniqueHash = c.fUniqueHash ∧
    (removeFromNonpurgeableArray c r).fBytes = c.fBytes ∧
    (removeFromNonpurgeableArray c r).fTimestamp = c.fTimestamp := by
  unfold removeFromNonpurgeableArray
  rcases c.fNonpurgeableResources.getLast? with _ | t <;> exact ⟨rfl, rfl, rfl, rfl⟩

theorem removeResource_hash_keyed (c : GrResourceCache) (old : GrGpuResource) (nk : Nat)
    (hso : old.scratchKey = none) (hok : old.uniqueKey = some nk) :
    (removeResource c old).fUniqueHash = c.fUniqueHash.filter (fun p => p.1 != nk) := by
  unfold removeResource
  rcases hp : isPurgeable old with _ | _ <;>
    rcases hbg : old.budgeted with _ | _ <;>
      simp [hso, hok, hp, hbg, (removeFromNP_eq_parts2 c old).2.1]

theorem uniqueFindRes_tracked (c : GrResourceCache) (nk : Nat) (old : GrGpuResource)
    (h : uniqueFindRes c nk = some old) : old ∈ tracked c := by
  unfold uniqueFindRes at h
  rcases hf : c.fUniqueHash.find? (fun p => p.1 == nk) with _ | p
  · rw [hf] at h; cases h
  · rw [hf] at h
    exact (lookupRes_mem c p.2 old h).1

set_option maxHeartbeats 1600000 in
theorem changeUniqueKeyInstall_spec (c1 : GrResourceCache) (r old : GrGpuResource) (nk : Nat)
    (hNPflags : ∀ x ∈ c1.fNonpurgeableResources, isPurgeable x = false)
    (hNodup : (trackedRids c1).Nodup)
    (hmemr : r ∈ tracked c1)
    (hfind : uniqueFindRes c1 nk = some old)
    (hne : old.rid ≠ r.rid) (hok : old.uniqueKey = some nk) :
    ((old.scratchKey = none ∧ isPurgeable old = true) →
      ∀ x ∈ tracked (changeUniqueKeyInstall c1 r nk), x.rid ≠ old.rid) ∧
    ((old.scratchKey.isSome = true ∨ isPurgeable old = false) →
      ∃ o' ∈ tracked (changeUniqueKeyInstall c1 r nk),
        o'.rid = old.rid ∧ o'.uniqueKey = none) ∧
    (changeUniqueKeyInstall c1 r nk).fUniqueHash.filter (fun p => p.1 == nk) =
      [(nk, r.rid)] ∧
    ∃ r' ∈ tracked (changeUniqueKeyInstall c1 r nk),
      r'.rid = r.rid ∧ r'.uniqueKey = some nk := by
  have holdmem : old ∈ tracked c1 := uniqueFindRes_tracked c1 nk old hfind
  have hNodup' : ((c1.fNonpurgeableResources.map (fun x => x.rid)) ++
      (c1.fPurgeableQueue.map (fun x => x.rid))).Nodup := by
    have ht : trackedRids c1 = (c1.fNonpurgeableResources.map (fun x => x.rid)) ++
        (c1.fPurgeableQueue.map (fun x => x.rid)) := by
      unfold trackedRids tracked
      rw [List.map_append]
    rwa [ht] at hNodup
  obtain ⟨hNodupNP, hNodupQ, hDisj⟩ := List.nodup_append.mp hNodup'
  by_cases hcond : (!old.scratchKey.isSome && isPurgeable old) = true
  · -- the old resource is released
    have hcond2 : (!old.scratchKey.isSome) = true ∧ isPurgeable old = true := by
      have h0 := hcond
      simp only [Bool.and_eq_true] at h0
      exact h0
    have hpo : isPurgeable old = true := hcond2.2
    have hso : old.scratchKey = none := by
      have h0 := hcond2.1
      rcases hs : old.scratchKey with _ | k
      · rfl
      · rw [hs] at h0; simp at h0
    have holdQ : old ∈ c1.fPurgeableQueue := by
      rcases List.mem_append.mp holdmem with hn | hq
      · rw [hNPflags old hn] at hpo; cases hpo
      · exact hq
    have holdNotNP : old.rid ∉ c1.fNonpurgeableResources.map (fun x => x.rid) := by
      intro hmm
      exact hDisj hmm (List.mem_map_of_mem _ holdQ)
    have hcountQ : (c1.fPurgeableQueue.map (fun x => x.rid)).count old.rid = 1 :=
      List.count_eq_one_of_mem hNodupQ (List.mem_map_of_mem _ holdQ)
    have hNP2 : (removeResource c1 old).fNonpurgeableResources = c1.fNonpurgeableResources :=
      removeResource_fNonpurgeable_of_purgeable _ _ hpo
    have hQ2 : (removeResource c1 old).fPurgeableQueue =
        pqRemoveId old.rid c1.fPurgeableQueue :=
      removeResource_fPurgeableQueue _ _ hpo
    have htr : tracked (changeUniqueKeyInstall c1 r nk) =
        (tracked (removeResource c1 old)).map
          (fun x => if x.rid = r.rid then { x with uniqueKey := some nk } else x) := by
      unfold changeUniqueKeyInstall
      rw [hfind]
      simp only [hcond, if_true]
      exact tracked_setRes (removeResource c1 old) r.rid
        (fun x => { x with uniqueKey := some nk })
    have hhash : (changeUniqueKeyInstall c1 r nk).fUniqueHash =
        (nk, r.rid) :: (removeResource c1 old).fUniqueHash := by
      unfold changeUniqueKeyInstall
      rw [hfind]
      simp only [hcond, if_true]
      rfl
    refine ⟨?_, ?_, ?_, ?_⟩
    · intro _ x hx
      rw [htr] at hx
      obtain ⟨y, hy, he⟩ := mem_map_upd_rid hx (fun x => rfl)
      rw [he]
      unfold tracked at hy
      rcases List.mem_append.mp hy with hn | hq
      · rw [hNP2] at hn
        intro heq
        exact holdNotNP (heq ▸ List.mem_map_of_mem _ hn)
      · rw [hQ2] at hq
        intro heq
        have hmm : y.rid ∈ (pqRemoveId old.rid c1.fPurgeableQueue).map
            (fun z => z.rid) := List.mem_map_of_mem _ hq
        rw [rids_pqRemoveId] at hmm
        exact not_mem_eraseP_of_count_le_one _ _ (le_of_eq hcountQ) (heq ▸ hmm)
    · intro hk
      exfalso
      rcases hk with hk | hk
      · rw [hso] at hk; cases hk
      · rw [hpo] at hk; cases hk
    · rw [hhash, removeResource_hash_keyed c1 old nk hso hok]
      rw [List.filter_cons_of_pos (by simp)]
      rw [filter_ne_filter_eq_nil]
    · rcases List.mem_append.mp hmemr with hn | hq
      · refine ⟨{ r with uniqueKey := some nk }, ?_, rfl, rfl⟩
        rw [htr]
        unfold tracked
        rw [List.map_append]
        refine List.mem_append.mpr (Or.inl ?_)
        rw [hNP2]
        have h0 := List.mem_map_of_mem
          (fun x => if x.rid = r.rid then { x with uniqueKey := some nk } else x) hn
        simpa using h0
      · have hrd : resData r ∈ (pqRemoveId old.rid c1.fPurgeableQueue).map resData := by
          unfold pqRemoveId
          rw [map_resData_setIdxFrom]
          refine List.mem_map_of_mem _ ?_
          refine mem_eraseP_of_pred_false hq ?_
          simp only [beq_eq_false_iff_ne, ne_eq]
          intro hE
          exact hne (hE.symm)
        obtain ⟨r0, hr0, hr0d⟩ := List.mem_map.mp hrd
        obtain ⟨hrid0, -, -, -, -, huk0, -, -⟩ := resData_fields _ _ hr0d
        refine ⟨{ r0 with uniqueKey := some nk }, ?_, by simpa using hrid0, rfl⟩
        rw [htr]
        unfold tracked
        rw [List.map_append]
        refine List.mem_append.mpr (Or.inr ?_)
        rw [hQ2]
        have h0 := List.mem_map_of_mem
          (fun x => if x.rid = r.rid then { x with uniqueKey := some nk } else x) hr0
        simpa [hrid0] using h0
  · -- the old resource keeps living, only its unique key is removed
    have hcondF : (!old.scratchKey.isSome && isPurgeable old) = false := by
      rcases h0 : (!old.scratchKey.isSome && isPurgeable old) with _ | _
      · rfl
      · exact absurd h0 hcond
    have hth : tracked { c1 with
        fUniqueHash := c1.fUniqueHash.filter (fun p => p.1 != nk) } = tracked c1 := rfl
    have htr : tracked (changeUniqueKeyInstall c1 r nk) =
        ((tracked c1).map
          (fun x => if x.rid = old.rid then { x with uniqueKey := none } else x)).map
          (fun x => if x.rid = r.rid then { x with uniqueKey := some nk } else x) := by
      have step : tracked (changeUniqueKeyInstall c1 r nk) =
          tracked (setRes (setRes { c1 with
            fUniqueHash := c1.fUniqueHash.filter (fun p => p.1 != nk) } old.rid
            (fun x => { x with uniqueKey := none })) r.rid
            (fun x => { x with uniqueKey := some nk })) := by
        unfold changeUniqueKeyInstall
        rw [hfind]
        simp only [hcondF, Bool.false_eq_true, if_false]
        rfl
      rw [step, tracked_setRes, tracked_setRes, hth]
    have hhash : (changeUniqueKeyInstall c1 r nk).fUniqueHash =
        (nk, r.rid) :: c1.fUniqueHash.filter (fun p => p.1 != nk) := by
      unfold changeUniqueKeyInstall
      rw [hfind]
      simp only [hcondF, Bool.false_eq_true, if_false]
      rfl
    refine ⟨?_, ?_, ?_, ?_⟩
    · intro hA
      exfalso
      rw [hA.1, hA.2] at hcondF
      simp at hcondF
    · intro _
      refine ⟨{ old with uniqueKey := none }, ?_, rfl, rfl⟩
      rw [htr]
      have h1 : ({ old with uniqueKey := none } : GrGpuResource) ∈ (tracked c1).map
          (fun x => if x.rid = old.rid then { x with uniqueKey := none } else x) := by
        have h0 := List.mem_map_of_mem
          (fun x => if x.rid = old.rid then { x with uniqueKey := none } else x) holdmem
        simpa using h0
      have h2 := List.mem_map_of_mem
        (fun x => if x.rid = r.rid then { x with uniqueKey := some nk } else x) h1
      simpa [hne] using h2
    · rw [hhash]
      rw [List.filter_cons_of_pos (by simp)]
      rw [filter_ne_filter_eq_nil]
    · refine ⟨{ r with uniqueKey := some nk }, ?_, rfl, rfl⟩
      rw [htr]
      have h0 := List.mem_map_of_mem
        (fun x => if x.rid = old.rid then { x with uniqueKey := none } else x) hmemr
      have hnR : ¬(r.rid = old.rid) := fun hE => hne hE.symm
      simp only [hnR, if_false] at h0
      have h2 := List.mem_map_of_mem
        (fun x => if x.rid = r.rid then { x with uniqueKey := some nk } else x) h0
      simpa using h2

set_option maxHeartbeats 1000000 in
/-- C4: `changeUniqueKey(resource, newKey)` with `newKey` valid, when
another tracked resource currently holds `newKey`: that resource is
released when it has no scratch key and is purgeable, and otherwise
only loses its unique key but stays tracked; in either case the unique
hash afterwards maps `newKey` to exactly the incoming resource, and
the incoming resource's unique key is `newKey`. -/
theorem changeUniqueKey_spec (c : GrResourceCache) (r old : GrGpuResource) (nk : Nat)
    (hWF : WF c) (hmemr : r ∈ tracked c)
    (hfind : uniqueFindRes c nk = some old)
    (hne : old.rid ≠ r.rid) (hok : old.uniqueKey = some nk)
    (hrk : r.uniqueKey ≠ some nk) :
    ((old.scratchKey = none ∧ isPurgeable old = true) →
      ∀ x ∈ tracked (changeUniqueKey c r (some nk)), x.rid ≠ old.rid) ∧
    ((old.scratchKey.isSome = true ∨ isPurgeable old = false) →
      ∃ o' ∈ tracked (changeUniqueKey c r (some nk)),
        o'.rid = old.rid ∧ o'.uniqueKey = none) ∧
    (changeUniqueKey c r (some nk)).fUniqueHash.filter (fun p => p.1 == nk) =
      [(nk, r.rid)] ∧
    ∃ r' ∈ tracked (changeUniqueKey c r (some nk)),
      r'.rid = r.rid ∧ r'.uniqueKey = some nk := by
  obtain ⟨-, -, -, hNPflags, hNodup⟩ := hWF
  rcases hru : r.uniqueKey with _ | k
  · have hkey : changeUniqueKey c r (some nk) = changeUniqueKeyInstall c r nk := by
      unfold changeUniqueKey
      rw [hru]
    rw [hkey]
    exact changeUniqueKeyInstall_spec c r old nk hNPflags hNodup hmemr hfind hne hok
  · have hkne : k ≠ nk := fun hE => hrk (by rw [hru, hE])
    have hkey : changeUniqueKey c r (some nk) =
        changeUniqueKeyInstall
          { c with fUniqueHash := c.fUniqueHash.filter (fun p => p.1 != k) } r nk := by
      unfold changeUniqueKey
      rw [hru]
    have hfind1 : uniqueFindRes
        { c with fUniqueHash := c.fUniqueHash.filter (fun p => p.1 != k) } nk =
          some old := by
      unfold uniqueFindRes
      rw [show ({ c with fUniqueHash := c.fUniqueHash.filter (fun p => p.1 != k) } :
          GrResourceCache).fUniqueHash = c.fUniqueHash.filter (fun p => p.1 != k) from rfl]
      rw [find?_filter_of_imp _ _ _ (fun x hx => by
        simp only [beq_iff_eq] at hx
        simp only [bne_iff_ne, ne_eq, decide_eq_true_eq]
        rw [hx]
        exact fun hE => hkne hE.symm)]
      exact hfind
    rw [hkey]
    exact changeUniqueKeyInstall_spec _ r old nk hNPflags hNodup hmemr hfind1 hne hok


theorem changeUniqueKey_spec_witness :
    WF c4Cache ∧
      (changeUniqueKey c4Cache c4r (some 100)).fUniqueHash.filter
        (fun p => p.1 == 100) = [(100, 2)] :=
  ⟨by decide,
   (changeUniqueKey_spec c4Cache c4r c4old 100 (by decide) (by decide) (by decide)
      (by decide) (by decide) (by decide)).2.2.1⟩


theorem mergeAssign_data : ∀ (ps nps : List GrGpuResource) (ts i : Nat),
    (mergeAssign ps nps ts i).ps.map resData = ps.map resData ∧
    (mergeAssign ps nps ts i).nps.map resData = nps.map resData
  | [], [], ts, i => by rw [mergeAssign]; exact ⟨rfl, rfl⟩
  | [], np :: nps, ts, i => by
    have ih := mergeAssign_data [] nps ((ts + 1) % 4294967296) (i + 1)
    rw [mergeAssign]
    refine ⟨rfl, ?_⟩
    simp only [List.map_cons, ih.2]
    rfl
  | p :: ps, [], ts, i => by
    have ih := mergeAssign_data ps [] ((ts + 1) % 4294967296) i
    rw [mergeAssign]
    refine ⟨?_, ih.2⟩
    simp only [List.map_cons, ih.1]
    rfl
  | p :: ps, np :: nps, ts, i => by
    rw [mergeAssign]
    split
    · have ih := mergeAssign_data ps (np :: nps) ((ts + 1) % 4294967296) i
      refine ⟨?_, ih.2⟩
      simp only [List.map_cons, ih.1]
      rfl
    · have ih := mergeAssign_data (p :: ps) nps ((ts + 1) % 4294967296) (i + 1)
      refine ⟨ih.1, ?_⟩
      simp only [List.map_cons, ih.2]
      rfl
termination_by ps nps _ _ => ps.length + nps.length

theorem sortTs_data_perm (l : List GrGpuResource) :
    List.Perm ((sortTs l).map resData) (l.map resData) := by
  induction l with
  | nil => exact List.Perm.refl _
  | cons a t ih =>
    have h1 : sortTs (a :: t) = orderedInsert a (sortTs t) := rfl
    rw [h1]
    refine List.Perm.trans ((orderedInsert_perm a (sortTs t)).map resData) ?_
    simpa using ih.cons (resData a)

theorem pqRebuild_data_perm :
    ∀ (l acc : List GrGpuResource),
      List.Perm ((l.foldl (fun q r => pqInsert r q) acc).map resData)
        (l.map resData ++ acc.map resData)
  | [], acc => by simp
  | a :: t, acc => by
    have ih := pqRebuild_data_perm t (pqInsert a acc)
    rw [List.foldl_cons]
    refine List.Perm.trans ih ?_
    have h1 : List.Perm ((pqInsert a acc).map resData) (resData a :: acc.map resData) :=
      pqInsert_map_perm a acc
    refine List.Perm.trans (h1.append_left (t.map resData)) ?_
    simp only [List.map_cons]
    exact List.perm_middle

theorem wrapRecovery_NP_perm (c : GrResourceCache) :
    List.Perm ((wrapRecovery c).fNonpurgeableResources.map resData)
      (c.fNonpurgeableResources.map resData) := by
  unfold wrapRecovery
  rw [(mergeAssign_data c.fPurgeableQueue (sortTs c.fNonpurgeableResources)
    c.fTimestamp 0).2]
  exact sortTs_data_perm c.fNonpurgeableResources

theorem wrapRecovery_Q_perm (c : GrResourceCache) :
    List.Perm ((wrapRecovery c).fPurgeableQueue.map resData)
      (c.fPurgeableQueue.map resData) := by
  unfold wrapRecovery
  have h1 := (mergeAssign_data c.fPurgeableQueue (sortTs c.fNonpurgeableResources)
    c.fTimestamp 0).1
  have h2 := pqRebuild_data_perm
    (mergeAssign c.fPurgeableQueue (sortTs c.fNonpurgeableResources) c.fTimestamp 0).ps []
  refine List.Perm.trans h2 ?_
  rw [h1]
  simp

theorem getNextTimestamp_NP_perm (c : GrResourceCache) :
    List.Perm ((getNextTimestamp c).2.fNonpurgeableResources.map resData)
      (c.fNonpurgeableResources.map resData) := by
  unfold getNextTimestamp
  split
  · exact wrapRecovery_NP_perm c
  · exact List.Perm.refl _

theorem getNextTimestamp_Q_perm (c : GrResourceCache) :
    List.Perm ((getNextTimestamp c).2.fPurgeableQueue.map resData)
      (c.fPurgeableQueue.map resData) := by
  unfold getNextTimestamp
  split
  · exact wrapRecovery_Q_perm c
  · exact List.Perm.refl _

theorem getNextTimestamp_counter (c : GrResourceCache) :
    (getNextTimestamp c).2.fTimestamp = ((getNextTimestamp c).1 + 1) % 4294967296 := rfl

theorem findInScratchMap_tracked (c : GrResourceCache) (key : Nat)
    (pred : GrGpuResource → Bool) (r : GrGpuResource)
    (h : findInScratchMap c key pred = some r) : r ∈ tracked c := by
  unfold findInScratchMap at h
  have hm := List.mem_of_find?_eq_some h
  obtain ⟨p, hp, he⟩ := List.mem_filterMap.mp hm
  by_cases hk : p.1 = key
  · rw [if_pos hk] at he
    exact (lookupRes_mem c p.2 r he).1
  · rw [if_neg hk] at he
    cases he

theorem setRes_mem_image {c : GrResourceCache} {i : Nat}
    {f : GrGpuResource → GrGpuResource} {m : GrGpuResource}
    (hm : m ∈ c.fNonpurgeableResources) (hrid : m.rid = i) :
    f m ∈ (setRes c i f).fNonpurgeableResources := by
  have h0 := List.mem_map_of_mem (fun x => if x.rid = i then f x else x) hm
  simp only [] at h0
  rw [if_pos hrid] at h0
  exact h0

theorem promote_core (cA : GrResourceCache) (r : GrGpuResource)
    (hm : ∃ m ∈ cA.fNonpurgeableResources, resData m = resData r) :
    ∃ r' ∈ (setRes (getNextTimestamp (setRes cA r.rid
        (fun x => { x with refCnt := x.refCnt + 1 }))).2 r.rid
        (fun x => { x with timestamp :=
          (getNextTimestamp (setRes cA r.rid
            (fun x => { x with refCnt := x.refCnt + 1 }))).1 })).fNonpurgeableResources,
      r'.rid = r.rid ∧ r'.refCnt = r.refCnt + 1 ∧ isPurgeable r' = false ∧
        (setRes (getNextTimestamp (setRes cA r.rid
          (fun x => { x with refCnt := x.refCnt + 1 }))).2 r.rid
          (fun x => { x with timestamp :=
            (getNextTimestamp (setRes cA r.rid
              (fun x => { x with refCnt := x.refCnt + 1 }))).1 })).fTimestamp =
          (r'.timestamp + 1) % 4294967296 := by
  obtain ⟨m, hmNP, hmd⟩ := hm
  obtain ⟨hmrid, -, -, -, -, -, hmref, -⟩ := resData_fields _ _ hmd
  have h1 : ({ m with refCnt := m.refCnt + 1 } : GrGpuResource) ∈
      (setRes cA r.rid (fun x => { x with refCnt := x.refCnt + 1 })).fNonpurgeableResources :=
    setRes_mem_image hmNP hmrid
  have h2 : resData ({ m with refCnt := m.refCnt + 1 } : GrGpuResource) ∈
      ((getNextTimestamp (setRes cA r.rid
        (fun x => { x with refCnt := x.refCnt + 1 }))).2.fNonpurgeableResources.map
          resData) := by
    refine (getNextTimestamp_NP_perm (setRes cA r.rid
      (fun x => { x with refCnt := x.refCnt + 1 }))).mem_iff.mpr ?_
    exact List.mem_map_of_mem resData h1
  obtain ⟨m2, hm2, hm2d⟩ := List.mem_map.mp h2
  obtain ⟨hm2rid, -, -, -, -, -, hm2ref, -⟩ := resData_fields _ _ hm2d
  have hm2rr : m2.rid = r.rid := by
    rw [hm2rid]
    exact hmrid
  refine ⟨{ m2 with timestamp := (getNextTimestamp (setRes cA r.rid
      (fun x => { x with refCnt := x.refCnt + 1 }))).1 }, ?_, hm2rr, ?_, ?_, ?_⟩
  · exact setRes_mem_image hm2 hm2rr
  · show m2.refCnt = r.refCnt + 1
    rw [hm2ref]
    show m.refCnt + 1 = r.refCnt + 1
    rw [hmref]
  · unfold isPurgeable
    have hr1 : m2.refCnt = r.refCnt + 1 := by
      rw [hm2ref]
      show m.refCnt + 1 = r.refCnt + 1
      rw [hmref]
    simp [hr1]
  · exact getNextTimestamp_counter _

theorem refAndMakeResourceMRU_promotes (c : GrResourceCache) (r : GrGpuResource)
    (hQflags : ∀ x ∈ c.fPurgeableQueue, isPurgeable x = true)
    (hmem : r ∈ tracked c) :
    ∃ r' ∈ (refAndMakeResourceMRU c r).fNonpurgeableResources,
      r'.rid = r.rid ∧ r'.refCnt = r.refCnt + 1 ∧ isPurgeable r' = false ∧
        (refAndMakeResourceMRU c r).fTimestamp = (r'.timestamp + 1) % 4294967296 := by
  rcases hpr : isPurgeable r with _ | _
  · have hmemNP : r ∈ c.fNonpurgeableResources := by
      rcases List.mem_append.mp hmem with h | h
      · exact h
      · rw [hQflags r h] at hpr; cases hpr
    have hred : refAndMakeResourceMRU c r =
        setRes (getNextTimestamp (setRes c r.rid
          (fun x => { x with refCnt := x.refCnt + 1 }))).2 r.rid
          (fun x => { x with timestamp := (getNextTimestamp (setRes c r.rid
            (fun x => { x with refCnt := x.refCnt + 1 }))).1 }) := by
      unfold refAndMakeResourceMRU
      rw [hpr]
      simp only [Bool.false_eq_true, if_false]
    rw [hred]
    exact promote_core c r ⟨r, hmemNP, rfl⟩
  · have hred : refAndMakeResourceMRU c r =
        setRes (getNextTimestamp (setRes
          (addToNonpurgeableArray
            { c with fPurgeableQueue := pqRemoveId r.rid c.fPurgeableQueue } r) r.rid
          (fun x => { x with refCnt := x.refCnt + 1 }))).2 r.rid
          (fun x => { x with timestamp := (getNextTimestamp (setRes
            (addToNonpurgeableArray
              { c with fPurgeableQueue := pqRemoveId r.rid c.fPurgeableQueue } r) r.rid
            (fun x => { x with refCnt := x.refCnt + 1 }))).1 }) := by
      unfold refAndMakeResourceMRU
      rw [hpr]
      simp only [if_true]
    rw [hred]
    refine promote_core _ r ⟨{ r with cacheIndex :=
      (({ c with fPurgeableQueue := pqRemoveId r.rid c.fPurgeableQueue } :
        GrResourceCache).fNonpurgeableResources.length : Int) }, ?_, rfl⟩
    unfold addToNonpurgeableArray
    exact List.mem_append_right _ (List.mem_cons_self _ _)

theorem availableForScratchUse_refCnt (b : Bool) (x : GrGpuResource)
    (h : AvailableForScratchUse b x = true) : x.refCnt = 0 := by
  unfold AvailableForScratchUse at h
  split at h
  · exact absurd h (by simp)
  · rename_i hc
    rcases hr : x.refCnt with _ | n
    · rfl
    · exfalso
      exact hc (by simp [hr])

theorem availableForScratchUse_noPendingIO (x : GrGpuResource)
    (h : AvailableForScratchUse true x = true) : x.pendingIO = false := by
  unfold AvailableForScratchUse at h
  split at h
  · exact absurd h (by simp)
  · simpa using h

set_option maxHeartbeats 1000000 in
/-- C2: with either flag set, `findAndRefScratchResource` first
searches with the predicate that rejects outstanding references and
pending I/O, promoting and returning a hit; if `REQUIRE_NO_PENDING_IO`
was set and that search missed, the call returns an absent value with
the cache untouched and no further search happens; otherwise it
searches again with the predicate that rejects only outstanding
references.  Any hit is promoted (made nonpurgeable, one reference
added, fresh timestamp).  Across the cache operations, only the
scratch lookup can return an absent value. -/
theorem findAndRefScratchResource_spec (c : GrResourceCache) (key : Nat)
    (preferNoPending requireNoPending : Bool) (hWF : WF c) :
    ((preferNoPending || requireNoPending) = true →
      (∀ r, findInScratchMap c key (AvailableForScratchUse true) = some r →
        findAndRefScratchResource c key preferNoPending requireNoPending =
          (refAndMakeResourceMRU c r, some r)) ∧
      (findInScratchMap c key (AvailableForScratchUse true) = none →
        (requireNoPending = true →
          findAndRefScratchResource c key preferNoPending requireNoPending =
            (c, none)) ∧
        (requireNoPending = false →
          findAndRefScratchResource c key preferNoPending requireNoPending =
            (match findInScratchMap c key (AvailableForScratchUse false) with
             | some r => (refAndMakeResourceMRU c r, some r)
             | none => (c, none))))) ∧
    ((preferNoPending || requireNoPending) = false →
      findAndRefScratchResource c key preferNoPending requireNoPending =
        (match findInScratchMap c key (AvailableForScratchUse false) with
         | some r => (refAndMakeResourceMRU c r, some r)
         | none => (c, none))) ∧
    (∀ b x, AvailableForScratchUse b x = true → x.refCnt = 0) ∧
    (∀ x, AvailableForScratchUse true x = true → x.pendingIO = false) ∧
    (∀ c' r, findAndRefScratchResource c key preferNoPending requireNoPending =
        (c', some r) →
      ∃ r' ∈ c'.fNonpurgeableResources, r'.rid = r.rid ∧ r'.refCnt = r.refCnt + 1 ∧
        isPurgeable r' = false ∧ c'.fTimestamp = (r'.timestamp + 1) % 4294967296) ∧
    (∀ op c0, (runOpR op c0).2 = CacheRet.absent →
      ∃ k p0 q0, op = CacheOp.findScratch k p0 q0) := by
  obtain ⟨-, -, hQflags, -, -⟩ := hWF
  refine ⟨?_, ?_, availableForScratchUse_refCnt, availableForScratchUse_noPendingIO,
    ?_, ?_⟩
  · intro hpq
    constructor
    · intro r hr
      unfold findAndRefScratchResource
      rw [hpq, if_pos rfl, hr]
    · intro hnone
      constructor
      · intro hq
        unfold findAndRefScratchResource
        rw [hpq, if_pos rfl, hnone, hq, if_pos rfl]
      · intro hq
        unfold findAndRefScratchResource
        rw [hpq, if_pos rfl, hnone, hq]
        simp only [Bool.false_eq_true, if_false]
  · intro hpq
    unfold findAndRefScratchResource
    rw [hpq]
    simp only [Bool.false_eq_true, if_false]
  · intro c' r h
    have hfound : findInScratchMap c key (AvailableForScratchUse true) = some r ∨
        findInScratchMap c key (AvailableForScratchUse false) = some r := by
      unfold findAndRefScratchResource at h
      split at h
      · split at h
        · rename_i r0 hf
          obtain ⟨-, h2⟩ := Prod.mk.injEq .. ▸ h
          cases h2
          exact Or.inl hf
        · split at h
          · exact absurd (congrArg Prod.snd h) (by simp)
          · split at h
            · rename_i r0 hf
              obtain ⟨-, h2⟩ := Prod.mk.injEq .. ▸ h
              cases h2
              exact Or.inr hf
            · exact absurd (congrArg Prod.snd h) (by simp)
      · split at h
        · rename_i r0 hf
          obtain ⟨-, h2⟩ := Prod.mk.injEq .. ▸ h
          cases h2
          exact Or.inr hf
        · exact absurd (congrArg Prod.snd h) (by simp)
    have hc' : c' = refAndMakeResourceMRU c r := by
      unfold findAndRefScratchResource at h
      split at h
      · split at h
        · rename_i r0 hf
          obtain ⟨h1, h2⟩ := Prod.mk.injEq .. ▸ h
          cases h2
          exact h1.symm
        · split at h
          · exact absurd (congrArg Prod.snd h) (by simp)
          · split at h
            · rename_i r0 hf
              obtain ⟨h1, h2⟩ := Prod.mk.injEq .. ▸ h
              cases h2
              exact h1.symm
            · exact absurd (congrArg Prod.snd h) (by simp)
      · split at h
        · rename_i r0 hf
          obtain ⟨h1, h2⟩ := Prod.mk.injEq .. ▸ h
          cases h2
          exact h1.symm
        · exact absurd (congrArg Prod.snd h) (by simp)
    have hmem : r ∈ tracked c := by
      rcases hfound with hf | hf
      · exact findInScratchMap_tracked c key _ r hf
      · exact findInScratchMap_tracked c key _ r hf
    rw [hc']
    exact refAndMakeResourceMRU_promotes c r hQflags hmem
  · intro op c0 h
    cases op <;> simp only [runOpR] at h <;> first
      | cases h
      | exact ⟨_, _, _, rfl⟩

theorem findAndRefScratchResource_spec_witness :
    WF sampleScratchCache ∧
      findAndRefScratchResource sampleScratchCache 5 false false =
        (match findInScratchMap sampleScratchCache 5 (AvailableForScratchUse false) with
         | some r => (refAndMakeResourceMRU sampleScratchCache r, some r)
         | none => (sampleScratchCache, none)) :=
  ⟨by decide,
   (findAndRefScratchResource_spec sampleScratchCache 5 false false (by decide)).2.1 rfl⟩
theorem set_get_self {α : Type} :
    ∀ (l : List α) (i : Nat) (h : i < l.length), l.set i (l.get ⟨i, h⟩) = l
  | [], i, h => by simp at h
  | a :: t, 0, _ => rfl
  | a :: t, i + 1, h => by
    have ih := set_get_self t i (by simpa using h)
    simpa using ih

theorem idxFrom_dropLast : ∀ (i : Nat) (l : List GrGpuResource),
    idxFrom i l = true → idxFrom i l.dropLast = true
  | _, [], _ => rfl
  | _, [r], _ => rfl
  | i, r :: s :: t, h => by
    rw [idxFrom, Bool.and_eq_true] at h
    have ih := idxFrom_dropLast (i + 1) (s :: t) h.2
    show idxFrom i (r :: (s :: t).dropLast) = true
    rw [idxFrom, Bool.and_eq_true]
    exact ⟨h.1, ih⟩

theorem idxFrom_setIdxFrom : ∀ (i : Nat) (l : List GrGpuResource),
    idxFrom i (setIdxFrom i l) = true
  | _, [] => rfl
  | i, r :: t => by
    rw [setIdxFrom, idxFrom, Bool.and_eq_true]
    exact ⟨by simp, idxFrom_setIdxFrom (i + 1) t⟩

theorem getLast_idx (l : List GrGpuResource) (hne : l ≠ [])
    (hidx : idxFrom 0 l = true) :
    (l.getLast hne).cacheIndex = ((l.length - 1 : Nat) : Int) := by
  have hget : l.get? (l.length - 1) = some (l.getLast hne) := by
    rw [List.getLast_eq_get l hne, List.get?_eq_get]
  have := idxFrom_get? 0 l (l.length - 1) (l.getLast hne) hidx hget
  simpa using this

theorem np_back_eq (c : GrResourceCache) (hne : c.fNonpurgeableResources ≠ [])
    (hidx : idxFrom 0 c.fNonpurgeableResources = true) :
    (removeFromNonpurgeableArray c
      (c.fNonpurgeableResources.getLast hne)).fNonpurgeableResources =
      c.fNonpurgeableResources.dropLast := by
  have h0 : (removeFromNonpurgeableArray c
      (c.fNonpurgeableResources.getLast hne)).fNonpurgeableResources =
      ((c.fNonpurgeableResources.set
        (c.fNonpurgeableResources.getLast hne).cacheIndex.toNat
        { c.fNonpurgeableResources.getLast hne with
          cacheIndex := (c.fNonpurgeableResources.getLast hne).cacheIndex }).dropLast) := by
    unfold removeFromNonpurgeableArray
    rw [List.getLast?_eq_getLast _ hne]
  rw [h0]
  have heta : ({ c.fNonpurgeableResources.getLast hne with
      cacheIndex := (c.fNonpurgeableResources.getLast hne).cacheIndex } : GrGpuResource) =
      c.fNonpurgeableResources.getLast hne := rfl
  rw [heta]
  have hj : (c.fNonpurgeableResources.getLast hne).cacheIndex.toNat =
      c.fNonpurgeableResources.length - 1 := by
    rw [getLast_idx _ hne hidx]
    simp
  rw [hj]
  have hlt : c.fNonpurgeableResources.length - 1 < c.fNonpurgeableResources.length := by
    have := List.length_pos.mpr hne
    omega
  have hgl : c.fNonpurgeableResources.getLast hne =
      c.fNonpurgeableResources.get ⟨c.fNonpurgeableResources.length - 1, hlt⟩ :=
    List.getLast_eq_get _ hne
  rw [hgl, set_get_self]

theorem removeResource_fBytes (c : GrResourceCache) (e : GrGpuResource) :
    (removeResource c e).fBytes = c.fBytes - e.size := by
  unfold removeResource
  rcases hp : isPurgeable e with _ | _ <;> rcases hb : e.budgeted with _ | _ <;>
    rcases hs : e.scratchKey with _ | k <;> rcases hu : e.uniqueKey with _ | k' <;>
      simp [hp, hb, hs, hu, (removeFromNP_eq_parts2 c e).2.2.1]

theorem removeResource_fBudgetedCount (c : GrResourceCache) (e : GrGpuResource) :
    (removeResource c e).fBudgetedCount =
      (if e.budgeted then c.fBudgetedCount - 1 else c.fBudgetedCount) := by
  unfold removeResource
  rcases hp : isPurgeable e with _ | _ <;> rcases hb : e.budgeted with _ | _ <;>
    rcases hs : e.scratchKey with _ | k <;> rcases hu : e.uniqueKey with _ | k' <;>
      simp [hp, hb, hs, hu, (removeFromNP_eq_parts c e).2.1]

theorem removeResource_fBudgetedBytes (c : GrResourceCache) (e : GrGpuResource) :
    (removeResource c e).fBudgetedBytes =
      (if e.budgeted then c.fBudgetedBytes - e.size else c.fBudgetedBytes) := by
  unfold removeResource
  rcases hp : isPurgeable e with _ | _ <;> rcases hb : e.budgeted with _ | _ <;>
    rcases hs : e.scratchKey with _ | k <;> rcases hu : e.uniqueKey with _ | k' <;>
      simp [hp, hb, hs, hu, (removeFromNP_eq_parts c e).2.2.1]

theorem removeResource_fScratchMap (c : GrResourceCache) (e : GrGpuResource) :
    (removeResource c e).fScratchMap =
      (match e.scratchKey with
       | some k => c.fScratchMap.erase (k, e.rid)
       | none => c.fScratchMap) := by
  unfold removeResource
  rcases hp : isPurgeable e with _ | _ <;> rcases hb : e.budgeted with _ | _ <;>
    rcases hs : e.scratchKey with _ | k <;> rcases hu : e.uniqueKey with _ | k' <;>
      simp [hp, hb, hs, hu, (removeFromNP_eq_parts2 c e).1]

theorem removeResource_fUniqueHash (c : GrResourceCache) (e : GrGpuResource) :
    (removeResource c e).fUniqueHash =
      (match e.uniqueKey with
       | some k => c.fUniqueHash.filter (fun p => p.1 != k)
       | none => c.fUniqueHash) := by
  unfold removeResource
  rcases hp : isPurgeable e with _ | _ <;> rcases hb : e.budgeted with _ | _ <;>
    rcases hs : e.scratchKey with _ | k <;> rcases hu : e.uniqueKey with _ | k' <;>
      simp [hp, hb, hs, hu, (removeFromNP_eq_parts2 c e).2.1]
theorem beq_prod (a b : Nat × Nat) : (a == b) = decide (a = b) := by
  rcases hd : decide (a = b) with _ | _
  · simp only [decide_eq_false_iff_not] at hd
    exact beq_eq_false_iff_ne.mpr hd
  · simp only [decide_eq_true_eq] at hd
    subst hd
    exact beq_self_eq_true a

theorem erase_inst_eq (l : List (Nat × Nat)) (x : Nat × Nat) :
    l.erase x = @List.erase _ instBEqOfDecidableEq l x := by
  induction l with
  | nil => rfl
  | cons a t ih =>
    rw [List.erase_cons]
    rw [@List.erase_cons _ instBEqOfDecidableEq]
    rw [ih, beq_prod a x]
    rfl

theorem map_via_resData {β : Type} (f : GrGpuResource → β)
    (g : (Nat × Nat × Bool × Bool × Option Nat × Option Nat × Nat × Bool) → β)
    (hfg : ∀ r, g (resData r) = f r) (l : List GrGpuResource) :
    (l.map resData).map g = l.map f := by
  rw [List.map_map]
  exact List.map_congr_left (fun a _ => hfg a)

theorem scratchEntries_eq (l : List GrGpuResource) :
    scratchEntries l = (l.map resData).filterMap scratchEntryD := by
  unfold scratchEntries
  rw [List.filterMap_map]
  rfl

theorem uniqueEntries_eq (l : List GrGpuResource) :
    uniqueEntries l = (l.map resData).filterMap uniqueEntryD := by
  unfold uniqueEntries
  rw [List.filterMap_map]
  rfl

theorem sum_filter_budgeted (l : List GrGpuResource) :
    ((l.filter (fun r => r.budgeted)).map (fun r => r.size)).sum =
      (l.map (fun r => if r.budgeted then r.size else 0)).sum := by
  induction l with
  | nil => rfl
  | cons a t ih =>
    rcases hb : a.budgeted with _ | _
    · rw [List.filter_cons_of_neg (by simp [hb])]
      simp [hb, ih]
    · rw [List.filter_cons_of_pos (by simp [hb])]
      simp [hb, ih]

set_option maxHeartbeats 1000000 in
theorem accounting_step (c : GrResourceCache) (e : GrGpuResource)
    (hAcc : Accounting c)
    (hpart : List.Perm (resData e :: ((tracked (removeResource c e)).map resData))
      ((tracked c).map resData)) :
    Accounting (removeResource c e) := by
  obtain ⟨hB, hC, hBB, hS, hU, hK⟩ := hAcc
  have hsz : e.size + ((tracked (removeResource c e)).map (fun r => r.size)).sum =
      ((tracked c).map (fun r => r.size)).sum := by
    have h0 := (hpart.map (fun d : Nat × Nat × Bool × Bool ×
      Option Nat × Option Nat × Nat × Bool => d.2.1)).sum_eq
    rw [List.map_cons, map_via_resData _ _ (fun r => rfl),
      map_via_resData _ _ (fun r => rfl)] at h0
    simpa using h0
  have hcnt : (if e.budgeted then 1 else 0) +
      (tracked (removeResource c e)).countP (fun r => r.budgeted) =
      (tracked c).countP (fun r => r.budgeted) := by
    have h0 := hpart.countP_eq (fun d : Nat × Nat × Bool × Bool ×
      Option Nat × Option Nat × Nat × Bool => d.2.2.1)
    rw [List.countP_cons, List.countP_map, List.countP_map] at h0
    have he : (fun d : Nat × Nat × Bool × Bool ×
        Option Nat × Option Nat × Nat × Bool => d.2.2.1) ∘ resData =
        (fun r : GrGpuResource => r.budgeted) := rfl
    have hre : (resData e).2.2.1 = e.budgeted := rfl
    rw [he, hre] at h0
    rcases hb : e.budgeted with _ | _ <;> simp [hb] at h0 ⊢ <;> omega
  have hbsz : (if e.budgeted then e.size else 0) +
      ((tracked (removeResource c e)).map
        (fun r => if r.budgeted then r.size else 0)).sum =
      ((tracked c).map (fun r => if r.budgeted then r.size else 0)).sum := by
    have h0 := (hpart.map (fun d : Nat × Nat × Bool × Bool ×
      Option Nat × Option Nat × Nat × Bool => if d.2.2.1 then d.2.1 else 0)).sum_eq
    rw [List.map_cons, map_via_resData _ _ (fun r => rfl),
      map_via_resData _ _ (fun r => rfl)] at h0
    have hre : ((if (resData e).2.2.1 then (resData e).2.1 else 0) : Nat) =
        (if e.budgeted then e.size else 0) := rfl
    rw [hre] at h0
    simpa using h0
  have hScr : List.Perm (removeResource c e).fScratchMap
      (scratchEntries (tracked (removeResource c e))) := by
    have hper0 := hpart.filterMap scratchEntryD
    rw [List.filterMap_cons] at hper0
    rw [removeResource_fScratchMap]
    rcases hs : e.scratchKey with _ | k
    · have hE : scratchEntryD (resData e) = none := by
        show (e.scratchKey.map fun k => (k, e.rid)) = none
        rw [hs]
        rfl
      rw [hE] at hper0
      have hper : List.Perm
          (((tracked (removeResource c e)).map resData).filterMap scratchEntryD)
          (((tracked c).map resData).filterMap scratchEntryD) := hper0
      rw [← scratchEntries_eq, ← scratchEntries_eq] at hper
      simp only []
      exact hS.trans hper.symm
    · have hE : scratchEntryD (resData e) = some (k, e.rid) := by
        show (e.scratchKey.map fun k => (k, e.rid)) = some (k, e.rid)
        rw [hs]
        rfl
      rw [hE] at hper0
      have hper : List.Perm
          ((k, e.rid) ::
            ((tracked (removeResource c e)).map resData).filterMap scratchEntryD)
          (((tracked c).map resData).filterMap scratchEntryD) := hper0
      rw [← scratchEntries_eq, ← scratchEntries_eq] at hper
      simp only []
      have h1 := (hS.trans hper.symm).erase (k, e.rid)
      rw [← erase_inst_eq, ← erase_inst_eq] at h1
      rw [List.erase_cons_head] at h1
      exact h1
  have hUni : List.Perm (removeResource c e).fUniqueHash
      (uniqueEntries (tracked (removeResource c e))) ∧
      ((uniqueEntries (tracked (removeResource c e))).map Prod.fst).Nodup := by
    have hper0 := hpart.filterMap uniqueEntryD
    rw [List.filterMap_cons] at hper0
    rw [removeResource_fUniqueHash]
    rcases hu : e.uniqueKey with _ | k
    · have hE : uniqueEntryD (resData e) = none := by
        show (e.uniqueKey.map fun k => (k, e.rid)) = none
        rw [hu]
        rfl
      rw [hE] at hper0
      have hper : List.Perm
          (((tracked (removeResource c e)).map resData).filterMap uniqueEntryD)
          (((tracked c).map resData).filterMap uniqueEntryD) := hper0
      rw [← uniqueEntries_eq, ← uniqueEntries_eq] at hper
      simp only []
      refine ⟨hU.trans hper.symm, ?_⟩
      exact ((hper.map Prod.fst).nodup_iff).mpr hK
    · have hE : uniqueEntryD (resData e) = some (k, e.rid) := by
        show (e.uniqueKey.map fun k => (k, e.rid)) = some (k, e.rid)
        rw [hu]
        rfl
      rw [hE] at hper0
      have hper : List.Perm
          ((k, e.rid) ::
            ((tracked (removeResource c e)).map resData).filterMap uniqueEntryD)
          (((tracked c).map resData).filterMap uniqueEntryD) := hper0
      rw [← uniqueEntries_eq, ← uniqueEntries_eq] at hper
      simp only []
      have hkeys := hper.map Prod.fst
      rw [List.map_cons] at hkeys
      have hkn : ((k, e.rid).fst ::
          (uniqueEntries (tracked (removeResource c e))).map Prod.fst).Nodup :=
        hkeys.nodup_iff.mpr hK
      rw [List.nodup_cons] at hkn
      obtain ⟨hknotin, hnd'⟩ := hkn
      refine ⟨?_, hnd'⟩
      have h1 := (hU.trans hper.symm).filter (fun p : Nat × Nat => p.1 != k)
      rw [List.filter_cons_of_neg (by simp)] at h1
      have h2 : (uniqueEntries (tracked (removeResource c e))).filter
          (fun p : Nat × Nat => p.1 != k) =
          uniqueEntries (tracked (removeResource c e)) := by
        apply List.filter_eq_self.mpr
        intro p hp
        have hmem : p.1 ∈ (uniqueEntries (tracked (removeResource c e))).map Prod.fst :=
          List.mem_map_of_mem Prod.fst hp
        have : p.1 ≠ k := fun hEq => hknotin (hEq ▸ hmem)
        simpa using this
      rw [h2] at h1
      exact h1
  refine ⟨?_, ?_, ?_, hScr, hUni.1, hUni.2⟩
  · rw [removeResource_fBytes, hB]
    omega
  · rw [removeResource_fBudgetedCount, hC]
    rcases hb : e.budgeted with _ | _ <;> simp [hb] at hcnt ⊢ <;> omega
  · rw [removeResource_fBudgetedBytes, hBB, sum_filter_budgeted, sum_filter_budgeted]
    rcases hb : e.budgeted with _ | _ <;> simp [hb] at hbsz ⊢ <;> omega
theorem removeResource_NP_parts (c : GrResourceCache) (r : GrGpuResource)
    (h : isPurgeable r = false) :
    (removeResource c r).fNonpurgeableResources =
      (removeFromNonpurgeableArray c r).fNonpurgeableResources ∧
    (removeResource c r).fPurgeableQueue = c.fPurgeableQueue := by
  unfold removeResource
  rcases hs : r.scratchKey with _ | k <;> rcases hu : r.uniqueKey with _ | k' <;>
    rcases hb : r.budgeted with _ | _ <;>
      simp [h, hs, hu, hb, (removeFromNP_eq_parts c r).1]

theorem rids_setIdxFrom (i : Nat) (l : List GrGpuResource) :
    (setIdxFrom i l).map (fun r => r.rid) = l.map (fun r => r.rid) := by
  rw [← ridsOf_from_resData, map_resData_setIdxFrom, ridsOf_from_resData]

theorem drainNP_spec : ∀ (fuel : Nat) (c : GrResourceCache),
    WF c → Accounting c → c.fNonpurgeableResources.length = fuel →
    (drainNP fuel c).fNonpurgeableResources = [] ∧
    (drainNP fuel c).fPurgeableQueue = c.fPurgeableQueue ∧
    WF (drainNP fuel c) ∧ Accounting (drainNP fuel c)
  | 0, c, hWF, hAcc, hlen => by
    have hnil : c.fNonpurgeableResources = [] := List.length_eq_zero.mp hlen
    exact ⟨hnil, rfl, hWF, hAcc⟩
  | fuel + 1, c, hWF, hAcc, hlen => by
    have hne : c.fNonpurgeableResources ≠ [] := by
      intro h
      rw [h] at hlen
      simp at hlen
    have hstep0 : drainNP (fuel + 1) c =
        (match c.fNonpurgeableResources.getLast? with
         | none => c
         | some back => drainNP fuel (removeResource c back)) := rfl
    rw [List.getLast?_eq_getLast _ hne] at hstep0
    have hstep : drainNP (fuel + 1) c =
        drainNP fuel (removeResource c (c.fNonpurgeableResources.getLast hne)) := hstep0
    obtain ⟨hIx, hIq, hQp, hNn, hNd⟩ := hWF
    have hbmem : c.fNonpurgeableResources.getLast hne ∈ c.fNonpurgeableResources :=
      List.getLast_mem hne
    have hbp : isPurgeable (c.fNonpurgeableResources.getLast hne) = false :=
      hNn _ hbmem
    have hNP1 : (removeResource c
        (c.fNonpurgeableResources.getLast hne)).fNonpurgeableResources =
        c.fNonpurgeableResources.dropLast :=
      ((removeResource_NP_parts c _ hbp).1).trans (np_back_eq c hne hIx)
    have hQ1 : (removeResource c
        (c.fNonpurgeableResources.getLast hne)).fPurgeableQueue =
        c.fPurgeableQueue :=
      (removeResource_NP_parts c _ hbp).2
    have hWF1 : WF (removeResource c (c.fNonpurgeableResources.getLast hne)) := by
      refine ⟨?_, ?_, ?_, ?_, ?_⟩
      · rw [hNP1]
        exact idxFrom_dropLast 0 _ hIx
      · rw [hQ1]
        exact hIq
      · rw [hQ1]
        exact hQp
      · rw [hNP1]
        intro r hr
        exact hNn r ((List.dropLast_sublist _).subset hr)
      · unfold trackedRids tracked
        rw [hNP1, hQ1]
        unfold trackedRids tracked at hNd
        refine hNd.sublist ?_
        exact (((List.dropLast_sublist _).append_right _).map _)
    have hpart : List.Perm
        (resData (c.fNonpurgeableResources.getLast hne) ::
          ((tracked (removeResource c
            (c.fNonpurgeableResources.getLast hne))).map resData))
        ((tracked c).map resData) := by
      unfold tracked
      rw [hNP1, hQ1]
      conv_rhs => rw [← List.dropLast_append_getLast hne]
      simp only [List.map_append, List.append_assoc, List.map_cons, List.map_nil,
        List.singleton_append]
      exact List.perm_middle.symm
    have hAcc1 : Accounting (removeResource c
        (c.fNonpurgeableResources.getLast hne)) :=
      accounting_step c _ hAcc hpart
    have hlen1 : (removeResource c
        (c.fNonpurgeableResources.getLast hne)).fNonpurgeableResources.length = fuel := by
      rw [hNP1, List.length_dropLast]
      omega
    obtain ⟨h1, h2, h3, h4⟩ := drainNP_spec fuel _ hWF1 hAcc1 hlen1
    rw [hstep]
    exact ⟨h1, h2.trans hQ1, h3, h4⟩

theorem drainQ_spec : ∀ (fuel : Nat) (c : GrResourceCache),
    WF c → Accounting c → c.fPurgeableQueue.length = fuel →
    (drainQ fuel c).fPurgeableQueue = [] ∧
    (drainQ fuel c).fNonpurgeableResources = c.fNonpurgeableResources ∧
    WF (drainQ fuel c) ∧ Accounting (drainQ fuel c)
  | 0, c, hWF, hAcc, hlen => by
    have hnil : c.fPurgeableQueue = [] := List.length_eq_zero.mp hlen
    exact ⟨hnil, rfl, hWF, hAcc⟩
  | fuel + 1, c, hWF, hAcc, hlen => by
    rcases hq : c.fPurgeableQueue with _ | ⟨r, t⟩
    · rw [hq] at hlen
      simp at hlen
    have hstep0 : drainQ (fuel + 1) c =
        (match c.fPurgeableQueue.head? with
         | none => c
         | some r => drainQ fuel (removeResource c r)) := rfl
    rw [hq] at hstep0
    have hstep : drainQ (fuel + 1) c = drainQ fuel (removeResource c r) := hstep0
    obtain ⟨hIx, hIq, hQp, hNn, hNd⟩ := hWF
    have hrp : isPurgeable r = true := by
      refine hQp r ?_
      rw [hq]
      exact List.mem_cons_self r t
    have hQ1 : (removeResource c r).fPurgeableQueue = setIdxFrom 0 t :=
      removeResource_head_queue c r t hq hrp
    have hNP1 : (removeResource c r).fNonpurgeableResources =
        c.fNonpurgeableResources :=
      removeResource_fNonpurgeable_of_purgeable c r hrp
    have hWF1 : WF (removeResource c r) := by
      refine ⟨?_, ?_, ?_, ?_, ?_⟩
      · rw [hNP1]
        exact hIx
      · rw [hQ1]
        exact idxFrom_setIdxFrom 0 t
      · rw [hQ1]
        intro x hx
        refine isPurgeable_of_mem_setIdxFrom hx ?_
        intro y hy
        refine hQp y ?_
        rw [hq]
        exact List.mem_cons_of_mem r hy
      · rw [hNP1]
        exact hNn
      · unfold trackedRids tracked
        rw [hNP1, hQ1, List.map_append, rids_setIdxFrom]
        unfold trackedRids tracked at hNd
        rw [hq, List.map_append, List.map_cons] at hNd
        refine hNd.sublist ?_
        exact (List.sublist_cons_self _ _).append_left _
    have hpart : List.Perm
        (resData r :: ((tracked (removeResource c r)).map resData))
        ((tracked c).map resData) := by
      unfold tracked
      rw [hNP1, hQ1, hq, List.map_append, map_resData_setIdxFrom,
        List.map_append, List.map_cons]
      exact List.perm_middle.symm
    have hAcc1 : Accounting (removeResource c r) := accounting_step c r hAcc hpart
    have hlen1 : (removeResource c r).fPurgeableQueue.length = fuel := by
      rw [hQ1, setIdxFrom_length]
      rw [hq] at hlen
      simpa using hlen
    obtain ⟨h1, h2, h3, h4⟩ := drainQ_spec fuel _ hWF1 hAcc1 hlen1
    rw [hstep]
    exact ⟨h1, h2.trans hNP1, h3, h4⟩

/-- C8: after `releaseAll` — which walks the nonpurgeable array from the
back and then the purgeable queue from the top, releasing every tracked
resource — the cache holds no resources: both partitions, the scratch
map and the unique hash are empty, and the resource count, byte total,
budgeted count and budgeted bytes are all zero; `abandonAll` performs
the identical walk and produces the identical final state. -/
theorem releaseAll_abandonAll_empty (c : GrResourceCache)
    (hWF : WF c) (hAcc : Accounting c) :
    (releaseAll c).fNonpurgeableResources = [] ∧
    (releaseAll c).fPurgeableQueue = [] ∧
    (releaseAll c).fScratchMap = [] ∧
    (releaseAll c).fUniqueHash = [] ∧
    getResourceCount (releaseAll c) = 0 ∧
    (releaseAll c).fBytes = 0 ∧
    (releaseAll c).fBudgetedCount = 0 ∧
    (releaseAll c).fBudgetedBytes = 0 ∧
    abandonAll c = releaseAll c := by
  obtain ⟨hNP1, hQ1, hWF1, hAcc1⟩ :=
    drainNP_spec c.fNonpurgeableResources.length c hWF hAcc rfl
  obtain ⟨hQ2, hNP2, hWF2, hAcc2⟩ :=
    drainQ_spec (drainNP c.fNonpurgeableResources.length c).fPurgeableQueue.length
      (drainNP c.fNonpurgeableResources.length c) hWF1 hAcc1 rfl
  have hrel : releaseAll c =
      drainQ (drainNP c.fNonpurgeableResources.length c).fPurgeableQueue.length
        (drainNP c.fNonpurgeableResources.length c) := rfl
  have hNPfin : (releaseAll c).fNonpurgeableResources = [] := by
    rw [hrel]
    exact hNP2.trans hNP1
  have hQfin : (releaseAll c).fPurgeableQueue = [] := by
    rw [hrel]
    exact hQ2
  have htr : tracked (releaseAll c) = [] := by
    unfold tracked
    rw [hNPfin, hQfin]
    rfl
  have hAccfin : Accounting (releaseAll c) := by
    rw [hrel]
    exact hAcc2
  obtain ⟨hB, hC, hBB, hS, hU, hK⟩ := hAccfin
  rw [htr] at hB hC hBB hS hU
  refine ⟨hNPfin, hQfin, ?_, ?_, ?_, ?_, ?_, ?_, rfl⟩
  · exact hS.eq_nil
  · exact hU.eq_nil
  · unfold getResourceCount
    rw [hNPfin, hQfin]
    rfl
  · simpa using hB
  · simpa using hC
  · simpa using hBB
theorem releaseAll_abandonAll_empty_witness :
    WF c8Cache ∧ Accounting c8Cache ∧
      ((releaseAll c8Cache).fNonpurgeableResources = [] ∧
       (releaseAll c8Cache).fPurgeableQueue = [] ∧
       (releaseAll c8Cache).fScratchMap = [] ∧
       (releaseAll c8Cache).fUniqueHash = [] ∧
       getResourceCount (releaseAll c8Cache) = 0 ∧
       (releaseAll c8Cache).fBytes = 0 ∧
       (releaseAll c8Cache).fBudgetedCount = 0 ∧
       (releaseAll c8Cache).fBudgetedBytes = 0 ∧
       abandonAll c8Cache = releaseAll c8Cache) :=
  ⟨by decide, by decide,
    releaseAll_abandonAll_empty c8Cache (by decide) (by decide)⟩
theorem idxFrom_set : ∀ (l : List GrGpuResource) (i j : Nat) (e : GrGpuResource),
    idxFrom i l = true → e.cacheIndex = ((i + j : Nat) : Int) →
    idxFrom i (l.set j e) = true
  | [], _, _, _, _, _ => rfl
  | a :: t, i, 0, e, h, he => by
    rw [idxFrom, Bool.and_eq_true] at h
    show idxFrom i (e :: t) = true
    rw [idxFrom, Bool.and_eq_true]
    refine ⟨?_, h.2⟩
    rw [he]
    simp
  | a :: t, i, j + 1, e, h, he => by
    rw [idxFrom, Bool.and_eq_true] at h
    have ih := idxFrom_set t (i + 1) j e h.2
      (by rw [he, show i + (j + 1) = (i + 1) + j from by omega])
    show idxFrom i (a :: t.set j e) = true
    rw [idxFrom, Bool.and_eq_true]
    exact ⟨h.1, ih⟩

theorem idxFrom_append_one : ∀ (l : List GrGpuResource) (i : Nat) (x : GrGpuResource),
    idxFrom i l = true → x.cacheIndex = ((i + l.length : Nat) : Int) →
    idxFrom i (l ++ [x]) = true
  | [], i, x, _, hx => by
    show idxFrom i [x] = true
    rw [idxFrom, Bool.and_eq_true]
    refine ⟨?_, rfl⟩
    rw [hx]
    simp
  | a :: t, i, x, h, hx => by
    rw [idxFrom, Bool.and_eq_true] at h
    have ih := idxFrom_append_one t (i + 1) x h.2
      (by rw [hx, show i + (a :: t).length = (i + 1) + t.length from by simp; omega])
    show idxFrom i (a :: (t ++ [x])) = true
    rw [idxFrom, Bool.and_eq_true]
    exact ⟨h.1, ih⟩

theorem idxFrom_map_idx (g : GrGpuResource → GrGpuResource)
    (hg : ∀ r, (g r).cacheIndex = r.cacheIndex) :
    ∀ (i : Nat) (l : List GrGpuResource),
      idxFrom i l = true → idxFrom i (l.map g) = true
  | _, [], _ => rfl
  | i, a :: t, h => by
    rw [idxFrom, Bool.and_eq_true] at h
    have ih := idxFrom_map_idx g hg (i + 1) t h.2
    show idxFrom i (g a :: t.map g) = true
    rw [idxFrom, Bool.and_eq_true, hg a]
    exact ⟨h.1, ih⟩

theorem nodup_rid_unique {l : List GrGpuResource}
    (hnd : (l.map (fun r => r.rid)).Nodup) {x y : GrGpuResource}
    (hx : x ∈ l) (hy : y ∈ l) (hxy : x.rid = y.rid) : x = y := by
  induction l with
  | nil => cases hx
  | cons a t ih =>
    rw [List.map_cons, List.nodup_cons] at hnd
    rcases List.mem_cons.mp hx with hx1 | hx1 <;>
      rcases List.mem_cons.mp hy with hy1 | hy1
    · rw [hx1, hy1]
    · exfalso
      subst hx1
      exact hnd.1 (hxy ▸ List.mem_map_of_mem (fun r => r.rid) hy1)
    · exfalso
      subst hy1
      exact hnd.1 (hxy ▸ List.mem_map_of_mem (fun r => r.rid) hx1)
    · exact ih hnd.2 hx1 hy1

theorem map_upd_id : ∀ (l : List GrGpuResource) (i : Nat)
    (f : GrGpuResource → GrGpuResource), (∀ x ∈ l, x.rid ≠ i) →
    l.map (fun x => if x.rid = i then f x else x) = l
  | [], _, _, _ => rfl
  | a :: t, i, f, h => by
    rw [List.map_cons, if_neg (h a (List.mem_cons_self a t)),
      map_upd_id t i f (fun x hx => h x (List.mem_cons_of_mem a hx))]

theorem wf_of_data_perm (c c' : GrResourceCache)
    (hNP : List.Perm (c'.fNonpurgeableResources.map resData)
      (c.fNonpurgeableResources.map resData))
    (hQ : List.Perm (c'.fPurgeableQueue.map resData)
      (c.fPurgeableQueue.map resData))
    (hWF : WF c)
    (hIx : idxFrom 0 c'.fNonpurgeableResources = true)
    (hIq : idxFrom 0 c'.fPurgeableQueue = true) : WF c' := by
  obtain ⟨-, -, hQp, hNn, hNd⟩ := hWF
  refine ⟨hIx, hIq, ?_, ?_, ?_⟩
  · intro r hr
    have h1 : resData r ∈ c.fPurgeableQueue.map resData :=
      hQ.subset (List.mem_map_of_mem resData hr)
    obtain ⟨y, hy, he⟩ := List.mem_map.mp h1
    rw [resData_isPurgeable r y he.symm]
    exact hQp y hy
  · intro r hr
    have h1 : resData r ∈ c.fNonpurgeableResources.map resData :=
      hNP.subset (List.mem_map_of_mem resData hr)
    obtain ⟨y, hy, he⟩ := List.mem_map.mp h1
    rw [resData_isPurgeable r y he.symm]
    exact hNn y hy
  · unfold trackedRids tracked at hNd ⊢
    rw [List.map_append] at hNd ⊢
    have h1 := hNP.map (fun d : Nat × Nat × Bool × Bool ×
      Option Nat × Option Nat × Nat × Bool => d.1)
    rw [ridsOf_from_resData, ridsOf_from_resData] at h1
    have h2 := hQ.map (fun d : Nat × Nat × Bool × Bool ×
      Option Nat × Option Nat × Nat × Bool => d.1)
    rw [ridsOf_from_resData, ridsOf_from_resData] at h2
    exact ((h1.append h2).nodup_iff).mpr hNd

theorem mergeAssign_npsIdx : ∀ (ps nps : List GrGpuResource) (ts i : Nat),
    idxFrom i (mergeAssign ps nps ts i).nps = true
  | [], [], ts, i => by rw [mergeAssign]; rfl
  | [], np :: nps, ts, i => by
    have ih := mergeAssign_npsIdx [] nps ((ts + 1) % 4294967296) (i + 1)
    rw [mergeAssign]
    show idxFrom i ({ np with timestamp := ts, cacheIndex := (i : Int) } ::
      (mergeAssign [] nps ((ts + 1) % 4294967296) (i + 1)).nps) = true
    rw [idxFrom, Bool.and_eq_true]
    exact ⟨by simp, ih⟩
  | p :: ps, [], ts, i => by
    have ih := mergeAssign_npsIdx ps [] ((ts + 1) % 4294967296) i
    rw [mergeAssign]
    exact ih
  | p :: ps, np :: nps, ts, i => by
    rw [mergeAssign]
    split
    · exact mergeAssign_npsIdx ps (np :: nps) ((ts + 1) % 4294967296) i
    · have ih := mergeAssign_npsIdx (p :: ps) nps ((ts + 1) % 4294967296) (i + 1)
      show idxFrom i ({ np with timestamp := ts, cacheIndex := (i : Int) } ::
        (mergeAssign (p :: ps) nps ((ts + 1) % 4294967296) (i + 1)).nps) = true
      rw [idxFrom, Bool.and_eq_true]
      exact ⟨by simp, ih⟩
termination_by ps nps _ _ => ps.length + nps.length

theorem pqRebuild_idx : ∀ (l acc : List GrGpuResource),
    idxFrom 0 acc = true →
    idxFrom 0 (l.foldl (fun q r => pqInsert r q) acc) = true
  | [], acc, h => h
  | a :: t, acc, h => by
    have ih := pqRebuild_idx t (pqInsert a acc) (idxFrom_setIdxFrom 0 _)
    exact ih

theorem wrapRecovery_WF (c : GrResourceCache) (hWF : WF c) :
    WF (wrapRecovery c) := by
  refine wf_of_data_perm c (wrapRecovery c) (wrapRecovery_NP_perm c)
    (wrapRecovery_Q_perm c) hWF ?_ ?_
  · show idxFrom 0 (mergeAssign c.fPurgeableQueue (sortTs c.fNonpurgeableResources)
      c.fTimestamp 0).nps = true
    exact mergeAssign_npsIdx _ _ _ _
  · show idxFrom 0 ((mergeAssign c.fPurgeableQueue (sortTs c.fNonpurgeableResources)
      c.fTimestamp 0).ps.foldl (fun q r => pqInsert r q) []) = true
    exact pqRebuild_idx _ [] rfl

theorem getNextTimestamp_WF (c : GrResourceCache) (hWF : WF c) :
    WF (getNextTimestamp c).2 := by
  unfold getNextTimestamp
  split
  · exact wrapRecovery_WF c hWF
  · exact hWF
theorem removeFromNP_idx (c : GrResourceCache) (r : GrGpuResource)
    (hIx : idxFrom 0 c.fNonpurgeableResources = true)
    (hmem : r ∈ c.fNonpurgeableResources) :
    idxFrom 0 (removeFromNonpurgeableArray c r).fNonpurgeableResources = true := by
  have hne : c.fNonpurgeableResources ≠ [] := List.ne_nil_of_mem hmem
  obtain ⟨hlt, hget⟩ := idxFrom_mem_pos c.fNonpurgeableResources r hIx hmem
  have hci := idxFrom_get? 0 c.fNonpurgeableResources r.cacheIndex.toNat r hIx hget
  have h0 : (removeFromNonpurgeableArray c r).fNonpurgeableResources =
      ((c.fNonpurgeableResources.set r.cacheIndex.toNat
        { c.fNonpurgeableResources.getLast hne with
          cacheIndex := r.cacheIndex }).dropLast) := by
    unfold removeFromNonpurgeableArray
    rw [List.getLast?_eq_getLast _ hne]
  rw [h0]
  refine idxFrom_dropLast 0 _ ?_
  exact idxFrom_set _ 0 _ _ hIx hci

theorem removeResource_WF_purgeable (c : GrResourceCache) (r : GrGpuResource)
    (hWF : WF c) (hp : isPurgeable r = true) : WF (removeResource c r) := by
  obtain ⟨hIx, hIq, hQp, hNn, hNd⟩ := hWF
  have hQ1 := removeResource_fPurgeableQueue c r hp
  have hNP1 := removeResource_fNonpurgeable_of_purgeable c r hp
  refine ⟨?_, ?_, ?_, ?_, ?_⟩
  · rw [hNP1]
    exact hIx
  · rw [hQ1]
    exact idxFrom_setIdxFrom 0 _
  · rw [hQ1]
    intro x hx
    refine isPurgeable_of_mem_setIdxFrom hx ?_
    intro y hy
    exact hQp y (List.mem_of_mem_eraseP hy)
  · rw [hNP1]
    exact hNn
  · unfold trackedRids tracked
    rw [hNP1, hQ1, List.map_append, rids_pqRemoveId]
    unfold trackedRids tracked at hNd
    rw [List.map_append] at hNd
    refine hNd.sublist ?_
    exact (List.eraseP_sublist _).append_left _

theorem removeFromNP_rid_perm (c : GrResourceCache) (r : GrGpuResource)
    (hIx : idxFrom 0 c.fNonpurgeableResources = true)
    (hmem : r ∈ c.fNonpurgeableResources) :
    List.Perm
      (r.rid :: (removeFromNonpurgeableArray c r).fNonpurgeableResources.map
        (fun x => x.rid))
      (c.fNonpurgeableResources.map (fun x => x.rid)) := by
  have h1 := (removeFromNP_map_perm c r hIx hmem).map
    (fun d : Nat × Nat × Bool × Bool × Option Nat × Option Nat × Nat × Bool => d.1)
  rw [List.map_cons, ridsOf_from_resData, ridsOf_from_resData] at h1
  exact h1

theorem removeResource_WF_nonpurgeable (c : GrResourceCache) (r : GrGpuResource)
    (hWF : WF c) (hp : isPurgeable r = false) (hmem : r ∈ tracked c) :
    WF (removeResource c r) := by
  obtain ⟨hIx, hIq, hQp, hNn, hNd⟩ := hWF
  unfold tracked at hmem
  have hmemNP : r ∈ c.fNonpurgeableResources := by
    rcases List.mem_append.mp hmem with h | h
    · exact h
    · rw [hQp r h] at hp
      cases hp
  have hNP1 := (removeResource_NP_parts c r hp).1
  have hQ1 := (removeResource_NP_parts c r hp).2
  have hperm := removeFromNP_map_perm c r hIx hmemNP
  refine ⟨?_, ?_, ?_, ?_, ?_⟩
  · rw [hNP1]
    exact removeFromNP_idx c r hIx hmemNP
  · rw [hQ1]
    exact hIq
  · rw [hQ1]
    exact hQp
  · rw [hNP1]
    intro x hx
    have h1 : resData x ∈ c.fNonpurgeableResources.map resData :=
      hperm.subset (List.mem_cons_of_mem _ (List.mem_map_of_mem resData hx))
    obtain ⟨y, hy, he⟩ := List.mem_map.mp h1
    rw [resData_isPurgeable x y he.symm]
    exact hNn y hy
  · unfold trackedRids tracked
    rw [hNP1, hQ1, List.map_append]
    unfold trackedRids tracked at hNd
    rw [List.map_append] at hNd
    have h2 := (removeFromNP_rid_perm c r hIx hmemNP).append_right
      (c.fPurgeableQueue.map (fun x => x.rid))
    rw [List.cons_append] at h2
    exact (List.nodup_cons.mp (h2.symm.nodup_iff.mp hNd)).2

theorem removeResource_WF (c : GrResourceCache) (r : GrGpuResource)
    (hWF : WF c) (hmem : r ∈ tracked c) : WF (removeResource c r) := by
  rcases hp : isPurgeable r with _ | _
  · exact removeResource_WF_nonpurgeable c r hWF hp hmem
  · exact removeResource_WF_purgeable c r hWF hp
theorem setRes_WF (c : GrResourceCache) (i : Nat) (f : GrGpuResource → GrGpuResource)
    (hrid : ∀ x, (f x).rid = x.rid)
    (hidx : ∀ x, (f x).cacheIndex = x.cacheIndex)
    (hpurg : ∀ x, isPurgeable (f x) = isPurgeable x)
    (hWF : WF c) : WF (setRes c i f) := by
  obtain ⟨hIx, hIq, hQp, hNn, hNd⟩ := hWF
  have hNPf : (setRes c i f).fNonpurgeableResources =
      c.fNonpurgeableResources.map (fun x => if x.rid = i then f x else x) := rfl
  have hQf : (setRes c i f).fPurgeableQueue =
      c.fPurgeableQueue.map (fun x => if x.rid = i then f x else x) := rfl
  have hg_idx : ∀ x, ((fun x => if x.rid = i then f x else x) x).cacheIndex =
      x.cacheIndex := by
    intro x
    by_cases h : x.rid = i <;> simp [h, hidx]
  refine ⟨?_, ?_, ?_, ?_, ?_⟩
  · rw [hNPf]
    exact idxFrom_map_idx _ hg_idx 0 _ hIx
  · rw [hQf]
    exact idxFrom_map_idx _ hg_idx 0 _ hIq
  · rw [hQf]
    intro x hx
    obtain ⟨y, hy, he⟩ := List.mem_map.mp hx
    rw [← he]
    by_cases h : y.rid = i
    · rw [if_pos h, hpurg]
      exact hQp y hy
    · rw [if_neg h]
      exact hQp y hy
  · rw [hNPf]
    intro x hx
    obtain ⟨y, hy, he⟩ := List.mem_map.mp hx
    rw [← he]
    by_cases h : y.rid = i
    · rw [if_pos h, hpurg]
      exact hNn y hy
    · rw [if_neg h]
      exact hNn y hy
  · unfold trackedRids tracked
    rw [hNPf, hQf, List.map_append, map_upd_rid _ _ _ hrid, map_upd_rid _ _ _ hrid]
    unfold trackedRids tracked at hNd
    rw [List.map_append] at hNd
    exact hNd

theorem internalPurgeLoop_WF : ∀ (fuel : Nat) (c : GrResourceCache),
    WF c → WF (internalPurgeLoop fuel c).1
  | 0, _, h => h
  | fuel + 1, c, h => by
    have hstep0 : internalPurgeLoop (fuel + 1) c =
        (match c.fPurgeableQueue.head? with
         | none => (c, [], true)
         | some r =>
           let c' := removeResource c r
           if overBudget c' then
             let t := internalPurgeLoop fuel c'
             (t.1, r :: t.2.1, t.2.2)
           else (c', [r], false)) := rfl
    rcases hq : c.fPurgeableQueue with _ | ⟨r, t⟩
    · rw [hq] at hstep0
      have hstep : internalPurgeLoop (fuel + 1) c = (c, [], true) := hstep0
      rw [hstep]
      exact h
    · rw [hq] at hstep0
      have hrp : isPurgeable r = true := by
        refine h.2.2.1 r ?_
        rw [hq]
        exact List.mem_cons_self r t
      have hWF1 : WF (removeResource c r) := removeResource_WF_purgeable c r h hrp
      have hstep : internalPurgeLoop (fuel + 1) c =
          (if overBudget (removeResource c r) then
            ((internalPurgeLoop fuel (removeResource c r)).1,
             r :: (internalPurgeLoop fuel (removeResource c r)).2.1,
             (internalPurgeLoop fuel (removeResource c r)).2.2)
          else (removeResource c r, [r], false)) := hstep0
      rw [hstep]
      split
      · exact internalPurgeLoop_WF fuel _ hWF1
      · exact hWF1

theorem internalPurgeAsNeeded_WF (c : GrResourceCache) (h : WF c) :
    WF (internalPurgeAsNeeded c).cache := by
  unfold internalPurgeAsNeeded
  dsimp only
  split
  · exact internalPurgeLoop_WF _ c h
  · exact internalPurgeLoop_WF _ c h

theorem purgeAsNeeded_WF (c : GrResourceCache) (h : WF c) :
    WF (purgeAsNeeded c).cache := by
  unfold purgeAsNeeded
  split
  · exact internalPurgeAsNeeded_WF c h
  · exact h

theorem didChangeBudgetStatus_WF (c : GrResourceCache) (r : GrGpuResource)
    (h : WF c) : WF (didChangeBudgetStatus c r) := by
  unfold didChangeBudgetStatus
  split
  · exact purgeAsNeeded_WF _ h
  · exact h
theorem isPurgeable_refCntSucc (x : GrGpuResource) :
    isPurgeable { x with refCnt := x.refCnt + 1 } = false := by
  unfold isPurgeable
  simp

theorem refCnt_setRes_WF (c : GrResourceCache) (r : GrGpuResource)
    (hWF : WF c) (hmem : r ∈ tracked c) (hp : isPurgeable r = false) :
    WF (setRes c r.rid (fun x => { x with refCnt := x.refCnt + 1 })) := by
  obtain ⟨hIx, hIq, hQp, hNn, hNd⟩ := hWF
  have hNPf : (setRes c r.rid (fun x => { x with refCnt := x.refCnt + 1 })).fNonpurgeableResources =
      c.fNonpurgeableResources.map
        (fun x => if x.rid = r.rid then { x with refCnt := x.refCnt + 1 } else x) := rfl
  have hQf : (setRes c r.rid (fun x => { x with refCnt := x.refCnt + 1 })).fPurgeableQueue =
      c.fPurgeableQueue.map
        (fun x => if x.rid = r.rid then { x with refCnt := x.refCnt + 1 } else x) := rfl
  have hg_idx : ∀ x : GrGpuResource,
      ((fun x => if x.rid = r.rid then { x with refCnt := x.refCnt + 1 } else x) x).cacheIndex =
      x.cacheIndex := by
    intro x
    by_cases h : x.rid = r.rid <;> simp [h]
  have hQid : c.fPurgeableQueue.map
      (fun x => if x.rid = r.rid then { x with refCnt := x.refCnt + 1 } else x) =
      c.fPurgeableQueue := by
    refine map_upd_id _ _ _ ?_
    intro x hx hxr
    have hxt : x ∈ tracked c := List.mem_append_right _ hx
    have hxe : x = r := nodup_rid_unique hNd hxt hmem hxr
    rw [hxe] at hx
    rw [hQp r hx] at hp
    cases hp
  refine ⟨?_, ?_, ?_, ?_, ?_⟩
  · rw [hNPf]
    exact idxFrom_map_idx _ hg_idx 0 _ hIx
  · rw [hQf, hQid]
    exact hIq
  · rw [hQf, hQid]
    exact hQp
  · rw [hNPf]
    intro x hx
    obtain ⟨y, hy, he⟩ := List.mem_map.mp hx
    rw [← he]
    by_cases h : y.rid = r.rid
    · rw [if_pos h]
      exact isPurgeable_refCntSucc y
    · rw [if_neg h]
      exact hNn y hy
  · unfold trackedRids tracked
    rw [hNPf, hQf, List.map_append,
      map_upd_rid c.fNonpurgeableResources r.rid
        (fun x => { x with refCnt := x.refCnt + 1 }) (fun x => rfl),
      map_upd_rid c.fPurgeableQueue r.rid
        (fun x => { x with refCnt := x.refCnt + 1 }) (fun x => rfl)]
    unfold trackedRids tracked at hNd
    rw [List.map_append] at hNd
    exact hNd

theorem promote_setRes_WF (c : GrResourceCache) (r : GrGpuResource)
    (hWF : WF c) (hp : isPurgeable r = true) (hmemQ : r ∈ c.fPurgeableQueue) :
    WF (setRes
      (addToNonpurgeableArray
        { c with fPurgeableQueue := pqRemoveId r.rid c.fPurgeableQueue } r)
      r.rid (fun x => { x with refCnt := x.refCnt + 1 })) := by
  obtain ⟨hIx, hIq, hQp, hNn, hNd⟩ := hWF
  have hNPridne : ∀ y ∈ c.fNonpurgeableResources, y.rid ≠ r.rid := by
    intro y hy hyr
    have hye : y = r := nodup_rid_unique hNd (List.mem_append_left _ hy)
      (List.mem_append_right _ hmemQ) hyr
    rw [hye] at hy
    rw [hNn r hy] at hp
    cases hp
  have hcount : (c.fPurgeableQueue.map (fun x => x.rid)).count r.rid ≤ 1 := by
    unfold trackedRids tracked at hNd
    rw [List.map_append] at hNd
    exact List.nodup_iff_count_le_one.mp (List.Nodup.of_append_right hNd) r.rid
  have hQridne : ∀ y ∈ pqRemoveId r.rid c.fPurgeableQueue, y.rid ≠ r.rid := by
    intro y hy hyr
    have h1 : y.rid ∈ (pqRemoveId r.rid c.fPurgeableQueue).map (fun x => x.rid) :=
      List.mem_map_of_mem _ hy
    rw [rids_pqRemoveId] at h1
    rw [hyr] at h1
    exact not_mem_eraseP_of_count_le_one _ _ hcount h1
  have hNPf : (setRes
      (addToNonpurgeableArray
        { c with fPurgeableQueue := pqRemoveId r.rid c.fPurgeableQueue } r)
      r.rid (fun x => { x with refCnt := x.refCnt + 1 })).fNonpurgeableResources =
      (c.fNonpurgeableResources ++
        [({ r with cacheIndex := (c.fNonpurgeableResources.length : Int) } :
          GrGpuResource)]).map
        (fun x => if x.rid = r.rid then { x with refCnt := x.refCnt + 1 } else x) := rfl
  have hQf : (setRes
      (addToNonpurgeableArray
        { c with fPurgeableQueue := pqRemoveId r.rid c.fPurgeableQueue } r)
      r.rid (fun x => { x with refCnt := x.refCnt + 1 })).fPurgeableQueue =
      (pqRemoveId r.rid c.fPurgeableQueue).map
        (fun x => if x.rid = r.rid then { x with refCnt := x.refCnt + 1 } else x) := rfl
  have hQid : (pqRemoveId r.rid c.fPurgeableQueue).map
      (fun x => if x.rid = r.rid then { x with refCnt := x.refCnt + 1 } else x) =
      pqRemoveId r.rid c.fPurgeableQueue := map_upd_id _ _ _ hQridne
  have hNPsplit : (c.fNonpurgeableResources ++
      [({ r with cacheIndex := (c.fNonpurgeableResources.length : Int) } :
        GrGpuResource)]).map
      (fun x => if x.rid = r.rid then { x with refCnt := x.refCnt + 1 } else x) =
      c.fNonpurgeableResources ++
        [{ r with
            cacheIndex := (c.fNonpurgeableResources.length : Int)
            refCnt := r.refCnt + 1 }] := by
    rw [List.map_append, map_upd_id _ _ _ hNPridne]
    rw [List.map_cons, List.map_nil, if_pos rfl]
  refine ⟨?_, ?_, ?_, ?_, ?_⟩
  · rw [hNPf, hNPsplit]
    refine idxFrom_append_one _ 0 _ hIx ?_
    simp
  · rw [hQf, hQid]
    exact idxFrom_setIdxFrom 0 _
  · rw [hQf, hQid]
    intro x hx
    refine isPurgeable_of_mem_setIdxFrom hx ?_
    intro y hy
    exact hQp y (List.mem_of_mem_eraseP hy)
  · rw [hNPf, hNPsplit]
    intro x hx
    rcases List.mem_append.mp hx with h | h
    · exact hNn x h
    · rw [List.mem_singleton.mp h]
      unfold isPurgeable
      simp
  · unfold trackedRids tracked
    rw [hNPf, hQf, hQid, hNPsplit, List.map_append, List.map_append, rids_pqRemoveId]
    unfold trackedRids tracked at hNd
    rw [List.map_append] at hNd
    rw [List.nodup_append] at hNd
    obtain ⟨hndNP, hndQ, hdisj⟩ := hNd
    have hrmem : r.rid ∈ c.fPurgeableQueue.map (fun x => x.rid) :=
      List.mem_map_of_mem _ hmemQ
    have hE : ((c.fPurgeableQueue.map (fun x => x.rid)).eraseP
        (fun x => x == r.rid)).Sublist (c.fPurgeableQueue.map (fun x => x.rid)) :=
      List.eraseP_sublist _
    have hcount : (c.fPurgeableQueue.map (fun x => x.rid)).count r.rid ≤ 1 :=
      List.nodup_iff_count_le_one.mp hndQ r.rid
    rw [List.map_cons, List.map_nil]
    show ((c.fNonpurgeableResources.map (fun x => x.rid) ++ [r.rid]) ++
      (c.fPurgeableQueue.map (fun x => x.rid)).eraseP (fun x => x == r.rid)).Nodup
    have hperm : List.Perm
        ((c.fNonpurgeableResources.map (fun x => x.rid) ++ [r.rid]) ++
          (c.fPurgeableQueue.map (fun x => x.rid)).eraseP (fun x => x == r.rid))
        (r.rid :: (c.fNonpurgeableResources.map (fun x => x.rid) ++
          (c.fPurgeableQueue.map (fun x => x.rid)).eraseP (fun x => x == r.rid))) := by
      rw [List.append_assoc, List.singleton_append]
      exact List.perm_middle
    refine hperm.symm.nodup_iff.mp ?_
    rw [List.nodup_cons]
    refine ⟨?_, ?_⟩
    · intro hmem1
      rcases List.mem_append.mp hmem1 with h | h
      · exact hdisj h hrmem
      · exact not_mem_eraseP_of_count_le_one _ _ hcount h
    · rw [List.nodup_append]
      exact ⟨hndNP, hndQ.sublist hE, fun a ha hae => hdisj ha (hE.subset hae)⟩
theorem refAndMakeResourceMRU_WF (c : GrResourceCache) (r : GrGpuResource)
    (hWF : WF c) (hmem : r ∈ tracked c) : WF (refAndMakeResourceMRU c r) := by
  rcases hp : isPurgeable r with _ | _
  · have hred : refAndMakeResourceMRU c r =
        setRes (getNextTimestamp (setRes c r.rid
          (fun x => { x with refCnt := x.refCnt + 1 }))).2 r.rid
          (fun x => { x with timestamp := (getNextTimestamp (setRes c r.rid
            (fun x => { x with refCnt := x.refCnt + 1 }))).1 }) := by
      unfold refAndMakeResourceMRU
      rw [hp]
      simp only [Bool.false_eq_true, if_false]
    rw [hred]
    exact setRes_WF _ _ _ (fun x => rfl) (fun x => rfl) (fun x => rfl)
      (getNextTimestamp_WF _ (refCnt_setRes_WF c r hWF hmem hp))
  · have hmemQ : r ∈ c.fPurgeableQueue := by
      rcases List.mem_append.mp hmem with h | h
      · rw [hWF.2.2.2.1 r h] at hp
        cases hp
      · exact h
    have hred : refAndMakeResourceMRU c r =
        setRes (getNextTimestamp (setRes
          (addToNonpurgeableArray
            { c with fPurgeableQueue := pqRemoveId r.rid c.fPurgeableQueue } r) r.rid
          (fun x => { x with refCnt := x.refCnt + 1 }))).2 r.rid
          (fun x => { x with timestamp := (getNextTimestamp (setRes
            (addToNonpurgeableArray
              { c with fPurgeableQueue := pqRemoveId r.rid c.fPurgeableQueue } r) r.rid
            (fun x => { x with refCnt := x.refCnt + 1 }))).1 }) := by
      unfold refAndMakeResourceMRU
      rw [hp]
      simp only [if_true]
    rw [hred]
    exact setRes_WF _ _ _ (fun x => rfl) (fun x => rfl) (fun x => rfl)
      (getNextTimestamp_WF _ (promote_setRes_WF c r hWF hp hmemQ))

theorem notifyPurgeable_WF (c : GrResourceCache) (r : GrGpuResource)
    (hIx : idxFrom 0 c.fNonpurgeableResources = true)
    (hIq : idxFrom 0 c.fPurgeableQueue = true)
    (hQp : ∀ x ∈ c.fPurgeableQueue, isPurgeable x = true)
    (hNn : ∀ x ∈ c.fNonpurgeableResources, x.rid ≠ r.rid → isPurgeable x = false)
    (hNd : (trackedRids c).Nodup)
    (hmem : r ∈ c.fNonpurgeableResources)
    (hp : isPurgeable r = true) :
    WF (notifyPurgeable c r) := by
  have hQ1 : (removeFromNonpurgeableArray c r).fPurgeableQueue = c.fPurgeableQueue :=
    (removeFromNP_eq_parts c r).1
  have hridperm := removeFromNP_rid_perm c r hIx hmem
  have hndNPQ : ((c.fNonpurgeableResources.map (fun x => x.rid)) ++
      (c.fPurgeableQueue.map (fun x => x.rid))).Nodup := by
    unfold trackedRids tracked at hNd
    rw [List.map_append] at hNd
    exact hNd
  have hfresh : r.rid ∉ (removeFromNonpurgeableArray c
      r).fNonpurgeableResources.map (fun x => x.rid) := by
    have hndNP := List.Nodup.of_append_left hndNPQ
    have h1 : (r.rid :: (removeFromNonpurgeableArray c
        r).fNonpurgeableResources.map (fun x => x.rid)).Nodup :=
      hridperm.symm.nodup_iff.mp hndNP
    exact (List.nodup_cons.mp h1).1
  have hWF2 : WF { removeFromNonpurgeableArray c r with
      fPurgeableQueue := pqInsert r
        (removeFromNonpurgeableArray c r).fPurgeableQueue } := by
    refine ⟨?_, ?_, ?_, ?_, ?_⟩
    · show idxFrom 0 (removeFromNonpurgeableArray c r).fNonpurgeableResources = true
      exact removeFromNP_idx c r hIx hmem
    · show idxFrom 0 (pqInsert r
        (removeFromNonpurgeableArray c r).fPurgeableQueue) = true
      exact idxFrom_setIdxFrom 0 _
    · show ∀ x ∈ pqInsert r (removeFromNonpurgeableArray c r).fPurgeableQueue,
        isPurgeable x = true
      rw [hQ1]
      intro x hx
      refine isPurgeable_of_mem_setIdxFrom hx ?_
      intro z hz
      rcases List.mem_cons.mp ((orderedInsert_perm r _).subset hz) with h | h
      · rw [h]
        exact hp
      · exact hQp z h
    · show ∀ x ∈ (removeFromNonpurgeableArray c r).fNonpurgeableResources,
        isPurgeable x = false
      intro x hx
      have hxne : x.rid ≠ r.rid := by
        intro he
        exact hfresh (he ▸ List.mem_map_of_mem (fun x => x.rid) hx)
      have h1 : resData x ∈ c.fNonpurgeableResources.map resData :=
        (removeFromNP_map_perm c r hIx hmem).subset
          (List.mem_cons_of_mem _ (List.mem_map_of_mem resData hx))
      obtain ⟨y, hy, he⟩ := List.mem_map.mp h1
      rw [resData_isPurgeable x y he.symm]
      refine hNn y hy ?_
      rw [resData_rid y x he]
      exact hxne
    · unfold trackedRids tracked
      show (((removeFromNonpurgeableArray c r).fNonpurgeableResources ++
        pqInsert r (removeFromNonpurgeableArray c r).fPurgeableQueue).map
        (fun x => x.rid)).Nodup
      rw [hQ1, List.map_append]
      have hq : List.Perm ((pqInsert r c.fPurgeableQueue).map (fun x => x.rid))
          (r.rid :: c.fPurgeableQueue.map (fun x => x.rid)) := by
        have h1 := (pqInsert_map_perm r c.fPurgeableQueue).map
          (fun d : Nat × Nat × Bool × Bool ×
            Option Nat × Option Nat × Nat × Bool => d.1)
        rw [ridsOf_from_resData, List.map_cons, ridsOf_from_resData] at h1
        exact h1
      have hbig : List.Perm
          ((removeFromNonpurgeableArray c r).fNonpurgeableResources.map
              (fun x => x.rid) ++
            (pqInsert r c.fPurgeableQueue).map (fun x => x.rid))
          (c.fNonpurgeableResources.map (fun x => x.rid) ++
            c.fPurgeableQueue.map (fun x => x.rid)) := by
        refine (List.Perm.append_left _ hq).trans ?_
        refine List.Perm.trans List.perm_middle ?_
        rw [← List.cons_append]
        exact hridperm.append_right _
      exact hbig.nodup_iff.mpr hndNPQ
  unfold notifyPurgeable
  dsimp only
  split
  · split
    · split
      · exact didChangeBudgetStatus_WF _ _
          (setRes_WF _ _ _ (fun x => rfl) (fun x => rfl) (fun x => rfl) hWF2)
      · exact removeResource_WF_purgeable _ r hWF2 hp
    · exact removeResource_WF_purgeable _ r hWF2 hp
  · split
    · exact hWF2
    · exact removeResource_WF_purgeable _ r hWF2 hp
theorem unref_setRes_WF (c : GrResourceCache) (r : GrGpuResource)
    (hWF : WF c) (hmemNP : r ∈ c.fNonpurgeableResources)
    (hnp : isPurgeable { r with refCnt := r.refCnt - 1 } = false) :
    WF (setRes c r.rid (fun x => { x with refCnt := x.refCnt - 1 })) := by
  obtain ⟨hIx, hIq, hQp, hNn, hNd⟩ := hWF
  have hNPf : (setRes c r.rid
      (fun x => { x with refCnt := x.refCnt - 1 })).fNonpurgeableResources =
      c.fNonpurgeableResources.map
        (fun x => if x.rid = r.rid then { x with refCnt := x.refCnt - 1 } else x) := rfl
  have hQf : (setRes c r.rid
      (fun x => { x with refCnt := x.refCnt - 1 })).fPurgeableQueue =
      c.fPurgeableQueue.map
        (fun x => if x.rid = r.rid then { x with refCnt := x.refCnt - 1 } else x) := rfl
  have hg_idx : ∀ x : GrGpuResource,
      ((fun x => if x.rid = r.rid then { x with refCnt := x.refCnt - 1 } else x)
        x).cacheIndex = x.cacheIndex := by
    intro x
    by_cases h : x.rid = r.rid <;> simp [h]
  have hQid : c.fPurgeableQueue.map
      (fun x => if x.rid = r.rid then { x with refCnt := x.refCnt - 1 } else x) =
      c.fPurgeableQueue := by
    refine map_upd_id _ _ _ ?_
    intro x hx hxr
    have hxe : x = r := nodup_rid_unique hNd (List.mem_append_right _ hx)
      (List.mem_append_left _ hmemNP) hxr
    have hpx := hQp x hx
    rw [hxe, hNn r hmemNP] at hpx
    cases hpx
  refine ⟨?_, ?_, ?_, ?_, ?_⟩
  · rw [hNPf]
    exact idxFrom_map_idx _ hg_idx 0 _ hIx
  · rw [hQf, hQid]
    exact hIq
  · rw [hQf, hQid]
    exact hQp
  · rw [hNPf]
    intro x hx
    obtain ⟨y, hy, he⟩ := List.mem_map.mp hx
    rw [← he]
    by_cases h : y.rid = r.rid
    · have hye : y = r := nodup_rid_unique hNd (List.mem_append_left _ hy)
        (List.mem_append_left _ hmemNP) h
      rw [if_pos h, hye]
      exact hnp
    · rw [if_neg h]
      exact hNn y hy
  · unfold trackedRids tracked
    rw [hNPf, hQf, List.map_append,
      map_upd_rid c.fNonpurgeableResources r.rid
        (fun x => { x with refCnt := x.refCnt - 1 }) (fun x => rfl),
      map_upd_rid c.fPurgeableQueue r.rid
        (fun x => { x with refCnt := x.refCnt - 1 }) (fun x => rfl)]
    unfold trackedRids tracked at hNd
    rw [List.map_append] at hNd
    exact hNd

theorem unref_WF (c : GrResourceCache) (i : Nat) (hWF : WF c) : WF (unref c i) := by
  unfold unref
  rcases hl : lookupRes c i with _ | r
  · exact hWF
  · obtain ⟨hmemT, hrid⟩ := lookupRes_mem c i r hl
    dsimp only
    by_cases h0 : r.refCnt = 0
    · rw [if_pos h0]
      exact hWF
    · rw [if_neg h0]
      have hpr : isPurgeable r = false := by
        unfold isPurgeable
        simp [h0]
      have hmemNP : r ∈ c.fNonpurgeableResources := by
        rcases List.mem_append.mp hmemT with h | h
        · exact h
        · rw [hWF.2.2.1 r h] at hpr
          cases hpr
      rw [← hrid]
      rcases hpd : isPurgeable { r with refCnt := r.refCnt - 1 } with _ | _
      · show WF (setRes c r.rid (fun x => { x with refCnt := x.refCnt - 1 }))
        exact unref_setRes_WF c r hWF hmemNP hpd
      · show WF (notifyPurgeable
          (setRes c r.rid (fun x => { x with refCnt := x.refCnt - 1 }))
          { r with refCnt := r.refCnt - 1 })
        have hWFs := hWF
        obtain ⟨hIx, hIq, hQp, hNn, hNd⟩ := hWFs
        refine notifyPurgeable_WF _ _ ?_ ?_ ?_ ?_ ?_ ?_ hpd
        · exact idxFrom_map_idx _ (fun x => by
            by_cases h : x.rid = r.rid <;> simp [h]) 0 _ hIx
        · exact idxFrom_map_idx _ (fun x => by
            by_cases h : x.rid = r.rid <;> simp [h]) 0 _ hIq
        · intro x hx
          obtain ⟨y, hy, he⟩ := List.mem_map.mp hx
          rw [← he]
          have hyne : y.rid ≠ r.rid := by
            intro h
            have hye : y = r := nodup_rid_unique hNd (List.mem_append_right _ hy)
              (List.mem_append_left _ hmemNP) h
            have hpy := hQp y hy
            rw [hye, hpr] at hpy
            cases hpy
          rw [if_neg hyne]
          exact hQp y hy
        · intro x hx hxne
          obtain ⟨y, hy, he⟩ := List.mem_map.mp hx
          rw [← he]
          by_cases h : y.rid = r.rid
          · exfalso
            apply hxne
            rw [← he, if_pos h]
            exact h
          · rw [if_neg h]
            exact hNn y hy
        · unfold trackedRids tracked
          show ((c.fNonpurgeableResources.map
              (fun x => if x.rid = r.rid then
                { x with refCnt := x.refCnt - 1 } else x) ++
            c.fPurgeableQueue.map
              (fun x => if x.rid = r.rid then
                { x with refCnt := x.refCnt - 1 } else x)).map
              (fun x => x.rid)).Nodup
          rw [List.map_append,
            map_upd_rid c.fNonpurgeableResources r.rid
              (fun x => { x with refCnt := x.refCnt - 1 }) (fun x => rfl),
            map_upd_rid c.fPurgeableQueue r.rid
              (fun x => { x with refCnt := x.refCnt - 1 }) (fun x => rfl)]
          unfold trackedRids tracked at hNd
          rw [List.map_append] at hNd
          exact hNd
        · show ({ r with refCnt := r.refCnt - 1 } : GrGpuResource) ∈
            c.fNonpurgeableResources.map
              (fun x => if x.rid = r.rid then
                { x with refCnt := x.refCnt - 1 } else x)
          exact setRes_mem_image hmemNP rfl
theorem WF_fields (c c' : GrResourceCache)
    (hNP : c'.fNonpurgeableResources = c.fNonpurgeableResources)
    (hQ : c'.fPurgeableQueue = c.fPurgeableQueue) (h : WF c) : WF c' := by
  obtain ⟨h1, h2, h3, h4, h5⟩ := h
  refine ⟨?_, ?_, ?_, ?_, ?_⟩
  · rw [hNP]
    exact h1
  · rw [hQ]
    exact h2
  · rw [hQ]
    exact h3
  · rw [hNP]
    exact h4
  · unfold trackedRids tracked
    rw [hNP, hQ]
    unfold trackedRids tracked at h5
    exact h5

theorem addToNP_fresh_WF (c2 : GrResourceCache) (r1 : GrGpuResource)
    (hWF2 : WF c2) (hp : isPurgeable r1 = false)
    (hfr : r1.rid ∉ trackedRids c2) :
    WF (addToNonpurgeableArray c2 r1) := by
  obtain ⟨hIx2, hIq2, hQp2, hNn2, hNd2⟩ := hWF2
  have hNPf : (addToNonpurgeableArray c2 r1).fNonpurgeableResources =
      c2.fNonpurgeableResources ++
        [({ r1 with cacheIndex := (c2.fNonpurgeableResources.length : Int) } :
          GrGpuResource)] := rfl
  have hQfeq : (addToNonpurgeableArray c2 r1).fPurgeableQueue =
      c2.fPurgeableQueue := rfl
  have hfr2 : r1.rid ∉ c2.fNonpurgeableResources.map (fun x => x.rid) ++
      c2.fPurgeableQueue.map (fun x => x.rid) := by
    intro h
    refine hfr ?_
    unfold trackedRids tracked
    rw [List.map_append]
    exact h
  refine ⟨?_, ?_, ?_, ?_, ?_⟩
  · rw [hNPf]
    refine idxFrom_append_one _ 0 _ hIx2 ?_
    simp
  · rw [hQfeq]
    exact hIq2
  · rw [hQfeq]
    exact hQp2
  · rw [hNPf]
    intro x hx
    rcases List.mem_append.mp hx with h | h
    · exact hNn2 x h
    · rw [List.mem_singleton.mp h]
      exact hp
  · unfold trackedRids tracked
    rw [hNPf, hQfeq]
    rw [List.map_append, List.map_append, List.map_cons, List.map_nil]
    have hperm : List.Perm
        ((c2.fNonpurgeableResources.map (fun x => x.rid) ++ [r1.rid]) ++
          c2.fPurgeableQueue.map (fun x => x.rid))
        (r1.rid :: (c2.fNonpurgeableResources.map (fun x => x.rid) ++
          c2.fPurgeableQueue.map (fun x => x.rid))) := by
      rw [List.append_assoc, List.singleton_append]
      exact List.perm_middle
    refine hperm.symm.nodup_iff.mp ?_
    rw [List.nodup_cons]
    refine ⟨hfr2, ?_⟩
    unfold trackedRids tracked at hNd2
    rw [List.map_append] at hNd2
    exact hNd2

theorem getNextTimestamp_rid_fresh (c : GrResourceCache) (i : Nat)
    (hfr : i ∉ trackedRids c) : i ∉ trackedRids (getNextTimestamp c).2 := by
  intro h
  refine hfr ?_
  unfold trackedRids tracked at h ⊢
  rw [List.map_append] at h ⊢
  have hNPr := (getNextTimestamp_NP_perm c).map
    (fun d : Nat × Nat × Bool × Bool × Option Nat × Option Nat × Nat × Bool => d.1)
  rw [ridsOf_from_resData, ridsOf_from_resData] at hNPr
  have hQr := (getNextTimestamp_Q_perm c).map
    (fun d : Nat × Nat × Bool × Bool × Option Nat × Option Nat × Nat × Bool => d.1)
  rw [ridsOf_from_resData, ridsOf_from_resData] at hQr
  rcases List.mem_append.mp h with h1 | h1
  · exact List.mem_append_left _ (hNPr.subset h1)
  · exact List.mem_append_right _ (hQr.subset h1)

theorem insertResource_WF (c : GrResourceCache) (r : GrGpuResource)
    (hWF : WF c) (hp : isPurgeable r = false)
    (hfresh : r.rid ∉ trackedRids c) : WF (insertResource c r) := by
  have hWF2 := getNextTimestamp_WF c hWF
  have hfr2 : r.rid ∉ trackedRids (getNextTimestamp c).2 :=
    getNextTimestamp_rid_fresh c r.rid hfresh
  have hkey : WF (addToNonpurgeableArray (getNextTimestamp c).2
      { r with timestamp := (getNextTimestamp c).1 }) := by
    refine addToNP_fresh_WF _ _ hWF2 ?_ ?_
    · exact hp
    · exact hfr2
  unfold insertResource
  dsimp only
  refine purgeAsNeeded_WF _ ?_
  refine WF_fields _ _ ?_ ?_ hkey
  · rcases r.scratchKey with _ | k <;> rcases r.budgeted with _ | _ <;> rfl
  · rcases r.scratchKey with _ | k <;> rcases r.budgeted with _ | _ <;> rfl
theorem removeUniqueKey_WF (c : GrResourceCache) (r : GrGpuResource)
    (hWF : WF c) : WF (removeUniqueKey c r) := by
  unfold removeUniqueKey
  dsimp only
  rcases r.uniqueKey with _ | k <;>
    exact setRes_WF _ _ _ (fun x => rfl) (fun x => rfl) (fun x => rfl) hWF

theorem changeUniqueKeyInstall_WF (c : GrResourceCache) (r : GrGpuResource)
    (nk : Nat) (hWF : WF c) : WF (changeUniqueKeyInstall c r nk) := by
  unfold changeUniqueKeyInstall
  dsimp only
  rcases hf : uniqueFindRes c nk with _ | old
  · exact WF_fields _ _ rfl rfl
      (setRes_WF _ _ _ (fun x => rfl) (fun x => rfl) (fun x => rfl) hWF)
  · have hX : WF (if (!old.scratchKey.isSome && isPurgeable old) = true
        then removeResource c old
        else setRes { c with fUniqueHash := c.fUniqueHash.filter (fun p => p.1 != nk) }
          old.rid (fun x => { x with uniqueKey := none })) := by
      by_cases hcond : (!old.scratchKey.isSome && isPurgeable old) = true
      · rw [if_pos hcond]
        have hpold : isPurgeable old = true := by
          simp only [Bool.and_eq_true] at hcond
          exact hcond.2
        exact removeResource_WF_purgeable c old hWF hpold
      · rw [if_neg hcond]
        exact setRes_WF _ _ _ (fun x => rfl) (fun x => rfl) (fun x => rfl)
          (WF_fields c _ rfl rfl hWF)
    exact WF_fields _ _ rfl rfl
      (setRes_WF _ _ _ (fun x => rfl) (fun x => rfl) (fun x => rfl) hX)

theorem changeUniqueKey_WF (c : GrResourceCache) (r : GrGpuResource)
    (nk : Option Nat) (hWF : WF c) : WF (changeUniqueKey c r nk) := by
  unfold changeUniqueKey
  dsimp only
  have hWF0 : WF (match r.uniqueKey with
      | some k => { c with fUniqueHash := c.fUniqueHash.filter (fun p => p.1 != k) }
      | none => c) := by
    rcases r.uniqueKey with _ | k
    · exact hWF
    · exact WF_fields c _ rfl rfl hWF
  rcases nk with _ | k
  · exact setRes_WF _ _ _ (fun x => rfl) (fun x => rfl) (fun x => rfl) hWF0
  · exact changeUniqueKeyInstall_WF _ r k hWF0

theorem setBudgeted_WF (c : GrResourceCache) (i : Nat) (b : Bool)
    (hWF : WF c) : WF (setBudgeted c i b) := by
  unfold setBudgeted
  rcases hl : lookupRes c i with _ | r
  · exact hWF
  · dsimp only
    split
    · exact hWF
    · exact didChangeBudgetStatus_WF _ _
        (setRes_WF _ _ _ (fun x => rfl) (fun x => rfl) (fun x => rfl) hWF)

theorem didChangeGpuMemorySize_WF (c : GrResourceCache) (r : GrGpuResource)
    (oldSize : Nat) (hWF : WF c) : WF (didChangeGpuMemorySize c r oldSize) := by
  unfold didChangeGpuMemorySize
  dsimp only
  refine purgeAsNeeded_WF _ ?_
  refine WF_fields c _ ?_ ?_ hWF
  · rcases r.budgeted with _ | _ <;> rfl
  · rcases r.budgeted with _ | _ <;> rfl

theorem setLimits_WF (c : GrResourceCache) (count bytes : Nat)
    (hWF : WF c) : WF (setLimits c count bytes) := by
  unfold setLimits
  exact purgeAsNeeded_WF _ (WF_fields c _ rfl rfl hWF)

theorem drainQ_WF : ∀ (fuel : Nat) (c : GrResourceCache),
    WF c → WF (drainQ fuel c)
  | 0, _, h => h
  | fuel + 1, c, h => by
    have hstep0 : drainQ (fuel + 1) c =
        (match c.fPurgeableQueue.head? with
         | none => c
         | some r => drainQ fuel (removeResource c r)) := rfl
    rcases hq : c.fPurgeableQueue with _ | ⟨r, t⟩
    · rw [hq] at hstep0
      have hstep : drainQ (fuel + 1) c = c := hstep0
      rw [hstep]
      exact h
    · rw [hq] at hstep0
      have hstep : drainQ (fuel + 1) c = drainQ fuel (removeResource c r) := hstep0
      rw [hstep]
      refine drainQ_WF fuel _ (removeResource_WF_purgeable c r h ?_)
      refine h.2.2.1 r ?_
      rw [hq]
      exact List.mem_cons_self r t

theorem drainNP_WF : ∀ (fuel : Nat) (c : GrResourceCache),
    WF c → WF (drainNP fuel c)
  | 0, _, h => h
  | fuel + 1, c, h => by
    have hstep0 : drainNP (fuel + 1) c =
        (match c.fNonpurgeableResources.getLast? with
         | none => c
         | some back => drainNP fuel (removeResource c back)) := rfl
    rcases hq : c.fNonpurgeableResources.getLast? with _ | back
    · rw [hq] at hstep0
      have hstep : drainNP (fuel + 1) c = c := hstep0
      rw [hstep]
      exact h
    · rw [hq] at hstep0
      have hstep : drainNP (fuel + 1) c = drainNP fuel (removeResource c back) := hstep0
      rw [hstep]
      have hmem : back ∈ c.fNonpurgeableResources := by
        rcases hn : c.fNonpurgeableResources with _ | ⟨a, t⟩
        · rw [hn] at hq
          cases hq
        · rw [← hn]
          rw [List.getLast?_eq_getLast _ (by rw [hn]; exact List.cons_ne_nil a t)] at hq
          have := List.getLast_mem (l := c.fNonpurgeableResources)
            (by rw [hn]; exact List.cons_ne_nil a t)
          rw [Option.some.injEq] at hq
          rw [hq] at this
          exact this
      refine drainNP_WF fuel _ (removeResource_WF_nonpurgeable c back h ?_ ?_)
      · exact h.2.2.2.1 back hmem
      · exact List.mem_append_left _ hmem

theorem purgeAllUnlocked_WF (c : GrResourceCache) (hWF : WF c) :
    WF (purgeAllUnlocked c) :=
  drainQ_WF _ c hWF

theorem releaseAll_WF (c : GrResourceCache) (hWF : WF c) : WF (releaseAll c) :=
  drainQ_WF _ _ (drainNP_WF _ c hWF)

theorem abandonAll_WF (c : GrResourceCache) (hWF : WF c) : WF (abandonAll c) :=
  drainQ_WF _ _ (drainNP_WF _ c hWF)

theorem findAndRefScratchResource_WF (c : GrResourceCache) (key : Nat)
    (p q : Bool) (hWF : WF c) :
    WF (findAndRefScratchResource c key p q).1 := by
  unfold findAndRefScratchResource
  by_cases hpq : (p || q) = true
  · rw [if_pos hpq]
    rcases hf1 : findInScratchMap c key (AvailableForScratchUse true) with _ | r
    · by_cases hreq : q = true
      · rw [if_pos hreq]
        exact hWF
      · rw [if_neg hreq]
        rcases hf2 : findInScratchMap c key (AvailableForScratchUse false) with _ | r
        · exact hWF
        · exact refAndMakeResourceMRU_WF c r hWF
            (findInScratchMap_tracked c key _ r hf2)
    · exact refAndMakeResourceMRU_WF c r hWF (findInScratchMap_tracked c key _ r hf1)
  · rw [if_neg hpq]
    rcases hf : findInScratchMap c key (AvailableForScratchUse false) with _ | r
    · exact hWF
    · exact refAndMakeResourceMRU_WF c r hWF (findInScratchMap_tracked c key _ r hf)

theorem processInvalid_WF : ∀ (keys : List Nat) (c : GrResourceCache),
    WF c → WF (processInvalidUniqueKeys c keys)
  | [], _, h => h
  | k :: ks, c, h => by
    have hstep : processInvalidUniqueKeys c (k :: ks) =
        processInvalidUniqueKeys
          (match uniqueFindRes c k with
           | none => c
           | some r =>
             unref
               (match lookupRes (refAndMakeResourceMRU c r) r.rid with
                | some r1 => removeUniqueKey (refAndMakeResourceMRU c r) r1
                | none => refAndMakeResourceMRU c r) r.rid) ks := rfl
    rw [hstep]
    refine processInvalid_WF ks _ ?_
    rcases hu : uniqueFindRes c k with _ | r
    · exact h
    · have h1 := refAndMakeResourceMRU_WF c r h (uniqueFindRes_tracked c k r hu)
      have hgoal : WF (unref
          (match lookupRes (refAndMakeResourceMRU c r) r.rid with
           | some r1 => removeUniqueKey (refAndMakeResourceMRU c r) r1
           | none => refAndMakeResourceMRU c r) r.rid) := by
        rcases hl2 : lookupRes (refAndMakeResourceMRU c r) r.rid with _ | r1
        · exact unref_WF _ _ h1
        · exact unref_WF _ _ (removeUniqueKey_WF _ r1 h1)
      exact hgoal
/-- C7: after every mutating cache operation (run to completion on a
well-formed cache, with the operation's entry precondition), for every
tracked resource the back-index stored on the resource equals its
position in its partition, every resource in the purgeable heap is
purgeable, and every resource in the nonpurgeable array is
non-purgeable (together with distinctness of tracked ids, the
structural invariant `WF`). -/
theorem runOp_preserves_WF (op : CacheOp) (c : GrResourceCache)
    (hWF : WF c) (hpre : opPre op c = true) : WF (runOp op c) := by
  cases op with
  | insertR r =>
    unfold opPre at hpre
    simp only [Bool.and_eq_true, Bool.not_eq_true',
      decide_eq_false_iff_not] at hpre
    exact insertResource_WF c r hWF hpre.1 hpre.2
  | removeR i =>
    show WF (match lookupRes c i with
      | some r => removeResource c r
      | none => c)
    rcases hl : lookupRes c i with _ | r
    · exact hWF
    · exact removeResource_WF c r hWF (lookupRes_mem c i r hl).1
  | findScratch key p q => exact findAndRefScratchResource_WF c key p q hWF
  | changeUnique i nk =>
    show WF (match lookupRes c i with
      | some r => changeUniqueKey c r nk
      | none => c)
    rcases hl : lookupRes c i with _ | r
    · exact hWF
    · exact changeUniqueKey_WF c r nk hWF
  | removeUnique i =>
    show WF (match lookupRes c i with
      | some r => removeUniqueKey c r
      | none => c)
    rcases hl : lookupRes c i with _ | r
    · exact hWF
    · exact removeUniqueKey_WF c r hWF
  | unrefOp i => exact unref_WF c i hWF
  | purgeOp => exact purgeAsNeeded_WF c hWF
  | purgeAllOp => exact purgeAllUnlocked_WF c hWF
  | didChangeMem i oldSize =>
    show WF (match lookupRes c i with
      | some r => didChangeGpuMemorySize c r oldSize
      | none => c)
    rcases hl : lookupRes c i with _ | r
    · exact hWF
    · exact didChangeGpuMemorySize_WF c r oldSize hWF
  | setBudgetedOp i b => exact setBudgeted_WF c i b hWF
  | setLimitsOp count bytes => exact setLimits_WF c count bytes hWF
  | processInvalid keys => exact processInvalid_WF keys c hWF
  | releaseAllOp => exact releaseAll_WF c hWF
  | abandonAllOp => exact abandonAll_WF c hWF

theorem runOp_preserves_WF_witness :
    WF c8Cache ∧
    opPre (CacheOp.insertR (sampleRes 5 4 (some 11) none true 1 false)) c8Cache = true ∧
    WF (runOp (CacheOp.insertR (sampleRes 5 4 (some 11) none true 1 false)) c8Cache) :=
  ⟨by decide, by decide,
    runOp_preserves_WF (CacheOp.insertR (sampleRes 5 4 (some 11) none true 1 false))
      c8Cache (by decide) (by decide)⟩
theorem rankTs_nil (t : Nat) : rankTs t [] = 0 := rfl

theorem rankTs_shift (t a : Nat) (L : List Nat) (ha : a < t) :
    rankTs t (a :: L) = rankTs t L + 1 := by
  unfold rankTs
  rw [List.countP_cons]
  simp [ha]

theorem rankTs_skip (t a : Nat) (L : List Nat) (ha : ¬ a < t) :
    rankTs t (a :: L) = rankTs t L := by
  unfold rankTs
  rw [List.countP_cons]
  simp [ha]

theorem rankTs_append (t : Nat) (A B : List Nat) :
    rankTs t (A ++ B) = rankTs t A + rankTs t B := by
  unfold rankTs
  rw [List.countP_append]

theorem rankTs_eq_zero (t : Nat) (L : List Nat) (h : ∀ s ∈ L, ¬ s < t) :
    rankTs t L = 0 := by
  unfold rankTs
  rw [List.countP_eq_zero]
  intro a ha
  simp [h a ha]

theorem rankTs_congr_perm (t : Nat) {L M : List Nat} (h : List.Perm L M) :
    rankTs t L = rankTs t M := h.countP_eq _

theorem rankTs_lt (L : List Nat) (t s : Nat) (ht : t ∈ L) (hts : t < s) :
    rankTs t L < rankTs s L := by
  induction L with
  | nil => cases ht
  | cons a R ih =>
    rcases List.mem_cons.mp ht with h1 | h1
    · subst h1
      rw [rankTs_skip _ _ _ (by omega), rankTs_shift _ _ _ hts]
      have hmono : rankTs t R ≤ rankTs s R := by
        unfold rankTs
        refine List.countP_mono_left ?_
        intro x hx hxp
        simp only [decide_eq_true_eq] at hxp ⊢
        omega
      omega
    · have := ih h1
      by_cases ha : a < t
      · rw [rankTs_shift _ _ _ ha, rankTs_shift _ _ _ (by omega)]
        omega
      · rw [rankTs_skip _ _ _ ha]
        by_cases ha2 : a < s
        · rw [rankTs_shift _ _ _ ha2]
          omega
        · rw [rankTs_skip _ _ _ ha2]
          omega

theorem rankTs_lt_length (L : List Nat) (t : Nat) (ht : t ∈ L) :
    rankTs t L < L.length := by
  induction L with
  | nil => cases ht
  | cons a R ih =>
    rcases List.mem_cons.mp ht with h1 | h1
    · subst h1
      rw [rankTs_skip _ _ _ (by omega)]
      have : rankTs t R ≤ R.length := List.countP_le_length _
      simp only [List.length_cons]
      omega
    · have := ih h1
      simp only [List.length_cons]
      by_cases ha : a < t
      · rw [rankTs_shift _ _ _ ha]
        omega
      · rw [rankTs_skip _ _ _ ha]
        omega

theorem tsData_setIdxFrom (i : Nat) (l : List GrGpuResource) :
    (setIdxFrom i l).map tsData = l.map tsData := by
  induction l generalizing i with
  | nil => rfl
  | cons r t ih => simp [setIdxFrom, ih, tsData]

theorem pqInsert_tsData_perm (r : GrGpuResource) (l : List GrGpuResource) :
    List.Perm ((pqInsert r l).map tsData) (tsData r :: l.map tsData) := by
  unfold pqInsert
  rw [tsData_setIdxFrom]
  exact (orderedInsert_perm r l).map tsData

theorem pqRebuild_tsData_perm :
    ∀ (l acc : List GrGpuResource),
      List.Perm ((l.foldl (fun q r => pqInsert r q) acc).map tsData)
        (l.map tsData ++ acc.map tsData)
  | [], acc => by simp
  | a :: t, acc => by
    have ih := pqRebuild_tsData_perm t (pqInsert a acc)
    rw [List.foldl_cons]
    refine List.Perm.trans ih ?_
    have h1 : List.Perm ((pqInsert a acc).map tsData) (tsData a :: acc.map tsData) :=
      pqInsert_tsData_perm a acc
    refine List.Perm.trans (h1.append_left (t.map tsData)) ?_
    simp only [List.map_cons]
    exact List.perm_middle

theorem sortTs_tsData_perm (l : List GrGpuResource) :
    List.Perm ((sortTs l).map tsData) (l.map tsData) := by
  induction l with
  | nil => exact List.Perm.refl _
  | cons a t ih =>
    have h1 : sortTs (a :: t) = orderedInsert a (sortTs t) := rfl
    rw [h1]
    refine List.Perm.trans ((orderedInsert_perm a (sortTs t)).map tsData) ?_
    simpa using ih.cons (tsData a)
theorem orderedInsert_sorted (r : GrGpuResource) (l : List GrGpuResource)
    (h : List.Pairwise (fun a b => a.timestamp ≤ b.timestamp) l) :
    List.Pairwise (fun a b => a.timestamp ≤ b.timestamp) (orderedInsert r l) := by
  induction l with
  | nil => exact List.pairwise_singleton _ r
  | cons a t ih =>
    rw [List.pairwise_cons] at h
    unfold orderedInsert
    by_cases hlt : r.timestamp < a.timestamp
    · rw [if_pos hlt]
      rw [List.pairwise_cons]
      refine ⟨?_, List.pairwise_cons.mpr h⟩
      intro b hb
      rcases List.mem_cons.mp hb with h1 | h1
      · rw [h1]
        omega
      · have := h.1 b h1
        omega
    · rw [if_neg hlt]
      rw [List.pairwise_cons]
      refine ⟨?_, ih h.2⟩
      intro b hb
      rcases List.mem_cons.mp ((orderedInsert_perm r t).subset hb) with h1 | h1
      · rw [h1]
        omega
      · exact h.1 b h1

theorem sortTs_sorted (l : List GrGpuResource) :
    List.Pairwise (fun a b => a.timestamp ≤ b.timestamp) (sortTs l) := by
  induction l with
  | nil => exact List.Pairwise.nil
  | cons a t ih => exact orderedInsert_sorted a (sortTs t) ih

theorem pairwise_lt_of_le_nodup : ∀ (l : List GrGpuResource),
    List.Pairwise (fun a b => a.timestamp ≤ b.timestamp) l →
    (l.map (fun r => r.timestamp)).Nodup →
    List.Pairwise (fun a b => a.timestamp < b.timestamp) l
  | [], _, _ => List.Pairwise.nil
  | a :: t, h, hnd => by
    rw [List.pairwise_cons] at h
    rw [List.map_cons, List.nodup_cons] at hnd
    rw [List.pairwise_cons]
    refine ⟨?_, pairwise_lt_of_le_nodup t h.2 hnd.2⟩
    intro b hb
    have hle := h.1 b hb
    have hne : a.timestamp ≠ b.timestamp := by
      intro he
      exact hnd.1 (he ▸ List.mem_map_of_mem (fun r => r.timestamp) hb)
    omega
set_option maxHeartbeats 1600000 in
theorem mergeAssign_ts : ∀ (ps nps : List GrGpuResource) (ts i : Nat),
    List.Pairwise (fun a b => a.timestamp < b.timestamp) ps →
    List.Pairwise (fun a b => a.timestamp < b.timestamp) nps →
    (∀ a ∈ ps, ∀ b ∈ nps, a.timestamp ≠ b.timestamp) →
    ts + ps.length + nps.length < 4294967296 →
    (mergeAssign ps nps ts i).ps.map tsData =
      ps.map (fun p => (p.rid, ts + rankTs p.timestamp
        (ps.map (fun x => x.timestamp) ++ nps.map (fun x => x.timestamp)))) ∧
    (mergeAssign ps nps ts i).nps.map tsData =
      nps.map (fun p => (p.rid, ts + rankTs p.timestamp
        (ps.map (fun x => x.timestamp) ++ nps.map (fun x => x.timestamp)))) ∧
    (mergeAssign ps nps ts i).finalTs = ts + ps.length + nps.length
  | [], [], ts, i => by
    intro _ _ _ _
    rw [mergeAssign]
    exact ⟨rfl, rfl, rfl⟩
  | [], np :: nps, ts, i => by
    intro hps hnps hcross hb
    have hlen : ts + 1 + nps.length < 4294967296 := by
      simp only [List.length_nil, List.length_cons] at hb
      omega
    have hmod : (ts + 1) % 4294967296 = ts + 1 := Nat.mod_eq_of_lt (by omega)
    have hhd : ∀ b ∈ nps, np.timestamp < b.timestamp :=
      (List.pairwise_cons.mp hnps).1
    have ih := mergeAssign_ts [] nps (ts + 1) (i + 1) List.Pairwise.nil
      (List.pairwise_cons.mp hnps).2
      (fun a ha => absurd ha (List.not_mem_nil a)) hlen
    obtain ⟨ihp, ihn, ihf⟩ := ih
    rw [mergeAssign, hmod]
    refine ⟨rfl, ?_, ?_⟩
    · show ({ np with timestamp := ts, cacheIndex := (i : Int) } ::
          (mergeAssign [] nps (ts + 1) (i + 1)).nps).map tsData = _
      rw [List.map_cons, ihn, List.map_cons]
      have hrk0 : rankTs np.timestamp (([] : List GrGpuResource).map
          (fun x => x.timestamp) ++ (np :: nps).map (fun x => x.timestamp)) = 0 := by
        simp only [List.map_nil, List.nil_append, List.map_cons]
        rw [rankTs_skip _ _ _ (by omega)]
        refine rankTs_eq_zero _ _ ?_
        intro s hs
        obtain ⟨b, hbmem, hbe⟩ := List.mem_map.mp hs
        have := hhd b hbmem
        omega
      have hhead : (tsData { np with timestamp := ts, cacheIndex := (i : Int) }) =
          (np.rid, ts + rankTs np.timestamp
            (([] : List GrGpuResource).map (fun x => x.timestamp) ++
              (np :: nps).map (fun x => x.timestamp))) := by
        rw [hrk0]
        rfl
      rw [hhead]
      refine congrArg _ ?_
      refine List.map_congr_left ?_
      intro x hx
      have hlt := hhd x hx
      have hrk : rankTs x.timestamp
          (([] : List GrGpuResource).map (fun y => y.timestamp) ++
            (np :: nps).map (fun y => y.timestamp)) =
          rankTs x.timestamp
            (([] : List GrGpuResource).map (fun y => y.timestamp) ++
              nps.map (fun y => y.timestamp)) + 1 := by
        simp only [List.map_nil, List.nil_append, List.map_cons]
        rw [rankTs_shift _ _ _ hlt]
      rw [hrk]
      have : ts + (rankTs x.timestamp
          (([] : List GrGpuResource).map (fun y => y.timestamp) ++
            nps.map (fun y => y.timestamp)) + 1) =
          ts + 1 + rankTs x.timestamp
            (([] : List GrGpuResource).map (fun y => y.timestamp) ++
              nps.map (fun y => y.timestamp)) := by omega
      rw [this]
    · show (mergeAssign [] nps (ts + 1) (i + 1)).finalTs = _
      rw [ihf]
      simp only [List.length_nil, List.length_cons]
      omega
  | p :: ps, [], ts, i => by
    intro hps hnps hcross hb
    have hlen : ts + 1 + ps.length < 4294967296 := by
      simp only [List.length_nil, List.length_cons] at hb
      omega
    have hmod : (ts + 1) % 4294967296 = ts + 1 := Nat.mod_eq_of_lt (by omega)
    have hhd : ∀ b ∈ ps, p.timestamp < b.timestamp :=
      (List.pairwise_cons.mp hps).1
    have ih := mergeAssign_ts ps [] (ts + 1) i (List.pairwise_cons.mp hps).2
      List.Pairwise.nil
      (fun a _ b hb1 => absurd hb1 (List.not_mem_nil b)) hlen
    obtain ⟨ihp, ihn, ihf⟩ := ih
    rw [mergeAssign, hmod]
    refine ⟨?_, ?_, ?_⟩
    · show ({ p with timestamp := ts } ::
          (mergeAssign ps [] (ts + 1) i).ps).map tsData = _
      rw [List.map_cons, ihp, List.map_cons]
      have hrk0 : rankTs p.timestamp ((p :: ps).map (fun x => x.timestamp) ++
          ([] : List GrGpuResource).map (fun x => x.timestamp)) = 0 := by
        simp only [List.map_nil, List.append_nil, List.map_cons]
        rw [rankTs_skip _ _ _ (by omega)]
        refine rankTs_eq_zero _ _ ?_
        intro s hs
        obtain ⟨b, hbmem, hbe⟩ := List.mem_map.mp hs
        have := hhd b hbmem
        omega
      have hhead : (tsData { p with timestamp := ts }) =
          (p.rid, ts + rankTs p.timestamp
            ((p :: ps).map (fun x => x.timestamp) ++
              ([] : List GrGpuResource).map (fun x => x.timestamp))) := by
        rw [hrk0]
        rfl
      rw [hhead]
      refine congrArg _ ?_
      refine List.map_congr_left ?_
      intro x hx
      have hlt := hhd x hx
      have hrk : rankTs x.timestamp
          ((p :: ps).map (fun y => y.timestamp) ++
            ([] : List GrGpuResource).map (fun y => y.timestamp)) =
          rankTs x.timestamp
            (ps.map (fun y => y.timestamp) ++
              ([] : List GrGpuResource).map (fun y => y.timestamp)) + 1 := by
        simp only [List.map_nil, List.append_nil, List.map_cons]
        rw [rankTs_shift _ _ _ hlt]
      rw [hrk]
      have : ts + (rankTs x.timestamp
          (ps.map (fun y => y.timestamp) ++
            ([] : List GrGpuResource).map (fun y => y.timestamp)) + 1) =
          ts + 1 + rankTs x.timestamp
            (ps.map (fun y => y.timestamp) ++
              ([] : List GrGpuResource).map (fun y => y.timestamp)) := by omega
      rw [this]
    · exact ihn
    · show (mergeAssign ps [] (ts + 1) i).finalTs = _
      rw [ihf]
      simp only [List.length_nil, List.length_cons]
      omega
  | p :: ps, np :: nps, ts, i => by
    intro hps hnps hcross hb
    have hmod : (ts + 1) % 4294967296 = ts + 1 := Nat.mod_eq_of_lt (by
      simp only [List.length_cons] at hb
      omega)
    have hhdp : ∀ b ∈ ps, p.timestamp < b.timestamp :=
      (List.pairwise_cons.mp hps).1
    have hhdn : ∀ b ∈ nps, np.timestamp < b.timestamp :=
      (List.pairwise_cons.mp hnps).1
    rw [mergeAssign]
    by_cases hpn : p.timestamp < np.timestamp
    · rw [if_pos hpn, hmod]
      have hgt : ∀ x, (x ∈ ps ∨ x ∈ np :: nps) → p.timestamp < x.timestamp := by
        intro x hx
        rcases hx with h | h
        · exact hhdp x h
        · rcases List.mem_cons.mp h with h1 | h1
          · rw [h1]
            exact hpn
          · have := hhdn x h1
            omega
      have ih := mergeAssign_ts ps (np :: nps) (ts + 1) i
        (List.pairwise_cons.mp hps).2 hnps
        (fun a ha b hb1 => hcross a (List.mem_cons_of_mem p ha) b hb1)
        (by simp only [List.length_cons] at hb ⊢; omega)
      obtain ⟨ihp, ihn, ihf⟩ := ih
      simp only [List.map_cons, List.cons_append] at ihp ihn
      refine ⟨?_, ?_, ?_⟩
      · show ({ p with timestamp := ts } ::
            (mergeAssign ps (np :: nps) (ts + 1) i).ps).map tsData = _
        simp only [List.map_cons, List.cons_append]
        rw [ihp]
        congr 1
        · show ((p.rid, ts) : Nat × Nat) = _
          refine congrArg (Prod.mk p.rid) ?_
          rw [rankTs_skip _ _ _ (by omega)]
          have hz : rankTs p.timestamp (ps.map (fun x => x.timestamp) ++
              np.timestamp :: nps.map (fun x => x.timestamp)) = 0 := by
            refine rankTs_eq_zero _ _ ?_
            intro s hs
            rcases List.mem_append.mp hs with h | h
            · obtain ⟨b, hbmem, hbe⟩ := List.mem_map.mp h
              have := hhdp b hbmem
              omega
            · rcases List.mem_cons.mp h with h1 | h1
              · omega
              · obtain ⟨b, hbmem, hbe⟩ := List.mem_map.mp h1
                have := hhdn b hbmem
                omega
          rw [hz]
          omega
        · refine List.map_congr_left ?_
          intro x hx
          refine congrArg (Prod.mk x.rid) ?_
          rw [rankTs_shift _ _ _ (hgt x (Or.inl hx))]
          omega
      · show (mergeAssign ps (np :: nps) (ts + 1) i).nps.map tsData = _
        rw [ihn]
        simp only [List.map_cons, List.cons_append]
        congr 1
        · refine congrArg (Prod.mk np.rid) ?_
          rw [rankTs_shift _ _ _ hpn]
          omega
        · refine List.map_congr_left ?_
          intro x hx
          refine congrArg (Prod.mk x.rid) ?_
          rw [rankTs_shift _ _ _ (hgt x (Or.inr (List.mem_cons_of_mem np hx)))]
          omega
      · show (mergeAssign ps (np :: nps) (ts + 1) i).finalTs = _
        rw [ihf]
        simp only [List.length_cons]
        omega
    · have hlt : np.timestamp < p.timestamp := by
        have hne := hcross p (List.mem_cons_self p ps) np (List.mem_cons_self np nps)
        omega
      rw [if_neg hpn, hmod]
      have hgt : ∀ x, (x ∈ p :: ps ∨ x ∈ nps) → np.timestamp < x.timestamp := by
        intro x hx
        rcases hx with h | h
        · rcases List.mem_cons.mp h with h1 | h1
          · rw [h1]
            exact hlt
          · have := hhdp x h1
            omega
        · exact hhdn x h
      have ih := mergeAssign_ts (p :: ps) nps (ts + 1) (i + 1)
        hps (List.pairwise_cons.mp hnps).2
        (fun a ha b hb1 => hcross a ha b (List.mem_cons_of_mem np hb1))
        (by simp only [List.length_cons] at hb ⊢; omega)
      obtain ⟨ihp, ihn, ihf⟩ := ih
      simp only [List.map_cons, List.cons_append] at ihp ihn
      have key : ∀ t : Nat, np.timestamp < t →
          rankTs t (p.timestamp :: (ps.map (fun x => x.timestamp) ++
            np.timestamp :: nps.map (fun x => x.timestamp))) =
          rankTs t (p.timestamp :: (ps.map (fun x => x.timestamp) ++
            nps.map (fun x => x.timestamp))) + 1 := by
        intro t h
        by_cases hp : p.timestamp < t
        · rw [rankTs_shift _ _ _ hp, rankTs_shift _ _ _ hp, rankTs_append,
            rankTs_append, rankTs_shift _ _ _ h]
          omega
        · rw [rankTs_skip _ _ _ hp, rankTs_skip _ _ _ hp, rankTs_append,
            rankTs_append, rankTs_shift _ _ _ h]
          omega
      refine ⟨?_, ?_, ?_⟩
      · show (mergeAssign (p :: ps) nps (ts + 1) (i + 1)).ps.map tsData = _
        rw [ihp]
        simp only [List.map_cons, List.cons_append]
        congr 1
        · refine congrArg (Prod.mk p.rid) ?_
          rw [key p.timestamp hlt]
          omega
        · refine List.map_congr_left ?_
          intro x hx
          refine congrArg (Prod.mk x.rid) ?_
          rw [key x.timestamp (hgt x (Or.inl (List.mem_cons_of_mem p hx)))]
          omega
      · show ({ np with timestamp := ts, cacheIndex := (i : Int) } ::
            (mergeAssign (p :: ps) nps (ts + 1) (i + 1)).nps).map tsData = _
        simp only [List.map_cons, List.cons_append]
        rw [ihn]
        congr 1
        · show ((np.rid, ts) : Nat × Nat) = _
          refine congrArg (Prod.mk np.rid) ?_
          rw [rankTs_skip _ _ _ (by omega), rankTs_append]
          have h1 : rankTs np.timestamp (ps.map (fun x => x.timestamp)) = 0 := by
            refine rankTs_eq_zero _ _ ?_
            intro s hs
            obtain ⟨b, hbmem, hbe⟩ := List.mem_map.mp hs
            have := hhdp b hbmem
            omega
          have h2 : rankTs np.timestamp
              (np.timestamp :: nps.map (fun x => x.timestamp)) = 0 := by
            rw [rankTs_skip _ _ _ (by omega)]
            refine rankTs_eq_zero _ _ ?_
            intro s hs
            obtain ⟨b, hbmem, hbe⟩ := List.mem_map.mp hs
            have := hhdn b hbmem
            omega
          rw [h1, h2]
          omega
        · refine List.map_congr_left ?_
          intro x hx
          refine congrArg (Prod.mk x.rid) ?_
          rw [key x.timestamp (hgt x (Or.inr hx))]
          omega
      · show (mergeAssign (p :: ps) nps (ts + 1) (i + 1)).finalTs = _
        rw [ihf]
        simp only [List.length_cons]
        omega
termination_by ps nps _ _ => ps.length + nps.length
theorem ranks_perm_range (L : List Nat) (h : L.Nodup) :
    List.Perm (L.map (fun t => rankTs t L)) (List.range L.length) := by
  have hnd : (L.map (fun t => rankTs t L)).Nodup := by
    refine List.Nodup.map_on ?_ h
    intro x hx y hy hfe
    by_contra hne
    rcases Nat.lt_or_ge x y with hlt | hge
    · have := rankTs_lt L x y hx hlt
      omega
    · have hlt2 : y < x := by omega
      have := rankTs_lt L y x hy hlt2
      omega
  have hsub : (L.map (fun t => rankTs t L)) ⊆ List.range L.length := by
    intro v hv
    obtain ⟨t, htm, hte⟩ := List.mem_map.mp hv
    refine List.mem_range.mpr ?_
    rw [← hte]
    exact rankTs_lt_length L t htm
  refine List.Subperm.perm_of_length_le (List.Nodup.subperm hnd hsub) ?_
  rw [List.length_map, List.length_range]

theorem wrapRecovery_ranks (c : GrResourceCache)
    (hsort : sortedTs c.fPurgeableQueue)
    (hdist : ((tracked c).map (fun r => r.timestamp)).Nodup)
    (hbound : c.fTimestamp + getResourceCount c < 4294967296) :
    List.Perm ((tracked (wrapRecovery c)).map tsData)
      ((tracked c).map (fun r => (r.rid, c.fTimestamp +
        rankTs r.timestamp ((tracked c).map (fun x => x.timestamp))))) ∧
    (wrapRecovery c).fTimestamp = c.fTimestamp + getResourceCount c := by
  have hdist' : (c.fNonpurgeableResources.map (fun r => r.timestamp) ++
      c.fPurgeableQueue.map (fun r => r.timestamp)).Nodup := by
    unfold tracked at hdist
    rw [List.map_append] at hdist
    exact hdist
  have hndNP := List.Nodup.of_append_left hdist'
  have hndQ := List.Nodup.of_append_right hdist'
  have hdisj := (List.nodup_append.mp hdist').2.2
  have hTSS : List.Perm
      ((sortTs c.fNonpurgeableResources).map (fun r => r.timestamp))
      (c.fNonpurgeableResources.map (fun r => r.timestamp)) := by
    have h0 := (sortTs_tsData_perm c.fNonpurgeableResources).map Prod.snd
    rw [List.map_map, List.map_map] at h0
    exact h0
  have hQs : List.Pairwise (fun a b => a.timestamp < b.timestamp)
      c.fPurgeableQueue := pairwise_lt_of_le_nodup _ hsort hndQ
  have hSs : List.Pairwise (fun a b => a.timestamp < b.timestamp)
      (sortTs c.fNonpurgeableResources) :=
    pairwise_lt_of_le_nodup _ (sortTs_sorted _) (hTSS.nodup_iff.mpr hndNP)
  have hcross : ∀ a ∈ c.fPurgeableQueue, ∀ b ∈ sortTs c.fNonpurgeableResources,
      a.timestamp ≠ b.timestamp := by
    intro a ha b hb he
    have hbts : b.timestamp ∈
        c.fNonpurgeableResources.map (fun r => r.timestamp) :=
      hTSS.subset (List.mem_map_of_mem (fun r => r.timestamp) hb)
    have hats : a.timestamp ∈ c.fPurgeableQueue.map (fun r => r.timestamp) :=
      List.mem_map_of_mem (fun r => r.timestamp) ha
    exact hdisj hbts (he ▸ hats)
  have hlenS : (sortTs c.fNonpurgeableResources).length =
      c.fNonpurgeableResources.length := by
    have := hTSS.length_eq
    simpa using this
  have hlen : c.fTimestamp + c.fPurgeableQueue.length +
      (sortTs c.fNonpurgeableResources).length < 4294967296 := by
    unfold getResourceCount at hbound
    omega
  obtain ⟨mps, mnps, mfin⟩ := mergeAssign_ts c.fPurgeableQueue
    (sortTs c.fNonpurgeableResources) c.fTimestamp 0 hQs hSs hcross hlen
  have hreb := pqRebuild_tsData_perm
    (mergeAssign c.fPurgeableQueue (sortTs c.fNonpurgeableResources)
      c.fTimestamp 0).ps []
  rw [List.map_nil, List.append_nil] at hreb
  have hREFperm : List.Perm
      (c.fPurgeableQueue.map (fun x => x.timestamp) ++
        (sortTs c.fNonpurgeableResources).map (fun x => x.timestamp))
      ((tracked c).map (fun x => x.timestamp)) := by
    refine (List.Perm.append_left _ hTSS).trans ?_
    have h1 : (tracked c).map (fun x => x.timestamp) =
        c.fNonpurgeableResources.map (fun x => x.timestamp) ++
          c.fPurgeableQueue.map (fun x => x.timestamp) := by
      unfold tracked
      rw [List.map_append]
    rw [h1]
    exact List.perm_append_comm
  have hSF : List.Perm
      ((sortTs c.fNonpurgeableResources).map (fun p => ((p.rid : Nat),
        c.fTimestamp + rankTs p.timestamp
          (c.fPurgeableQueue.map (fun x => x.timestamp) ++
            (sortTs c.fNonpurgeableResources).map (fun x => x.timestamp)))))
      (c.fNonpurgeableResources.map (fun p => ((p.rid : Nat),
        c.fTimestamp + rankTs p.timestamp
          (c.fPurgeableQueue.map (fun x => x.timestamp) ++
            (sortTs c.fNonpurgeableResources).map (fun x => x.timestamp))))) := by
    have h1 := (sortTs_tsData_perm c.fNonpurgeableResources).map
      (fun q : Nat × Nat => (q.1, c.fTimestamp + rankTs q.2
        (c.fPurgeableQueue.map (fun x => x.timestamp) ++
          (sortTs c.fNonpurgeableResources).map (fun x => x.timestamp))))
    rw [List.map_map, List.map_map] at h1
    exact h1
  constructor
  · have htr : (tracked (wrapRecovery c)).map tsData =
        (mergeAssign c.fPurgeableQueue (sortTs c.fNonpurgeableResources)
          c.fTimestamp 0).nps.map tsData ++
        ((mergeAssign c.fPurgeableQueue (sortTs c.fNonpurgeableResources)
          c.fTimestamp 0).ps.foldl (fun q r => pqInsert r q) []).map tsData := by
      unfold tracked wrapRecovery
      rw [List.map_append]
    rw [htr, mnps]
    have hstep1 : List.Perm
        (((mergeAssign c.fPurgeableQueue (sortTs c.fNonpurgeableResources)
          c.fTimestamp 0).ps.foldl (fun q r => pqInsert r q) []).map tsData)
        (c.fPurgeableQueue.map (fun p => ((p.rid : Nat), c.fTimestamp +
          rankTs p.timestamp (c.fPurgeableQueue.map (fun x => x.timestamp) ++
            (sortTs c.fNonpurgeableResources).map (fun x => x.timestamp))))) := by
      rw [← mps]
      exact hreb
    refine (List.Perm.append_left _ hstep1).trans ?_
    refine (hSF.append_right _).trans ?_
    have h2 : ∀ (l : List GrGpuResource),
        l.map (fun p => ((p.rid : Nat), c.fTimestamp + rankTs p.timestamp
          (c.fPurgeableQueue.map (fun x => x.timestamp) ++
            (sortTs c.fNonpurgeableResources).map (fun x => x.timestamp)))) =
        l.map (fun p => ((p.rid : Nat), c.fTimestamp + rankTs p.timestamp
          ((tracked c).map (fun x => x.timestamp)))) := by
      intro l
      refine List.map_congr_left ?_
      intro x hx
      rw [rankTs_congr_perm x.timestamp hREFperm]
    rw [h2, h2]
    have h3 : (tracked c).map (fun p => ((p.rid : Nat),
        c.fTimestamp + rankTs p.timestamp
          ((tracked c).map (fun x => x.timestamp)))) =
        c.fNonpurgeableResources.map (fun p => ((p.rid : Nat),
          c.fTimestamp + rankTs p.timestamp
            ((tracked c).map (fun x => x.timestamp)))) ++
        c.fPurgeableQueue.map (fun p => ((p.rid : Nat),
          c.fTimestamp + rankTs p.timestamp
            ((tracked c).map (fun x => x.timestamp)))) := by
      unfold tracked
      rw [List.map_append]
    rw [h3]
  · show (mergeAssign c.fPurgeableQueue (sortTs c.fNonpurgeableResources)
      c.fTimestamp 0).finalTs = _
    rw [mfin, hlenS]
    unfold getResourceCount
    omega
/-- C3: when `getNextTimestamp` runs with the counter at 0 while `n > 0`
resources are tracked (the wrap case), it renumbers the tracked
resources with the timestamps `0, 1, ..., n-1` — pairwise distinct,
dense starting at 0 (their multiset is exactly `range n`), each
resource receiving the rank of its old timestamp so that the
pre-recovery relative order is preserved across both partitions —
the nonpurgeable back-indices equal the post-sort slots, the call
returns `n`, and the counter resumes past it. -/
theorem getNextTimestamp_wrap_spec (c : GrResourceCache)
    (hts : c.fTimestamp = 0) (hn : getResourceCount c ≠ 0)
    (hWF : WF c) (hsort : sortedTs c.fPurgeableQueue)
    (hdist : ((tracked c).map (fun r => r.timestamp)).Nodup)
    (hbound : getResourceCount c < 4294967296) :
    (getNextTimestamp c).1 = getResourceCount c ∧
    (getNextTimestamp c).2.fTimestamp = (getResourceCount c + 1) % 4294967296 ∧
    idxFrom 0 (getNextTimestamp c).2.fNonpurgeableResources = true ∧
    List.Perm ((tracked (getNextTimestamp c).2).map (fun r => r.timestamp))
      (List.range (getResourceCount c)) ∧
    (∀ r ∈ tracked c, ∃ r' ∈ tracked (getNextTimestamp c).2,
      r'.rid = r.rid ∧ r'.timestamp =
        rankTs r.timestamp ((tracked c).map (fun x => x.timestamp))) ∧
    (∀ a ∈ tracked c, ∀ b ∈ tracked c,
      ∀ a' ∈ tracked (getNextTimestamp c).2,
      ∀ b' ∈ tracked (getNextTimestamp c).2,
      a'.rid = a.rid → b'.rid = b.rid → a.timestamp < b.timestamp →
      a'.timestamp < b'.timestamp) := by
  obtain ⟨hbig0, hfin⟩ := wrapRecovery_ranks c hsort hdist (by rw [hts]; omega)
  rw [hts] at hbig0 hfin
  simp only [Nat.zero_add] at hbig0 hfin
  have hred : getNextTimestamp c = ((wrapRecovery c).fTimestamp,
      { wrapRecovery c with
        fTimestamp := ((wrapRecovery c).fTimestamp + 1) % 4294967296 }) := by
    unfold getNextTimestamp
    rw [if_pos ⟨hts, hn⟩]
  have htr : tracked (getNextTimestamp c).2 = tracked (wrapRecovery c) := by
    rw [hred]
    rfl
  have hbig : List.Perm ((tracked (getNextTimestamp c).2).map tsData)
      ((tracked c).map (fun r => (r.rid, rankTs r.timestamp
        ((tracked c).map (fun x => x.timestamp))))) := by
    rw [htr]
    exact hbig0
  refine ⟨?_, ?_, ?_, ?_, ?_, ?_⟩
  · rw [hred]
    exact hfin
  · rw [hred]
    show ((wrapRecovery c).fTimestamp + 1) % 4294967296 = _
    rw [hfin]
  · rw [hred]
    show idxFrom 0 (wrapRecovery c).fNonpurgeableResources = true
    show idxFrom 0 (mergeAssign c.fPurgeableQueue
      (sortTs c.fNonpurgeableResources) c.fTimestamp 0).nps = true
    exact mergeAssign_npsIdx _ _ _ _
  · have h2 := hbig.map Prod.snd
    rw [List.map_map, List.map_map] at h2
    have h3 : List.Perm
        ((tracked (getNextTimestamp c).2).map (fun r => r.timestamp))
        ((tracked c).map (fun r => rankTs r.timestamp
          ((tracked c).map (fun x => x.timestamp)))) := h2
    refine h3.trans ?_
    have h4 : (tracked c).map (fun r => rankTs r.timestamp
        ((tracked c).map (fun x => x.timestamp))) =
        ((tracked c).map (fun x => x.timestamp)).map (fun t => rankTs t
          ((tracked c).map (fun x => x.timestamp))) := by
      rw [List.map_map]
      rfl
    rw [h4]
    refine (ranks_perm_range _ hdist).trans ?_
    have h6 : ((tracked c).map (fun x => x.timestamp)).length =
        getResourceCount c := by
      rw [List.length_map]
      unfold tracked getResourceCount
      rw [List.length_append]
      omega
    rw [h6]
  · intro r hr
    have hx : ((r.rid : Nat), rankTs r.timestamp
        ((tracked c).map (fun x => x.timestamp))) ∈
        (tracked c).map (fun r => ((r.rid : Nat), rankTs r.timestamp
          ((tracked c).map (fun x => x.timestamp)))) :=
      List.mem_map_of_mem _ hr
    have hmem' := hbig.symm.subset hx
    obtain ⟨r', hr', he⟩ := List.mem_map.mp hmem'
    refine ⟨r', hr', ?_, ?_⟩
    · rw [show r'.rid = (tsData r').1 from rfl, he]
    · rw [show r'.timestamp = (tsData r').2 from rfl, he]
  · intro a ha b hb a' ha' b' hb' hra hrb hlt
    have hlook : ∀ x', x' ∈ tracked (getNextTimestamp c).2 →
        ∀ x, x ∈ tracked c → x'.rid = x.rid →
        x'.timestamp = rankTs x.timestamp
          ((tracked c).map (fun y => y.timestamp)) := by
      intro x' hx' x hx hrid
      have h1 : tsData x' ∈ (tracked (getNextTimestamp c).2).map tsData :=
        List.mem_map_of_mem tsData hx'
      have h2 := hbig.subset h1
      obtain ⟨y, hy, hye⟩ := List.mem_map.mp h2
      have hyrid : y.rid = x'.rid := by
        rw [show x'.rid = (tsData x').1 from rfl, ← hye]
      have hyx : y = x := by
        refine nodup_rid_unique hWF.2.2.2.2 hy hx ?_
        rw [hyrid, hrid]
      have hts' : x'.timestamp = rankTs y.timestamp
          ((tracked c).map (fun z => z.timestamp)) := by
        rw [show x'.timestamp = (tsData x').2 from rfl, ← hye]
      rw [hts', hyx]
    have ha2 := hlook a' ha' a ha hra
    have hb2 := hlook b' hb' b hb hrb
    rw [ha2, hb2]
    exact rankTs_lt _ _ _ (List.mem_map_of_mem (fun y => y.timestamp) ha) hlt

theorem getNextTimestamp_wrap_spec_witness :
    c3Cache.fTimestamp = 0 ∧ getResourceCount c3Cache ≠ 0 ∧ WF c3Cache ∧
    sortedTs c3Cache.fPurgeableQueue ∧
    ((tracked c3Cache).map (fun r => r.timestamp)).Nodup ∧
    getResourceCount c3Cache < 4294967296 ∧
    (getNextTimestamp c3Cache).1 = getResourceCount c3Cache :=
  ⟨rfl, by decide, by decide, by decide, by decide, by decide,
    (getNextTimestamp_wrap_spec c3Cache rfl (by decide) (by decide) (by decide)
      (by decide) (by decide)).1⟩
